import Mathlib

/-!
# o11y-tenant-controller: tenant lifecycle jobs and watcher reconciliation

A shallow embedding of `internal/jobs/jobs.go` and `internal/watcher/watcher.go`, of the
backend packages `internal/alertingmonitor`, `internal/sre`, `internal/loki` and
`internal/mimir` with the HTTP helpers of `internal/util/util.go`, of the project stream of
`internal/projects/projects.go`, and of the handlers of `internal/controller/controller.go`.

Conventions of the embedding
* A Go `error` result is an `Option GoError`; `none` is `nil`.
* A pointer that may be `nil` is an `Option`.
* Calls that leave the process (resource store, RPC and HTTP backends, timers, context
  cancellation) are answered by explicit response arguments, and every call issued to the
  resource store is recorded in a call list.
* `time.Duration` is an `Int` number of nanoseconds.
* A `float64` is a `Float64`: a finite value is an integer times a power of two, and every
  `float64` operation of the backoff computation computes its exact result and rounds it
  to the nearest `float64`, ties to even. `math.Pow` is embedded from the portable Go
  implementation of the standard library.
-/

namespace TenantController

/-! ## Errors -/

/-- Error values created outside this repository: by the nexus client, by gRPC or by the
HTTP client. `watcher.IDsDoNotMatchError` is declared in an internal package of this
repository, so no external library can create one. -/
inductive ExtError where
  /-- An error for which `nexus.IsNotFound` holds. -/
  | notFound
  /-- An error for which `nexus.IsChildNotFound` holds. -/
  | childNotFound
  /-- An error for which `nexus.IsAlreadyExists` holds. -/
  | alreadyExists
  /-- A gRPC status error with the given numeric code. -/
  | grpc (code : Nat)
  /-- Any other failure. -/
  | other (msg : String)
  deriving DecidableEq, Repr

/-- The value of `nexus.IsNotFound(err)`. -/
def IsNotFound : Option ExtError → Bool
  | some .notFound => true
  | _ => false

/-- The value of `nexus.IsChildNotFound(err)`. -/
def IsChildNotFound : Option ExtError → Bool
  | some .childNotFound => true
  | _ => false

/-- Go error values as far as the code distinguishes them. -/
inductive GoError where
  /-- The value `watcher.IDsDoNotMatchError{msg}`. -/
  | idsDoNotMatch (msg : String)
  /-- The sentinel `context.Canceled`. -/
  | canceled
  /-- The sentinel `context.DeadlineExceeded`. -/
  | deadlineExceeded
  /-- An error value returned by an external library. -/
  | ext (e : ExtError)
  /-- The result of `errors.New(msg)` or of `fmt.Errorf` without the `%w` verb. -/
  | new (msg : String)
  /-- The result of `fmt.Errorf(msg + ": %w", inner)`. -/
  | wrap (msg : String) (inner : GoError)
  deriving DecidableEq, Repr

/-- The value of `errors.As(err, &watcher.IDsDoNotMatchError{})` for a non-nil `err`:
the error chain is walked through `%w` wrappers. -/
def GoError.asIDsDoNotMatch : GoError → Bool
  | .idsDoNotMatch _ => true
  | .wrap _ inner => inner.asIDsDoNotMatch
  | _ => false

/-- The value of `errors.Is(err, context.Canceled)` for a non-nil `err`. -/
def GoError.isCanceled : GoError → Bool
  | .canceled => true
  | .wrap _ inner => inner.isCanceled
  | _ => false

/-- The value of `errors.As(err, &watcher.IDsDoNotMatchError{})`; false for `nil`. -/
def errorsAsIDsDoNotMatch : Option GoError → Bool
  | none => false
  | some e => e.asIDsDoNotMatch

/-- The value of `errors.Is(err, context.Canceled)`; false for `nil`. -/
def errorsIsCanceled : Option GoError → Bool
  | none => false
  | some e => e.isCanceled

/-! ## Contexts and sleeping -/

/-- The non-nil values of `ctx.Err()`. -/
inductive CtxErr where
  | canceled
  | deadlineExceeded
  deriving DecidableEq, Repr

/-- The Go error value of a context error. -/
def CtxErr.toError : CtxErr → GoError
  | .canceled => .canceled
  | .deadlineExceeded => .deadlineExceeded

/-- Which case of the `select` in `SleepWithContext` ran. -/
inductive Wake where
  /-- The case `<-timer.C`: the whole duration elapsed. -/
  | timer
  /-- The case `<-ctx.Done()`, with the value of `ctx.Err()`. -/
  | done (err : CtxErr)
  deriving DecidableEq, Repr

/-- Embedding of `util.SleepWithContext`: `ctx.Err()` when the context ended the sleep,
`nil` when the timer did. -/
def SleepWithContext : Wake → Option GoError
  | .timer => none
  | .done e => some e.toError

/-! ## Job status and backoff configuration -/

/-- The type `jobStatus` with its six constants, in `iota` order. -/
inductive jobStatus where
  | jobCreated
  | jobInProgress
  | jobCancelled
  | tenantCreated
  | tenantDeleted
  | tenantIDsNotMatch
  deriving DecidableEq, Repr

/-- The type `controller.Action`. -/
inductive Action where
  | InitializeTenant
  | CleanupTenant
  deriving DecidableEq, Repr

/-! ## `float64` arithmetic

The backoff computation of `manageTenant` is carried out on `float64` values. A finite value
is kept as an integer `m` and an exponent `e` and stands for the number `m * 2^e`; an
operation computes its exact result and rounds it once, to the nearest `float64`, ties to
even, as IEEE 754 prescribes. The two zeros are not told apart: no operation below depends
on the sign of a zero. -/

/-- A value of the Go type `float64`. -/
inductive Float64 where
  /-- The finite number `m * 2^e`. -/
  | finite (m : Int) (e : Int)
  /-- Plus or minus infinity. -/
  | inf (negative : Bool)
  /-- Not a number. -/
  | nan
  deriving DecidableEq, Repr

/-- The number of binary digits of `n`; `fuel` bounds the digits that are counted. -/
def bitLength : Nat → Nat → Nat
  | 0, _ => 0
  | fuel + 1, n => if n = 0 then 0 else bitLength fuel (n / 2) + 1

/-- The `float64` nearest to the number `m * 2^e`, ties to even: 53 binary digits in the
normal range, fewer below `2^-1022`, where the spacing stays `2^-1074`, and infinity when
the rounded number reaches `2^1024`, that is when it has more than `1024` binary digits
before the point. -/
def Float64.round (m e : Int) : Float64 :=
  if m = 0 then .finite 0 0
  else
    let n := m.natAbs
    let q := max ((bitLength n n : Int) - 1 + e - 52) (-1074)
    let r : Nat :=
      if q ≤ e then n * 2 ^ (e - q).toNat
      else
        let sh := (q - e).toNat
        let fl := n / 2 ^ sh
        let rem := n % 2 ^ sh
        let half := 2 ^ (sh - 1)
        if half < rem ∨ (rem = half ∧ fl % 2 = 1) then fl + 1 else fl
    if 1024 < (bitLength r r : Int) + q then .inf (decide (m < 0))
    else .finite (if m < 0 then -(r : Int) else (r : Int)) q

/-- The integer `2^k`. -/
def pow2 (k : Nat) : Int := ((2 ^ k : Nat) : Int)

/-- The conversion `float64(n)` of an integer. -/
def Float64.ofInt (n : Int) : Float64 := Float64.round n 0

/-- The `float64` product `x * y`. -/
def Float64.mul : Float64 → Float64 → Float64
  | .nan, _ => .nan
  | _, .nan => .nan
  | .inf s, .inf t => .inf (s != t)
  | .inf s, .finite m _ => if m = 0 then .nan else .inf (s != decide (m < 0))
  | .finite m _, .inf t => if m = 0 then .nan else .inf (decide (m < 0) != t)
  | .finite m e, .finite m2 e2 => Float64.round (m * m2) (e + e2)

/-- The comparison `x < y` of two `float64` values; false when one of them is not a
number. -/
def Float64.lt : Float64 → Float64 → Bool
  | .nan, _ => false
  | _, .nan => false
  | .inf s, .inf t => s && !t
  | .inf s, .finite _ _ => s
  | .finite _ _, .inf t => !t
  | .finite m e, .finite m2 e2 =>
    decide (m * pow2 (e - min e e2).toNat < m2 * pow2 (e2 - min e e2).toNat)

/-- The comparison `x <= y` of two `float64` values; false when one of them is not a
number. -/
def Float64.le : Float64 → Float64 → Bool
  | .nan, _ => false
  | _, .nan => false
  | .inf s, .inf t => s || !t
  | .inf s, .finite _ _ => s
  | .finite _ _, .inf t => !t
  | .finite m e, .finite m2 e2 =>
    decide (m * pow2 (e - min e e2).toNat ≤ m2 * pow2 (e2 - min e e2).toNat)

/-- The comparison `x == 1`. -/
def Float64.isOne : Float64 → Bool
  | .finite m e => decide (m * pow2 (e - min e 0).toNat = pow2 (0 - min e 0).toNat)
  | _ => false

/-- The conversion `time.Duration(x)` of a `float64` to a 64-bit integer: truncation toward
zero. For a value outside the range of `int64`, and for one that is not a number, the Go
specification leaves the result to the implementation; the value taken here, `-2^63`, is
the one the amd64 instruction gives. -/
def Float64.toDuration : Float64 → Int
  | .finite m e =>
    let t := if 0 ≤ e then m * pow2 e.toNat else Int.tdiv m (pow2 (-e).toNat)
    if -(2 ^ 63) ≤ t ∧ t < 2 ^ 63 then t else -(2 ^ 63)
  | _ => -(2 ^ 63)

/-- The loop of `math.Pow` that multiplies the answer `a1 * 2^ae` by `x^yi`, for
`x = x1 * 2^xe`: `i` holds the binary digits of `yi` not yet used. The loop runs once for
each binary digit of an `int64`. -/
def math.powLoop : Nat → Nat → Float64 → Int → Float64 → Int → Float64 × Int
  | 0, _, _, _, a1, ae => (a1, ae)
  | fuel + 1, i, x1, xe, a1, ae =>
    if i = 0 then (a1, ae)
    else if xe < -4096 ∨ 4096 < xe then (a1, ae + xe)
    else
      let a1n := if i % 2 = 1 then a1.mul x1 else a1
      let aen := if i % 2 = 1 then ae + xe else ae
      let x1s := x1.mul x1
      let xes := xe * 2
      if x1s.lt (.finite 1 (-1)) then
        math.powLoop fuel (i / 2) (x1s.mul (.finite 2 0)) (xes - 1) a1n aen
      else math.powLoop fuel (i / 2) x1s xes a1n aen

/-- Embedding of `math.Pow(x, float64(cnt))` of the Go standard library (`math/pow.go`, the
portable implementation), for a counter `0 ≤ cnt < 2^53`, which `float64(cnt)` holds
exactly. The exponent is a non-negative whole number, so the cases of `math.Pow` for
negative, fractional, infinite and undefined exponents do not arise. `Frexp` splits `x`
into a fraction in `[1/2, 1)` and a power of two, and `Ldexp` puts the power of two
back, rounding once. -/
def math.Pow (x : Float64) (cnt : Nat) : Float64 :=
  if cnt = 0 ∨ x.isOne then .finite 1 0
  else if cnt = 1 then x
  else
    match x with
    | .nan => .nan
    | .inf negative => .inf (negative && decide (cnt % 2 = 1))
    | .finite m e =>
      if m = 0 then .finite 0 0
      else
        let digits : Int := bitLength m.natAbs m.natAbs
        let r := math.powLoop 64 cnt (.finite m (-digits)) (e + digits) (.finite 1 0) 0
        match r.1 with
        | .finite a1 e1 => Float64.round a1 (e1 + r.2)
        | other => other

/-! ## The backoff computation -/

/-- The field `Backoff` of `config.Job`. -/
structure Backoff where
  Initial : Int
  Max : Int
  TimeMultiplier : Float64
  deriving DecidableEq

/-- The value `math.Pow(TimeMultiplier, float64(cnt)) * float64(Initial)` computed by
`manageTenant`. -/
def calcTime (b : Backoff) (cnt : Nat) : Float64 :=
  (math.Pow b.TimeMultiplier cnt).mul (Float64.ofInt b.Initial)

/-- One backoff computation of `manageTenant`: the value of `cnt` it read, the `sleepTime`
it passed to `SleepWithContext`, and the value of `cnt` it left. -/
structure BackoffRecord where
  cntBefore : Nat
  sleepTime : Int
  cntAfter : Nat
  deriving DecidableEq, Repr

/-- The backoff computation of `manageTenant` (from `sleepTime := j.jobCfg.Backoff.Max` to
the end of the `if calcTime < ...` block): `sleepTime` and the new `cnt`. -/
def backoffStep (b : Backoff) (cnt : Nat) : BackoffRecord :=
  if (calcTime b cnt).lt (Float64.ofInt b.Max) then
    { cntBefore := cnt, sleepTime := (calcTime b cnt).toDuration, cntAfter := cnt + 1 }
  else
    { cntBefore := cnt, sleepTime := b.Max, cntAfter := cnt }

/-! ## The retry loop `manageTenant` -/

/-- The `break` through which the loop of `manageTenant` was left. -/
inductive LoopExit where
  /-- The action returned `nil`. -/
  | succeeded
  /-- The action returned an error matching `watcher.IDsDoNotMatchError`. -/
  | idsDoNotMatch
  /-- The sleep returned an error matching `context.Canceled`. -/
  | cancelled
  deriving DecidableEq, Repr

/-- What a run of `manageTenant` did. -/
structure LoopResult where
  /-- The `break` taken, or `none` when the loop was still running after `fuel` rounds. -/
  ended : Option LoopExit
  /-- The number of calls of `tenantAction`. -/
  attempts : Nat
  /-- The backoff computations, one for each call of `SleepWithContext`, in order. -/
  backoffs : List BackoffRecord
  /-- The final value of `cnt`. -/
  cnt : Nat
  /-- The status this run of the loop left in `j.status`: the one it found, or
  `tenantIDsNotMatch` when it stored that. -/
  status : jobStatus
  deriving DecidableEq, Repr

/-- The `for` loop of `manageTenant`. `tenantAction i` is the error returned by call number
`i` of the action, `wake i` the way the sleep after that call ended; `i` counts the calls
made so far, `cnt` is the local counter, `bs` the backoff computations done so far and `st`
the job status. -/
def manageTenantLoop (b : Backoff) (tenantAction : Nat → Option GoError) (wake : Nat → Wake) :
    Nat → Nat → Nat → List BackoffRecord → jobStatus → LoopResult
  | 0, i, cnt, bs, st =>
    { ended := none, attempts := i, backoffs := bs, cnt := cnt, status := st }
  | fuel + 1, i, cnt, bs, st =>
    match tenantAction i with
    | none =>
      { ended := some .succeeded, attempts := i + 1, backoffs := bs, cnt := cnt, status := st }
    | some err =>
      if err.asIDsDoNotMatch then
        { ended := some .idsDoNotMatch, attempts := i + 1, backoffs := bs, cnt := cnt,
          status := .tenantIDsNotMatch }
      else
        let r := backoffStep b cnt
        if errorsIsCanceled (SleepWithContext (wake i)) then
          { ended := some .cancelled, attempts := i + 1, backoffs := bs ++ [r],
            cnt := r.cntAfter, status := st }
        else
          manageTenantLoop b tenantAction wake fuel (i + 1) r.cntAfter (bs ++ [r]) st

/-- Embedding of `job.manageTenant`: `cnt := 0`, then the loop. `st` is `j.status` at the
call; `fuel` bounds the number of rounds observed. -/
def manageTenant (b : Backoff) (tenantAction : Nat → Option GoError) (wake : Nat → Wake)
    (st : jobStatus) (fuel : Nat) : LoopResult :=
  manageTenantLoop b tenantAction wake fuel 0 0 [] st

/-! ## The watcher resource (`internal/watcher/watcher.go`) -/

/-- The values of `projectwatchv1.ActiveWatcherStatus`. -/
inductive ActiveWatcherStatus where
  | StatusIndicationIdle
  | StatusIndicationError
  | StatusIndicationInProgress
  deriving DecidableEq, Repr

/-- The type `projectwatchv1.ProjectActiveWatcherSpec`. -/
structure ProjectActiveWatcherSpec where
  StatusIndicator : ActiveWatcherStatus
  Message : String
  TimeStamp : Nat
  deriving DecidableEq, Repr

/-- The fields of `nexus.RuntimeprojectRuntimeProject` that the code reads. `Labels` is
`none` when `GetLabels()` is nil; `DisplayName` is the value of the method of that name. -/
structure Project where
  UID : String
  DisplayName : String
  Labels : Option (List (String × String))
  Deleted : Bool
  deriving DecidableEq, Repr

/-- The type `nexus.ProjectactivewatcherProjectActiveWatcher`, reduced to its `Spec`. -/
structure Watcher where
  Spec : ProjectActiveWatcherSpec
  deriving DecidableEq, Repr

/-- The values a `context.Context` carries for this code: the string stored under
`util.ContextKeyTenantID`, if any. -/
structure Ctx where
  tenantID : Option String
  deriving DecidableEq, Repr

/-- The constant `util.AppName`. -/
def AppName : String := "observability-tenant-controller"

/-- The constant `util.OrgNameLabel`. -/
def OrgNameLabel : String := "runtimeorgs.runtimeorg.edge-orchestrator.intel.com"

/-- A call issued to the resource store. -/
inductive StoreCall where
  /-- The call `project.GetActiveWatchers(ctx, name)` on the project with the given UID. -/
  | GetActiveWatchers (uid : String) (name : String)
  /-- The call `project.AddActiveWatchers(ctx, watcher)` with the watcher name and spec. -/
  | AddActiveWatchers (uid : String) (name : String) (spec : ProjectActiveWatcherSpec)
  /-- The call `project.DeleteActiveWatchers(ctx, name)`. -/
  | DeleteActiveWatchers (uid : String) (name : String)
  /-- The call `watcher.GetParent(ctx)`. -/
  | GetParent
  /-- The call `watcher.Update(ctx)`, with the spec of the watcher at the call. -/
  | Update (spec : ProjectActiveWatcherSpec)
  deriving DecidableEq, Repr

/-- The answers of the resource store, and of the clock, to the calls of one watcher
operation. Each operation issues each kind of call at most once. -/
structure StoreReply where
  GetActiveWatchers : Option Watcher × Option ExtError
  GetParent : Option Project × Option ExtError
  AddActiveWatchers : Option ExtError
  Update : Option ExtError
  DeleteActiveWatchers : Option ExtError
  /-- The value of `time.Now().Unix()`. -/
  now : Int
  deriving DecidableEq, Repr

/-- What a watcher operation did: the error it returned, the calls it issued to the store,
in order, and the watcher object it worked on as it left it (`none`: no watcher object). -/
structure WatcherResult where
  err : Option GoError
  calls : List StoreCall
  watcher : Option Watcher
  deriving DecidableEq, Repr

/-- The Go verb `%q` applied to a string. -/
def quoted (s : String) : String := "\"" ++ s ++ "\""

/-- Embedding of `safeUnixTime`. -/
def safeUnixTime (now : Int) : Nat :=
  if now < 0 then 0 else now.toNat

/-- Embedding of `checkWatcher`. -/
def checkWatcher (ctx : Ctx) (watcher : Option Watcher) (reply : StoreReply) : WatcherResult :=
  match ctx.tenantID with
  | none =>
    { err := some (.new ("failed to retrieve " ++ quoted "ContextKeyTenantID" ++ " from context")),
      calls := [], watcher := watcher }
  | some tenantID =>
    match watcher with
    | none =>
      { err := some (.new ("failed to check watcher for tenant " ++ quoted tenantID ++
          ": watcher cannot be nil")),
        calls := [], watcher := none }
    | some w =>
      let parentProject := reply.GetParent.1
      let err := reply.GetParent.2
      if err.isSome && !IsChildNotFound err && !IsNotFound err then
        { err := some (.new ("failed to get watcher parent for tenant " ++ quoted tenantID)),
          calls := [.GetParent], watcher := some w }
      else
        match parentProject with
        | none =>
          { err := some (.idsDoNotMatch ("actual and job project IDs do not match for tenant " ++
              quoted tenantID)),
            calls := [.GetParent], watcher := some w }
        | some parent =>
          if tenantID ≠ parent.UID then
            { err := some (.idsDoNotMatch ("actual and job project IDs do not match for tenant " ++
                quoted tenantID)),
              calls := [.GetParent], watcher := some w }
          else
            { err := none, calls := [.GetParent], watcher := some w }

/-- Embedding of `createWatcher`. -/
def createWatcher (project : Option Project) (status : ActiveWatcherStatus) (message : String)
    (reply : StoreReply) : WatcherResult :=
  match project with
  | none =>
    { err := some (.new "failed to create watcher: project cannot be nil"), calls := [],
      watcher := none }
  | some p =>
    let spec : ProjectActiveWatcherSpec :=
      { StatusIndicator := status, TimeStamp := safeUnixTime reply.now, Message := message }
    match reply.AddActiveWatchers with
    | some e =>
      { err := some (.wrap ("failed to create watcher for tenantID " ++ quoted p.UID) (.ext e)),
        calls := [.AddActiveWatchers p.UID AppName spec], watcher := none }
    | none =>
      { err := none, calls := [.AddActiveWatchers p.UID AppName spec], watcher := none }

/-- Embedding of `updateWatcher`. -/
def updateWatcher (ctx : Ctx) (watcher : Option Watcher) (status : ActiveWatcherStatus)
    (tenantID message : String) (reply : StoreReply) : WatcherResult :=
  match watcher with
  | none =>
    { err := some (.new "failed to update watcher: watcher cannot be nil"), calls := [],
      watcher := none }
  | some w =>
    let chk := checkWatcher ctx (some w) reply
    match chk.err with
    | some err =>
      if err.asIDsDoNotMatch then
        { err := none, calls := chk.calls, watcher := some w }
      else
        { err := some err, calls := chk.calls, watcher := some w }
    | none =>
      let spec : ProjectActiveWatcherSpec :=
        { StatusIndicator := status, Message := message, TimeStamp := safeUnixTime reply.now }
      let w2 : Watcher := { w with Spec := spec }
      match reply.Update with
      | some e =>
        { err := some (.wrap ("failed to update ProjectActiveWatcher for tenant " ++
            quoted tenantID) (.ext e)),
          calls := chk.calls ++ [.Update spec], watcher := some w2 }
      | none =>
        { err := none, calls := chk.calls ++ [.Update spec], watcher := some w2 }

/-- The error `fmt.Errorf(msg + ": %w", err)` for an error `err` of the store. -/
def wrapExt (msg : String) (err : Option ExtError) : Option GoError :=
  err.map (fun e => .wrap msg (.ext e))

/-- Embedding of `CreateUpdateWatcher`. -/
def CreateUpdateWatcher (ctx : Ctx) (project : Option Project) (status : ActiveWatcherStatus)
    (message : String) (reply : StoreReply) : WatcherResult :=
  match project with
  | none =>
    { err := some (.new "failed to create/update watcher: project cannot be nil"), calls := [],
      watcher := none }
  | some p =>
    let watcher := reply.GetActiveWatchers.1
    let err := reply.GetActiveWatchers.2
    let get : List StoreCall := [.GetActiveWatchers p.UID AppName]
    if err.isSome && !IsChildNotFound err && !IsNotFound err then
      { err := wrapExt ("failed to delete watcher for tenant " ++ quoted p.UID) err,
        calls := get, watcher := watcher }
    else if IsChildNotFound err || IsNotFound err then
      let r := createWatcher (some p) status message reply
      { r with calls := get ++ r.calls }
    else
      let r := updateWatcher ctx watcher status p.UID message reply
      { r with calls := get ++ r.calls }

/-- Embedding of `DeleteWatcher`. -/
def DeleteWatcher (ctx : Ctx) (project : Option Project) (reply : StoreReply) : WatcherResult :=
  match project with
  | none =>
    { err := some (.new "failed to delete watcher: project cannot be nil"), calls := [],
      watcher := none }
  | some p =>
    let watcher := reply.GetActiveWatchers.1
    let err := reply.GetActiveWatchers.2
    let get : List StoreCall := [.GetActiveWatchers p.UID AppName]
    if err.isSome && !IsChildNotFound err && !IsNotFound err then
      { err := wrapExt ("failed to delete watcher for tenant " ++ quoted p.UID) err,
        calls := get, watcher := watcher }
    else if IsNotFound err || IsChildNotFound err then
      { err := none, calls := get, watcher := watcher }
    else
      let chk := checkWatcher ctx watcher reply
      match chk.err with
      | some cerr => { err := some cerr, calls := get ++ chk.calls, watcher := watcher }
      | none =>
        let del : List StoreCall := [.DeleteActiveWatchers p.UID AppName]
        let derr := reply.DeleteActiveWatchers
        if IsNotFound derr || IsChildNotFound derr then
          { err := none, calls := get ++ chk.calls ++ del, watcher := watcher }
        else if derr.isSome then
          { err := wrapExt ("failed to delete watcher for tenantID " ++ quoted p.UID) derr,
            calls := get ++ chk.calls ++ del, watcher := watcher }
        else
          { err := none, calls := get ++ chk.calls ++ del, watcher := watcher }

/-! ## Configuration (`internal/config/model.go`) -/

/-- The type `config.Mimir`. -/
structure config.Mimir where
  Ingester : String
  Compactor : String
  PollingRate : Int
  DeleteVerifyMode : String
  deriving DecidableEq

/-- The type `config.Loki`. -/
structure config.Loki where
  Write : String
  Backend : String
  PollingRate : Int
  MaxPollingRate : Int
  DeleteVerifyMode : String
  deriving DecidableEq

/-- The type `config.Endpoints`. -/
structure config.Endpoints where
  AlertingMonitor : String
  Sre : String
  Mimir : config.Mimir
  Loki : config.Loki
  deriving DecidableEq

/-- The type `config.Job`; `DeletionRate` is `Manager.Deletion.Rate` and `SreEnabled` is
`Sre.Enabled`. -/
structure config.Job where
  DeletionRate : Int
  Backoff : Backoff
  Timeout : Int
  SreEnabled : Bool
  deriving DecidableEq

/-! ## RPC backends (`internal/alertingmonitor`, `internal/sre`) -/

/-- The constant `codes.NotFound`. -/
def codes.NotFound : Nat := 5

/-- The constant `codes.AlreadyExists`. -/
def codes.AlreadyExists : Nat := 6

/-- The value of `status.Code(err)`: `OK` (0) for nil, the code of a gRPC status error,
`Unknown` (2) for any other error. -/
def status.Code : Option ExtError → Nat
  | none => 0
  | some (.grpc c) => c
  | some _ => 2

/-- What a backend action did: the error it returned and the tenant IDs of the requests it
sent to the backend. -/
structure BackendResult where
  err : Option GoError
  requests : List String
  deriving DecidableEq, Repr

/-- The error returned when the context carries no tenant ID. -/
def noTenantID : GoError :=
  .new ("failed to retrieve " ++ quoted "ContextKeyTenantID" ++ " from context")

/-- Embedding of `alertingmonitor.InitializeTenant`; `rpc` is the error returned by the call
`am.InitializeTenant`. -/
def alertingmonitor.InitializeTenant (ctx : Ctx) (rpc : Option ExtError) : BackendResult :=
  match ctx.tenantID with
  | none => { err := some noTenantID, requests := [] }
  | some tenantID =>
    if status.Code rpc = codes.AlreadyExists then
      { err := none, requests := [tenantID] }
    else if rpc.isSome then
      { err := wrapExt ("failed to initialize tenantID " ++ quoted tenantID ++
          " in alerting monitor") rpc,
        requests := [tenantID] }
    else
      { err := none, requests := [tenantID] }

/-- Embedding of `alertingmonitor.CleanupTenant`. -/
def alertingmonitor.CleanupTenant (ctx : Ctx) (rpc : Option ExtError) : BackendResult :=
  match ctx.tenantID with
  | none => { err := some noTenantID, requests := [] }
  | some tenantID =>
    if status.Code rpc = codes.NotFound then
      { err := none, requests := [tenantID] }
    else if rpc.isSome then
      { err := wrapExt ("failed to delete tenantID " ++ quoted tenantID ++
          " in alerting monitor") rpc,
        requests := [tenantID] }
    else
      { err := none, requests := [tenantID] }

/-- Embedding of `sre.InitializeTenant`. -/
def sre.InitializeTenant (ctx : Ctx) (rpc : Option ExtError) : BackendResult :=
  match ctx.tenantID with
  | none => { err := some noTenantID, requests := [] }
  | some tenantID =>
    if status.Code rpc = codes.AlreadyExists then
      { err := none, requests := [tenantID] }
    else if rpc.isSome then
      { err := wrapExt ("failed to initialize tenantID " ++ quoted tenantID ++
          " in sre-exporter") rpc,
        requests := [tenantID] }
    else
      { err := none, requests := [tenantID] }

/-- Embedding of `sre.CleanupTenant`. -/
def sre.CleanupTenant (ctx : Ctx) (rpc : Option ExtError) : BackendResult :=
  match ctx.tenantID with
  | none => { err := some noTenantID, requests := [] }
  | some tenantID =>
    if status.Code rpc = codes.NotFound then
      { err := none, requests := [tenantID] }
    else if rpc.isSome then
      { err := wrapExt ("failed to delete tenantID " ++ quoted tenantID ++
          " in sre-exporter") rpc,
        requests := [tenantID] }
    else
      { err := none, requests := [tenantID] }

/-! ## Jobs (`internal/jobs/jobs.go`) -/

/-- The value of `g.Wait()` of an `errgroup.Group`: nil when every function returned nil,
otherwise the error of the function that failed first. `results` lists the values returned
by the functions in the order of the `g.Go` calls; `first` is the position of the function
the scheduler let fail first (when that function did not fail, the earliest failing one in
the list is taken). -/
def errgroupWait (results : List (Option GoError)) (first : Nat) : Option GoError :=
  match (results.get? first).join with
  | some e => some e
  | none => results.findSome? id

/-- The type `job`. `cancelFn` is `none` for the nil function; a stored cancel function is
named by the number of the context it cancels. The two RPC clients are not represented. -/
structure job where
  project : Project
  status : jobStatus
  jobCfg : config.Job
  endpointsCfg : config.Endpoints
  cancelFn : Option Nat
  deriving DecidableEq

/-- The answers of the outside world to one call of `initializeTenant` or `cleanupTenant`. -/
structure AttemptReply where
  /-- The answers to the first `CreateUpdateWatcher`. -/
  report : StoreReply
  /-- The error of the alerting monitor RPC. -/
  am : Option ExtError
  /-- The error of the sre-exporter RPC. -/
  sre : Option ExtError
  /-- The value returned by `loki.CleanupTenant`. -/
  loki : Option GoError
  /-- The value returned by `mimir.CleanupTenant`. -/
  mimir : Option GoError
  /-- The function of the fan-out that failed first, see `errgroupWait`. -/
  first : Nat
  /-- The answers to the closing `CreateUpdateWatcher` or `DeleteWatcher`. -/
  closing : StoreReply
  deriving DecidableEq, Repr

/-- A backend action started by an attempt. -/
inductive BackendCall where
  | amInitialize
  | sreInitialize
  | amCleanup
  | sreCleanup
  | lokiCleanup
  | mimirCleanup
  deriving DecidableEq, Repr

/-- What one attempt did: the error it returned, its calls to the resource store and the
backend actions it started through the fan-out, in the order of the `g.Go` calls. -/
structure AttemptResult where
  err : Option GoError
  calls : List StoreCall
  backends : List BackendCall
  deriving DecidableEq, Repr

/-- Embedding of `job.initializeTenant`. -/
def initializeTenant (j : job) (parentCtx : Ctx) (reply : AttemptReply) : AttemptResult :=
  let r1 := CreateUpdateWatcher parentCtx (some j.project) .StatusIndicationInProgress
    ("Creating tenant " ++ quoted j.project.UID) reply.report
  match r1.err with
  | some err => { err := some err, calls := r1.calls, backends := [] }
  | none =>
    let fs : List (BackendCall × Option GoError) :=
      [(.amInitialize, (alertingmonitor.InitializeTenant parentCtx reply.am).err)] ++
      (if j.jobCfg.SreEnabled then
        [(.sreInitialize, (sre.InitializeTenant parentCtx reply.sre).err)] else [])
    match errgroupWait (fs.map Prod.snd) reply.first with
    | some err => { err := some err, calls := r1.calls, backends := fs.map Prod.fst }
    | none =>
      let r2 := CreateUpdateWatcher parentCtx (some j.project) .StatusIndicationIdle
        ("Tenant " ++ quoted j.project.UID ++ " created") reply.closing
      { err := r2.err, calls := r1.calls ++ r2.calls, backends := fs.map Prod.fst }

/-- Embedding of `job.cleanupTenant`. -/
def cleanupTenant (j : job) (parentCtx : Ctx) (reply : AttemptReply) : AttemptResult :=
  let r1 := CreateUpdateWatcher parentCtx (some j.project) .StatusIndicationInProgress
    ("Deleting tenant " ++ quoted j.project.UID) reply.report
  match r1.err with
  | some err => { err := some err, calls := r1.calls, backends := [] }
  | none =>
    let fs : List (BackendCall × Option GoError) :=
      [(.amCleanup, (alertingmonitor.CleanupTenant parentCtx reply.am).err)] ++
      (if j.jobCfg.SreEnabled then
        [(.sreCleanup, (sre.CleanupTenant parentCtx reply.sre).err)] else []) ++
      [(.lokiCleanup, reply.loki), (.mimirCleanup, reply.mimir)]
    match errgroupWait (fs.map Prod.snd) reply.first with
    | some err => { err := some err, calls := r1.calls, backends := fs.map Prod.fst }
    | none =>
      let r2 := DeleteWatcher parentCtx (some j.project) reply.closing
      { err := r2.err, calls := r1.calls ++ r2.calls, backends := fs.map Prod.fst }

/-- The answers of the outside world to one background execution of `run`. -/
structure RunWorld where
  /-- The answers to call number `i` of the tenant action. -/
  attempt : Nat → AttemptReply
  /-- The way the sleep after call number `i` ended. -/
  wake : Nat → Wake
  /-- The value of `ctx.Err()` when `run` reads it after `manageTenant`. -/
  ctxErr : Option CtxErr
  /-- The number of the context created by `context.WithCancel(parentCtx)`. -/
  ctxId : Nat
  /-- The status that `j.status` holds on account of another thread when this execution
  reads it with `j.status.Load()`: the status stored last by the manager thread for a later
  `run`, or by another background execution on the same job, after the last store of this
  run (`jobInProgress` by `run`, or `tenantIDsNotMatch` by `manageTenant`); `none` when no
  other thread has stored since. -/
  otherStore : Option jobStatus

/-- What a background execution of `run` did. -/
structure RunResult where
  /-- The job as the execution left it. -/
  job : job
  /-- The run of `manageTenant`. -/
  loop : LoopResult
  /-- Whether the execution reached its end within `fuel` rounds of the retry loop. -/
  completed : Bool

/-- The context `manageTenant` hands to the tenant action: the tenant ID is the UID of the
project captured by the job. -/
def jobCtx (j : job) : Ctx := { tenantID := some j.project.UID }

/-- The statement of `run` executed by the caller: `j.status.Store(int32(jobInProgress))`. -/
def runStore (j : job) : job := { j with status := .jobInProgress }

/-- The function started by `run` with `go`: it stores the cancel function, runs
`manageTenant` with the tenant action of `action` and stores the final status. Other
threads share the job; of what they do, the function depends on `ctx.Err()` and, for a
cleanup, on the value `j.status.Load()` returns, which is the status another thread stored
last, if one has stored since the last store of this run, and the status this run left
otherwise. The field `status` of the result is the status after the last statement of the
function. -/
def runGoroutine (j : job) (action : Action) (w : RunWorld) (fuel : Nat) : RunResult :=
  let j1 : job := { j with cancelFn := some w.ctxId }
  match action with
  | .InitializeTenant =>
    let r := manageTenant j1.jobCfg.Backoff
      (fun i => (initializeTenant j1 (jobCtx j1) (w.attempt i)).err) w.wake j1.status fuel
    match r.ended with
    | none => { job := { j1 with status := r.status }, loop := r, completed := false }
    | some _ =>
      if errorsIsCanceled (w.ctxErr.map CtxErr.toError) then
        { job := { j1 with status := .jobCancelled }, loop := r, completed := true }
      else
        { job := { j1 with status := .tenantCreated }, loop := r, completed := true }
  | .CleanupTenant =>
    let r := manageTenant j1.jobCfg.Backoff
      (fun i => (cleanupTenant j1 (jobCtx j1) (w.attempt i)).err) w.wake j1.status fuel
    match r.ended with
    | none => { job := { j1 with status := r.status }, loop := r, completed := false }
    | some _ =>
      if errorsIsCanceled (w.ctxErr.map CtxErr.toError) then
        { job := { j1 with status := .jobCancelled }, loop := r, completed := true }
      else
        let loaded := w.otherStore.getD r.status
        if loaded ≠ .tenantIDsNotMatch then
          { job := { j1 with status := .tenantDeleted }, loop := r, completed := true }
        else
          { job := { j1 with status := loaded }, loop := r, completed := true }

/-- Embedding of `job.run`, its background function included. -/
def run (j : job) (action : Action) (w : RunWorld) (fuel : Nat) : RunResult :=
  runGoroutine (runStore j) action w fuel

/-- Embedding of `job.cancel`: the cancel function it invokes, if `j.cancelFn` is not nil. -/
def cancel (j : job) : Option Nat := j.cancelFn

/-! ## The job manager (`JobManager`, `startJob`, the sweep of `Start`) -/

/-- A label set of the gauge vector `projectIDs`. -/
structure Labels where
  projectId : String
  projectName : String
  orgName : String
  status : String
  deriving DecidableEq, Repr

/-- Embedding of `extractLabelsFrom`: project ID, project name and organisation name. A
missing key of a Go map reads as the empty string. -/
def extractLabelsFrom (project : Project) : String × String × String :=
  let orgName :=
    match project.Labels with
    | some labels => (labels.lookup OrgNameLabel).getD ""
    | none => ""
  (project.UID, project.DisplayName, orgName)

/-- Embedding of `setProjectMetadata` on the gauge vector: `With(labels).Set(1)` makes the
label set present. -/
def setProjectMetadata (metrics : List Labels) (project : Project) (action : Action) :
    List Labels :=
  let ls := extractLabelsFrom project
  let status := if action = .CleanupTenant then "Deleted" else "Created"
  let labels : Labels :=
    { projectId := ls.1, projectName := ls.2.1, orgName := ls.2.2, status := status }
  if labels ∈ metrics then metrics else metrics ++ [labels]

/-- Embedding of `removeProjectMetadata`: `DeletePartialMatch` on ID, name and
organisation. -/
def removeProjectMetadata (metrics : List Labels) (project : Project) : List Labels :=
  let ls := extractLabelsFrom project
  metrics.filter (fun m =>
    !(m.projectId == ls.1 && m.projectName == ls.2.1 && m.orgName == ls.2.2))

/-- Embedding of `removeProjectMetadataByID`: `DeletePartialMatch` on the ID alone. -/
def removeProjectMetadataByID (metrics : List Labels) (projectID : String) : List Labels :=
  metrics.filter (fun m => !(m.projectId == projectID))

/-- The Go expression `m[k]` with its presence flag, on a map kept as a list of entries. -/
def mapGet (k : String) (m : List (String × job)) : Option job :=
  (m.find? (fun e => e.1 == k)).map Prod.snd

/-- The Go statement `m[k] = v`: the entry of `k` is replaced, or added when absent. -/
def mapSet (k : String) (v : job) : List (String × job) → List (String × job)
  | [] => [(k, v)]
  | e :: m => if e.1 == k then (k, v) :: m else e :: mapSet k v m

/-- The Go statement `delete(m, k)`. -/
def mapDelete (k : String) (m : List (String × job)) : List (String × job) :=
  m.filter (fun e => !(e.1 == k))

/-- A background function started by `run` with `go`: the identity of its job, the project
the job has captured, and the action. -/
structure Execution where
  uid : String
  project : Project
  action : Action
  deriving DecidableEq, Repr

/-- The state the manager thread works on: the `JobManager` fields `jobList`, `jobCfg` and
`endpointsCfg`, the package variable `projectIDs`, the background functions started so
far and the cancel functions invoked so far, both oldest first. -/
structure JobManager where
  jobList : List (String × job)
  jobCfg : config.Job
  endpointsCfg : config.Endpoints
  projectIDs : List Labels
  started : List Execution
  cancelled : List Nat
  deriving DecidableEq

/-- Embedding of `New`: the empty job table. -/
def New (jCfg : config.Job) (endpoints : config.Endpoints) : JobManager :=
  { jobList := [], jobCfg := jCfg, endpointsCfg := endpoints, projectIDs := [], started := [],
    cancelled := [] }

/-- Embedding of `newJob`: status and cancel function have their zero values. -/
def newJob (project : Project) (jCfg : config.Job) (endpoints : config.Endpoints) : job :=
  { project := project, status := .jobCreated, jobCfg := jCfg, endpointsCfg := endpoints,
    cancelFn := none }

/-- Embedding of `JobManager.startJob`, up to its return: of `job.run` the caller executes
the status store and the `go` statement. -/
def startJob (jm : JobManager) (project : Project) (action : Action) : JobManager :=
  let metrics := setProjectMetadata jm.projectIDs project action
  match mapGet project.UID jm.jobList with
  | some job =>
    let invoked := (cancel job).toList
    let job2 := runStore job
    { jm with
      projectIDs := metrics
      jobList := mapSet project.UID job2 jm.jobList
      cancelled := jm.cancelled ++ invoked
      started := jm.started ++ [{ uid := project.UID, project := job2.project, action := action }] }
  | none =>
    let job := newJob project jm.jobCfg jm.endpointsCfg
    let job2 := runStore job
    { jm with
      projectIDs := metrics
      jobList := mapSet project.UID job2 jm.jobList
      started := jm.started ++ [{ uid := project.UID, project := job2.project, action := action }] }

/-- The body of the `for k, job := range jm.jobList` loop in the ticker case of `Start`. -/
def sweepEntry (jm : JobManager) (e : String × job) : JobManager :=
  let status := e.2.status
  if status = .tenantDeleted then
    { jm with
      projectIDs := removeProjectMetadata jm.projectIDs e.2.project
      jobList := mapDelete e.1 jm.jobList }
  else if status = .tenantIDsNotMatch then
    { jm with
      projectIDs := removeProjectMetadataByID jm.projectIDs e.1
      jobList := mapDelete e.1 jm.jobList }
  else jm

/-- The ticker case of `Start`: the loop body is run once for every entry the table holds
when the loop starts (the body deletes only the entry it is visiting). -/
def sweep (jm : JobManager) : JobManager :=
  jm.jobList.foldl sweepEntry jm

/-- What the manager thread and the background functions do to the manager state. -/
inductive Event where
  /-- The `comSig` case of `Start`: a lifecycle event is handed to `startJob`. -/
  | lifecycle (project : Project) (action : Action)
  /-- The ticker case of `Start`. -/
  | tick
  /-- A background function stores a status into the job of the given identity. -/
  | storeStatus (uid : String) (status : jobStatus)
  /-- A background function stores its cancel function into the job of the identity. -/
  | storeCancelFn (uid : String) (ctxId : Nat)
  deriving DecidableEq, Repr

/-- The effect of one event on the manager state. -/
def JobManager.step (jm : JobManager) : Event → JobManager
  | .lifecycle project action => startJob jm project action
  | .tick => sweep jm
  | .storeStatus uid status =>
    match mapGet uid jm.jobList with
    | some job => { jm with jobList := mapSet uid { job with status := status } jm.jobList }
    | none => jm
  | .storeCancelFn uid ctxId =>
    match mapGet uid jm.jobList with
    | some job => { jm with jobList := mapSet uid { job with cancelFn := some ctxId } jm.jobList }
    | none => jm

/-- The manager state after a sequence of events. -/
def JobManager.steps (jm : JobManager) (events : List Event) : JobManager :=
  events.foldl JobManager.step jm

/-! ## Supersession: two events for one identity, thread by thread

The manager thread handles an event `E1` for an identity without a job and then an event
`E2` for the same identity. Each `run` starts a background function; the two functions and
the manager thread share the one `job` object and interleave statement by statement. -/

/-- The statements of `startJob` that touch what the threads share, for `E1` and `E2`. -/
inductive MgrPc where
  /-- Event `E1`, `job.run`: before `j.status.Store(int32(jobInProgress))`. -/
  | e1Store
  /-- Event `E1`, `job.run`: before the `go` statement. -/
  | e1Go
  /-- Event `E2`, the job exists: before `job.cancel()`. -/
  | e2Cancel
  /-- Event `E2`, `job.run`: before `j.status.Store(int32(jobInProgress))`. -/
  | e2Store
  /-- Event `E2`, `job.run`: before the `go` statement. -/
  | e2Go
  /-- Both events have been handled. -/
  | idle
  deriving DecidableEq, Repr

/-- The program points of the function started by `run` with `go`. -/
inductive Pc where
  /-- Before `ctx, cancel := context.WithCancel(parentCtx)` and `j.cancelFn = cancel`. -/
  | start
  /-- In `manageTenant`, before a call of the tenant action. -/
  | attempt
  /-- In `manageTenant`, before `SleepWithContext` (the action failed). -/
  | sleep
  /-- After `manageTenant`, before `ctx.Err()` is read. -/
  | readCtxErr
  /-- Before `j.status.Store(int32(jobCancelled))`. -/
  | storeCancelled
  /-- Before `j.status.Store(int32(tenantCreated))`. -/
  | storeCreated
  /-- Before `j.status.Load()` is compared with `tenantIDsNotMatch`. -/
  | loadStatus
  /-- Before `j.status.Store(int32(tenantDeleted))`. -/
  | storeDeleted
  /-- Before the deferred `cancel()`. -/
  | deferred
  /-- The function has returned. -/
  | done
  deriving DecidableEq, Repr

/-- Who executed a statement: the manager thread or the execution started for `E1` or for
`E2`. -/
inductive Thread where
  | manager
  | exec1
  | exec2
  deriving DecidableEq, Repr

/-- What the threads do to the shared job, as recorded in the history of a run. -/
inductive Ev where
  /-- The manager called `job.cancel()`, which invoked the given cancel function. -/
  | cancelCall (invoked : Option Thread)
  /-- The manager executed the `go` statement of `run` for the given execution. -/
  | started (t : Thread)
  /-- The thread stored a status into `j.status`. -/
  | stored (t : Thread) (status : jobStatus)
  deriving DecidableEq, Repr

/-- The state shared by the three threads. A cancel function is named by the execution that
created it. `pc1` and `pc2` are `none` until the execution has been started. -/
structure Shared where
  /-- The job object of the identity. -/
  job : job
  /-- The field `j.cancelFn`, a stored cancel function being named by the execution that
  created it; the field of that name inside `job` is not used in this model. -/
  cancelFn : Option Thread
  /-- Whether the context of the execution of `E1` has been cancelled. -/
  cancelled1 : Bool
  /-- Whether the context of the execution of `E2` has been cancelled. -/
  cancelled2 : Bool
  /-- The actions of `E1` and `E2`. -/
  action1 : Action
  action2 : Action
  mgr : MgrPc
  pc1 : Option Pc
  pc2 : Option Pc
  /-- The history, oldest first. -/
  history : List Ev

/-- One scheduling decision: which thread executes its next statement, with the answer of
the outside world where the statement waits for one. -/
inductive Sched where
  /-- The manager thread executes its next statement. -/
  | manager
  /-- The execution executes its next statement, one that does not wait. -/
  | exec (t : Thread)
  /-- The tenant action called by the execution returns, the outside world having
  answered with `reply`. -/
  | attempt (t : Thread) (reply : AttemptReply)
  /-- The `select` of `SleepWithContext` in the execution takes the given case. -/
  | wake (t : Thread) (w : Wake)

/-- The state when `E1` arrives: `newJob` has built the job and `startJob` has put it into
the table. -/
def Shared.init (project : Project) (jCfg : config.Job) (endpoints : config.Endpoints)
    (a1 a2 : Action) : Shared :=
  { job := newJob project jCfg endpoints, cancelFn := none, cancelled1 := false,
    cancelled2 := false, action1 := a1, action2 := a2, mgr := .e1Store, pc1 := none,
    pc2 := none, history := [] }

/-- The next statement of the manager thread. -/
def Shared.stepManager (s : Shared) : Option Shared :=
  match s.mgr with
  | .e1Store =>
    some { s with job := runStore s.job, mgr := .e1Go,
                  history := s.history ++ [.stored .manager .jobInProgress] }
  | .e1Go =>
    some { s with pc1 := some .start, mgr := .e2Cancel, history := s.history ++ [.started .exec1] }
  | .e2Cancel =>
    match s.cancelFn with
    | none => some { s with mgr := .e2Store, history := s.history ++ [.cancelCall none] }
    | some .exec1 =>
      some { s with cancelled1 := true, mgr := .e2Store,
                    history := s.history ++ [.cancelCall (some .exec1)] }
    | some .exec2 =>
      some { s with cancelled2 := true, mgr := .e2Store,
                    history := s.history ++ [.cancelCall (some .exec2)] }
    | some .manager => none
  | .e2Store =>
    some { s with job := runStore s.job, mgr := .e2Go,
                  history := s.history ++ [.stored .manager .jobInProgress] }
  | .e2Go =>
    some { s with pc2 := some .start, mgr := .idle, history := s.history ++ [.started .exec2] }
  | .idle => none

/-- The program point, the action and the context state of an execution. -/
def Shared.pcOf (s : Shared) : Thread → Option Pc
  | .manager => none
  | .exec1 => s.pc1
  | .exec2 => s.pc2

/-- The action an execution runs. -/
def Shared.actionOf (s : Shared) : Thread → Action
  | .exec2 => s.action2
  | _ => s.action1

/-- Whether the context of an execution has been cancelled. -/
def Shared.cancelledOf (s : Shared) : Thread → Bool
  | .manager => false
  | .exec1 => s.cancelled1
  | .exec2 => s.cancelled2

/-- The state with the program point of an execution changed. -/
def Shared.setPc (s : Shared) (t : Thread) (pc : Pc) : Shared :=
  match t with
  | .manager => s
  | .exec1 => { s with pc1 := some pc }
  | .exec2 => { s with pc2 := some pc }

/-- The state after the execution `t` has stored `status` into `j.status`. -/
def Shared.store (s : Shared) (t : Thread) (status : jobStatus) : Shared :=
  { s with job := { s.job with status := status }, history := s.history ++ [.stored t status] }

/-- The state after the context of the execution `t` has been cancelled. -/
def Shared.cancelCtx (s : Shared) : Thread → Shared
  | .manager => s
  | .exec1 => { s with cancelled1 := true }
  | .exec2 => { s with cancelled2 := true }

/-- The next statement of an execution that does not wait for the outside world. -/
def Shared.stepExec (s : Shared) (t : Thread) : Option Shared :=
  match s.pcOf t with
  | some .start => some ({ s with cancelFn := some t }.setPc t .attempt)
  | some .readCtxErr =>
    if s.cancelledOf t then some (s.setPc t .storeCancelled)
    else
      match s.actionOf t with
      | .InitializeTenant => some (s.setPc t .storeCreated)
      | .CleanupTenant => some (s.setPc t .loadStatus)
  | some .storeCancelled => some ((s.store t .jobCancelled).setPc t .deferred)
  | some .storeCreated => some ((s.store t .tenantCreated).setPc t .deferred)
  | some .loadStatus =>
    if s.job.status ≠ .tenantIDsNotMatch then some (s.setPc t .storeDeleted)
    else some (s.setPc t .deferred)
  | some .storeDeleted => some ((s.store t .tenantDeleted).setPc t .deferred)
  | some .deferred => some ((s.cancelCtx t).setPc t .done)
  | _ => none

/-- The return of a call of the tenant action in `manageTenant`, and the branch taken on
its error. -/
def Shared.stepAttempt (s : Shared) (t : Thread) (reply : AttemptReply) : Option Shared :=
  match s.pcOf t with
  | some .attempt =>
    let err :=
      match s.actionOf t with
      | .InitializeTenant => (initializeTenant s.job (jobCtx s.job) reply).err
      | .CleanupTenant => (cleanupTenant s.job (jobCtx s.job) reply).err
    match err with
    | none => some (s.setPc t .readCtxErr)
    | some e =>
      if e.asIDsDoNotMatch then some ((s.store t .tenantIDsNotMatch).setPc t .readCtxErr)
      else some (s.setPc t .sleep)
  | _ => none

/-- The end of a `SleepWithContext` in `manageTenant`. The case `<-ctx.Done()` can be taken
only when the context of the execution has been cancelled, and `ctx.Err()` is then
`context.Canceled` (no context of a job has a deadline). -/
def Shared.stepWake (s : Shared) (t : Thread) (w : Wake) : Option Shared :=
  match s.pcOf t with
  | some .sleep =>
    match w with
    | .timer => some (s.setPc t .attempt)
    | .done .canceled =>
      if s.cancelledOf t then
        if errorsIsCanceled (SleepWithContext w) then some (s.setPc t .readCtxErr)
        else some (s.setPc t .attempt)
      else none
    | .done .deadlineExceeded => none
  | _ => none

/-- One scheduling decision; `none` when the chosen thread cannot take that step. -/
def Shared.step (s : Shared) : Sched → Option Shared
  | .manager => s.stepManager
  | .exec t => s.stepExec t
  | .attempt t reply => s.stepAttempt t reply
  | .wake t w => s.stepWake t w

/-- A schedule, decision by decision. -/
def Shared.exec (s : Shared) : List Sched → Option Shared
  | [] => some s
  | d :: ds =>
    match s.step d with
    | some s2 => s2.exec ds
    | none => none

/-- Both events have been handled and both executions have returned. -/
def Shared.finished (s : Shared) : Bool :=
  s.mgr == .idle && s.pc1 == some .done && s.pc2 == some .done

/-! ## HTTP helpers (`internal/util/util.go`) -/

/-- The constant `util.StrictMode`. -/
def StrictMode : String := "strict"

/-- The constant `util.LooseMode`. -/
def LooseMode : String := "loose"

/-- The constant `http.StatusOK`. -/
def http.StatusOK : Nat := 200

/-- The constant `http.StatusNoContent`. -/
def http.StatusNoContent : Nat := 204

/-- A request handed to `client.Do`: its method, the URL it was built from, and the value of
its header `X-Scope-OrgID`. -/
structure HttpRequest where
  method : String
  url : String
  orgID : String
  deriving DecidableEq, Repr

/-- The answers of the standard library and of the network to one call of `PostReq` or
`GetReq`: the errors of `url.Parse`, of `http.NewRequestWithContext` and of `client.Do`, the
status code and the body of the response, and the error of `io.ReadAll` on that body. A
context that ends during `client.Do` makes `Do` an error. -/
structure HttpReply where
  Parse : Option ExtError
  NewRequest : Option ExtError
  Do : Option ExtError
  StatusCode : Nat
  Body : String
  ReadAll : Option ExtError
  deriving DecidableEq, Repr

/-- What `PostReq` or `GetReq` did: the error it returned, the body it returned (`none` is
the nil slice; always `none` for `PostReq`), and the requests it handed to `client.Do`. -/
structure HttpResult where
  err : Option GoError
  body : Option String
  requests : List HttpRequest
  deriving DecidableEq, Repr

/-- Embedding of `util.PostReq`. -/
def PostReq (urlRaw tenantID : String) (reply : HttpReply) : HttpResult :=
  match reply.Parse with
  | some e => { err := some (.wrap "failed to parse url" (.ext e)), body := none, requests := [] }
  | none =>
    match reply.NewRequest with
    | some e =>
      { err := some (.wrap "failed to create request" (.ext e)), body := none, requests := [] }
    | none =>
      let req : HttpRequest := { method := "POST", url := urlRaw, orgID := tenantID }
      match reply.Do with
      | some e =>
        { err := some (.wrap ("failed to reach endpoint " ++ urlRaw) (.ext e)), body := none,
          requests := [req] }
      | none =>
        if reply.StatusCode ≠ http.StatusOK ∧ reply.StatusCode ≠ http.StatusNoContent then
          { err := some (.new ("invalid response status code \x27" ++ toString reply.StatusCode ++
              "\x27 for endpoint: " ++ urlRaw)),
            body := none, requests := [req] }
        else
          { err := none, body := none, requests := [req] }

/-- Embedding of `util.GetReq`. -/
def GetReq (urlRaw tenantID : String) (reply : HttpReply) : HttpResult :=
  match reply.Parse with
  | some e => { err := some (.wrap "failed to parse url" (.ext e)), body := none, requests := [] }
  | none =>
    match reply.NewRequest with
    | some e =>
      { err := some (.wrap "failed to create request" (.ext e)), body := none, requests := [] }
    | none =>
      let req : HttpRequest := { method := "GET", url := urlRaw, orgID := tenantID }
      match reply.Do with
      | some e =>
        { err := some (.wrap ("failed to reach endpoint " ++ urlRaw) (.ext e)), body := none,
          requests := [req] }
      | none =>
        if reply.StatusCode ≠ http.StatusOK ∧ reply.StatusCode ≠ http.StatusNoContent then
          { err := some (.new ("invalid response status code \x27" ++ toString reply.StatusCode ++
              "\x27 for endpoint: " ++ urlRaw)),
            body := none, requests := [req] }
        else
          match reply.ReadAll with
          | some e =>
            { err := some (.wrap "failed to read response body" (.ext e)), body := none,
              requests := [req] }
          | none => { err := none, body := some reply.Body, requests := [req] }

/-! ## The log store (`internal/loki/loki.go`) -/

/-- An element of the type `DeleteLogRequest`; the `float64` fields `StartTime`, `EndTime` and
`CreatedAt`, which the code never reads, are left out. -/
structure DeleteLogEntry where
  RequestID : String
  Query : String
  Status : String
  deriving DecidableEq, Repr

/-- The value of a 64-bit signed integer after an overflowing operation whose exact result
is `x`. -/
def wrapInt64 (x : Int) : Int :=
  (x + 2 ^ 63) % 2 ^ 64 - 2 ^ 63

/-- Embedding of `loki.flushIngesters`. -/
def loki.flushIngesters (urlCfg : config.Loki) (tenantID : String) (reply : HttpReply) :
    HttpResult :=
  let urlRaw := urlCfg.Write ++ "/flush"
  PostReq urlRaw tenantID reply

/-- Embedding of `loki.deleteLogsRequest`. -/
def loki.deleteLogsRequest (urlCfg : config.Loki) (tenantID : String) (reply : HttpReply) :
    HttpResult :=
  let urlRaw := urlCfg.Backend ++ "/loki/api/v1/delete?query=\x7b__tenant_id__=\"" ++ tenantID ++
    "\"\x7d&start=0000000001"
  PostReq urlRaw tenantID reply

/-- The answers to one iteration of the loop of `loki.checkDeletionStatus`: which case of
the sleep ran, the answer to the status request, the result of
`json.Unmarshal(body, &deletionLogBody)` (its error, and the value of `deletionLogBody` after
the call), and the answer to the repeated delete request. -/
structure loki.PollReply where
  wake : Wake
  get : HttpReply
  Unmarshal : Option ExtError × List DeleteLogEntry
  delete : HttpReply
  deriving DecidableEq, Repr

/-- What a run of a polling loop did. `returned` is `none` while the loop is still running
(the model stopped following it), `some err` once the function returned `err`. `polls`
counts the iterations begun, `sleeps` lists the durations passed to `SleepWithContext`, and
`requests` the HTTP requests sent, both in order. -/
structure PollResult where
  returned : Option (Option GoError)
  polls : Nat
  sleeps : List Int
  requests : List HttpRequest
  deriving DecidableEq, Repr

/-- A loop that has not begun an iteration. -/
def PollResult.running : PollResult :=
  { returned := none, polls := 0, sleeps := [], requests := [] }

/-- An iteration that slept `sleeps`, sent `requests` and then returned `err`. -/
def PollResult.ret (sleeps : List Int) (requests : List HttpRequest) (err : Option GoError) :
    PollResult :=
  { returned := some err, polls := 1, sleeps := sleeps, requests := requests }

/-- An iteration that slept `sleeps`, sent `requests` and went on to the next iteration,
whose run is `rest`. -/
def PollResult.next (sleeps : List Int) (requests : List HttpRequest) (rest : PollResult) :
    PollResult :=
  { returned := rest.returned, polls := rest.polls + 1, sleeps := sleeps ++ rest.sleeps,
    requests := requests ++ rest.requests }

/-- The loop of `loki.checkDeletionStatus`, from iteration `i` on, with the current values
of `cnt` and `sleepTime`; at most `fuel` iterations are followed. `1<<cnt` and the product
with `PollingRate` are 64-bit operations. -/
def loki.checkDeletionStatusLoop (urlCfg : config.Loki) (tenantID : String)
    (reply : Nat → loki.PollReply) : (fuel i cnt : Nat) → (sleepTime : Int) → PollResult
  | 0, _, _, _ => PollResult.running
  | fuel + 1, i, cnt, sleepTime =>
    let urlRaw := urlCfg.Backend ++ "/loki/api/v1/delete"
    match SleepWithContext (reply i).wake with
    | some err => PollResult.ret [sleepTime] [] (some err)
    | none =>
      let get := GetReq urlRaw tenantID (reply i).get
      match get.err with
      | some err => PollResult.ret [sleepTime] get.requests (some err)
      | none =>
        match (reply i).Unmarshal.1 with
        | some e =>
          PollResult.ret [sleepTime] get.requests
            (some (.wrap "failed to unmarshal response body" (.ext e)))
        | none =>
          let deletionLogBody := (reply i).Unmarshal.2
          match deletionLogBody.getLast? with
          | some newestDelReq =>
            if urlCfg.DeleteVerifyMode = LooseMode then
              PollResult.ret [sleepTime] get.requests none
            else if newestDelReq.Status = "processed" then
              PollResult.ret [sleepTime] get.requests none
            else
              PollResult.next [sleepTime] get.requests
                (loki.checkDeletionStatusLoop urlCfg tenantID reply fuel (i + 1) cnt sleepTime)
          | none =>
            let del := loki.deleteLogsRequest urlCfg tenantID (reply i).delete
            match del.err with
            | some err => PollResult.ret [sleepTime] (get.requests ++ del.requests) (some err)
            | none =>
              let calcTime := wrapInt64 (wrapInt64 (2 ^ cnt) * urlCfg.PollingRate)
              if calcTime < urlCfg.MaxPollingRate then
                PollResult.next [sleepTime] (get.requests ++ del.requests)
                  (loki.checkDeletionStatusLoop urlCfg tenantID reply fuel (i + 1) (cnt + 1)
                    calcTime)
              else
                PollResult.next [sleepTime] (get.requests ++ del.requests)
                  (loki.checkDeletionStatusLoop urlCfg tenantID reply fuel (i + 1) cnt
                    urlCfg.MaxPollingRate)

/-- Embedding of `loki.checkDeletionStatus`. -/
def loki.checkDeletionStatus (urlCfg : config.Loki) (tenantID : String)
    (reply : Nat → loki.PollReply) (fuel : Nat) : PollResult :=
  loki.checkDeletionStatusLoop urlCfg tenantID reply fuel 0 0 urlCfg.PollingRate

/-- The answers to the calls of one run of `loki.CleanupTenant`. -/
structure loki.CleanupReply where
  flush : HttpReply
  delete : HttpReply
  poll : Nat → loki.PollReply

/-- What a run of `CleanupTenant` of a store did: `returned` as in `PollResult`, the HTTP
requests sent and the durations slept, in order, and the number of iterations of the
deletion-status loop begun. -/
structure CleanupResult where
  returned : Option (Option GoError)
  requests : List HttpRequest
  sleeps : List Int
  polls : Nat
  deriving DecidableEq, Repr

/-- Embedding of `loki.CleanupTenant`; `fuel` bounds the iterations of the deletion-status
loop that are followed. -/
def loki.CleanupTenant (ctx : Ctx) (urlCfg : config.Loki) (reply : loki.CleanupReply)
    (fuel : Nat) : CleanupResult :=
  match ctx.tenantID with
  | none => { returned := some (some noTenantID), requests := [], sleeps := [], polls := 0 }
  | some tenantID =>
    let flush := loki.flushIngesters urlCfg tenantID reply.flush
    match flush.err with
    | some err =>
      { returned := some (some (.wrap ("failed to flush ingesters for tenantID " ++
          quoted tenantID) err)),
        requests := flush.requests, sleeps := [], polls := 0 }
    | none =>
      let del := loki.deleteLogsRequest urlCfg tenantID reply.delete
      match del.err with
      | some err =>
        { returned := some (some (.wrap ("failed to delete logs for tenantID " ++
            quoted tenantID) err)),
          requests := flush.requests ++ del.requests, sleeps := [], polls := 0 }
      | none =>
        let chk := loki.checkDeletionStatus urlCfg tenantID reply.poll fuel
        { returned := chk.returned.map (fun r => r.map (fun err =>
            .wrap ("failed to check deletion status for tenantID " ++ quoted tenantID) err)),
          requests := flush.requests ++ del.requests ++ chk.requests, sleeps := chk.sleeps,
          polls := chk.polls }

/-! ## The metrics store (`internal/mimir/mimir.go`) -/

/-- The type `deleteStatus`. -/
structure mimir.deleteStatus where
  TenantID : String
  BlocksDeleted : Bool
  deriving DecidableEq, Repr

/-- Embedding of `mimir.flushIngesters`. -/
def mimir.flushIngesters (urlCfg : config.Mimir) (tenantID : String) (reply : HttpReply) :
    HttpResult :=
  let urlRaw := urlCfg.Ingester ++ "/ingester/flush?wait=true"
  GetReq urlRaw tenantID reply

/-- Embedding of `mimir.deleteMetricsRequest`. -/
def mimir.deleteMetricsRequest (urlCfg : config.Mimir) (tenantID : String) (reply : HttpReply) :
    HttpResult :=
  let urlRaw := urlCfg.Compactor ++ "/compactor/delete_tenant"
  PostReq urlRaw tenantID reply

/-- The answers to one iteration of the loop of `mimir.checkDeletionStatus`: the answer to
the status request, the result of `json.Unmarshal(body, &deletionStatusBody)` (its error,
and the value of `deletionStatusBody` after the call), and which case of the sleep ran. -/
structure mimir.PollReply where
  get : HttpReply
  Unmarshal : Option ExtError × mimir.deleteStatus
  wake : Wake
  deriving DecidableEq, Repr

/-- The loop of `mimir.checkDeletionStatus`, from iteration `i` on; at most `fuel`
iterations are followed. -/
def mimir.checkDeletionStatusLoop (urlCfg : config.Mimir) (tenantID : String)
    (reply : Nat → mimir.PollReply) : (fuel i : Nat) → PollResult
  | 0, _ => PollResult.running
  | fuel + 1, i =>
    let urlRaw := urlCfg.Compactor ++ "/compactor/delete_tenant_status"
    let get := GetReq urlRaw tenantID (reply i).get
    match get.err with
    | some err => PollResult.ret [] get.requests (some err)
    | none =>
      match (reply i).Unmarshal.1 with
      | some e =>
        PollResult.ret [] get.requests (some (.wrap "failed to unmarshal response body" (.ext e)))
      | none =>
        let deletionStatusBody := (reply i).Unmarshal.2
        if deletionStatusBody.BlocksDeleted then
          PollResult.ret [] get.requests none
        else
          match SleepWithContext (reply i).wake with
          | some err => PollResult.ret [urlCfg.PollingRate] get.requests (some err)
          | none =>
            PollResult.next [urlCfg.PollingRate] get.requests
              (mimir.checkDeletionStatusLoop urlCfg tenantID reply fuel (i + 1))

/-- Embedding of `mimir.checkDeletionStatus`. -/
def mimir.checkDeletionStatus (urlCfg : config.Mimir) (tenantID : String)
    (reply : Nat → mimir.PollReply) (fuel : Nat) : PollResult :=
  mimir.checkDeletionStatusLoop urlCfg tenantID reply fuel 0

/-- The answers to the calls of one run of `mimir.CleanupTenant`. -/
structure mimir.CleanupReply where
  flush : HttpReply
  delete : HttpReply
  poll : Nat → mimir.PollReply

/-- Embedding of `mimir.CleanupTenant`; `fuel` bounds the iterations of the deletion-status
loop that are followed. -/
def mimir.CleanupTenant (ctx : Ctx) (urlCfg : config.Mimir) (reply : mimir.CleanupReply)
    (fuel : Nat) : CleanupResult :=
  match ctx.tenantID with
  | none => { returned := some (some noTenantID), requests := [], sleeps := [], polls := 0 }
  | some tenantID =>
    let flush := mimir.flushIngesters urlCfg tenantID reply.flush
    match flush.err with
    | some err =>
      { returned := some (some (.wrap ("failed to flush ingesters for tenantID " ++
          quoted tenantID) err)),
        requests := flush.requests, sleeps := [], polls := 0 }
    | none =>
      let del := mimir.deleteMetricsRequest urlCfg tenantID reply.delete
      match del.err with
      | some err =>
        { returned := some (some (.wrap ("failed to delete metrics for tenantID " ++
            quoted tenantID) err)),
          requests := flush.requests ++ del.requests, sleeps := [], polls := 0 }
      | none =>
        if urlCfg.DeleteVerifyMode = StrictMode then
          let chk := mimir.checkDeletionStatus urlCfg tenantID reply.poll fuel
          { returned := chk.returned.map (fun r => r.map (fun err =>
              .wrap ("failed to check deletion status for tenantID " ++ quoted tenantID) err)),
            requests := flush.requests ++ del.requests ++ chk.requests, sleeps := chk.sleeps,
            polls := chk.polls }
        else
          { returned := some none, requests := flush.requests ++ del.requests, sleeps := [],
            polls := 0 }

/-! ## The project stream (`internal/projects/projects.go`) -/

/-- A buffered channel of type `chan struct{}`: its capacity and the number of elements in
its buffer. No goroutine is blocked in a receive on it. -/
structure Chan where
  cap : Nat
  len : Nat
  deriving DecidableEq, Repr

/-- The value of `make(chan struct{}, 1)`, the channel `StreamProjectUpdates` creates for a
subscriber. -/
def updateChan : Chan := { cap := 1, len := 0 }

/-- The statement `select { case ch <- struct{}{}: default: }`: the element is buffered
when the buffer has room, and the send is skipped otherwise. -/
def Chan.trySend (c : Chan) : Chan :=
  if c.len < c.cap then { c with len := c.len + 1 } else c

/-- A key of the map `Server.Clients`: a channel of type `chan struct{}` (with its present
state), or a value of any other type. -/
inductive ClientKey where
  | chan (c : Chan)
  | other (tag : String)
  deriving DecidableEq, Repr

/-- The type `projectStatus` with its two constants. -/
inductive projectStatus where
  | ProjectCreated
  | ProjectDeleted
  deriving DecidableEq, Repr

/-- The type `ProjectData`. -/
structure ProjectData where
  ProjectName : String
  OrgID : String
  Status : projectStatus
  deriving DecidableEq, Repr

/-- The fields of `projects.Server` that the code reads and writes: the map `Projects` as an
association list, and the keys of the map `Clients`. -/
structure Server where
  Projects : List (String × ProjectData)
  Clients : List ClientKey
  deriving DecidableEq, Repr

/-- Embedding of `Server.BroadcastUpdate`: a non-blocking send on every key of `Clients`
that is a channel; the other keys are passed over. -/
def Server.BroadcastUpdate (s : Server) : Server :=
  { s with Clients := s.Clients.map (fun key =>
      match key with
      | .chan c => .chan c.trySend
      | .other tag => .other tag) }

/-! ## Streaming the project snapshot (`internal/projects/projects.go`) -/

/-- The type `pb.ProjectData`. -/
structure pb.ProjectData where
  ProjectName : String
  OrgName : String
  Status : String
  deriving DecidableEq, Repr

/-- The type `pb.ProjectEntry`. -/
structure pb.ProjectEntry where
  Key : String
  Data : pb.ProjectData
  deriving DecidableEq, Repr

/-- The type `pb.ProjectUpdate`. -/
structure pb.ProjectUpdate where
  Projects : List pb.ProjectEntry
  deriving DecidableEq, Repr

/-- The conversion `string(status)` of a `projectStatus`. -/
def projectStatus.string : projectStatus → String
  | .ProjectCreated => "Created"
  | .ProjectDeleted => "Deleted"

/-- What `SendCurrentStateToClient` did: the error it returned and the messages it handed to
`stream.Send`. -/
structure SendResult where
  err : Option GoError
  sent : List pb.ProjectUpdate
  deriving DecidableEq, Repr

/-- Embedding of `Server.SendCurrentStateToClient`; `send` is the error of `stream.Send`.
The order of the list `Projects` stands for the order in which `range` visits the map. -/
def Server.SendCurrentStateToClient (s : Server) (send : Option ExtError) : SendResult :=
  let projectEntries : List pb.ProjectEntry := s.Projects.map (fun e =>
    { Key := e.1,
      Data := { ProjectName := e.2.ProjectName, OrgName := e.2.OrgID,
                Status := e.2.Status.string } })
  let projectUpdate : pb.ProjectUpdate := { Projects := projectEntries }
  { err := send.map GoError.ext, sent := [projectUpdate] }

/-- A step of `StreamProjectUpdates` that is visible outside the function. -/
inductive StreamAct where
  /-- The statement `s.Clients.Store(updateChan, struct{}{})`. -/
  | store
  /-- A call of `stream.Send` with the message, and the keys of `Clients` at that moment. -/
  | send (msg : pb.ProjectUpdate) (clients : List ClientKey)
  /-- The deferred statement `s.Clients.Delete(updateChan)`. -/
  | delete
  deriving DecidableEq, Repr

/-- Which case of the `select` of `StreamProjectUpdates` ran in one iteration. -/
inductive StreamSelect where
  /-- The case `<-updateChan`; `projects` is the map `Projects` as the send that follows
  reads it, and `send` the error of `stream.Send`. -/
  | update (projects : List (String × ProjectData)) (send : Option ExtError)
  /-- The case `<-stream.Context().Done()`, with the value of `stream.Context().Err()`. -/
  | done (err : CtxErr)

/-- What `StreamProjectUpdates` did. `returned` is `none` while the function is still in
its loop (the model stopped following it) and the error it returned otherwise; `server` is
the server as the function left it. Changes other goroutines make to `Clients` in the
meantime are not represented. -/
structure StreamResult where
  returned : Option GoError
  acts : List StreamAct
  server : Server
  deriving DecidableEq, Repr

/-- The `for` loop of `StreamProjectUpdates`, from iteration `i` on: the error returned, if
the loop was left within `fuel` iterations, and the messages sent. -/
def Server.streamLoop (s : Server) (sel : Nat → StreamSelect) :
    (fuel i : Nat) → Option GoError × List StreamAct
  | 0, _ => (none, [])
  | fuel + 1, i =>
    match sel i with
    | .update projects send =>
      let r := ({ s with Projects := projects }).SendCurrentStateToClient send
      match r.err with
      | some err => (some err, r.sent.map (fun m => .send m s.Clients))
      | none =>
        let rest := s.streamLoop sel fuel (i + 1)
        (rest.1, r.sent.map (fun m => .send m s.Clients) ++ rest.2)
    | .done err => (some err.toError, [])

/-- Embedding of `Server.StreamProjectUpdates`; `first` is the error of the first
`stream.Send`, `sel` names the `select` case of each iteration, and `fuel` bounds the
iterations that are followed. The new channel becomes the last key of `Clients`. -/
def Server.StreamProjectUpdates (s : Server) (first : Option ExtError)
    (sel : Nat → StreamSelect) (fuel : Nat) : StreamResult :=
  let s1 : Server := { s with Clients := s.Clients ++ [.chan updateChan] }
  let s2 : Server := { s1 with Clients := s1.Clients.eraseIdx s.Clients.length }
  let r := s1.SendCurrentStateToClient first
  match r.err with
  | some err =>
    { returned := some err,
      acts := [.store] ++ r.sent.map (fun m => .send m s1.Clients) ++ [.delete], server := s2 }
  | none =>
    let loop := s1.streamLoop sel fuel 0
    match loop.1 with
    | some err =>
      { returned := some err,
        acts := [.store] ++ r.sent.map (fun m => .send m s1.Clients) ++ loop.2 ++ [.delete],
        server := s2 }
    | none =>
      { returned := none,
        acts := [.store] ++ r.sent.map (fun m => .send m s1.Clients) ++ loop.2, server := s1 }

/-! ## The controller (`internal/controller/controller.go`) -/

/-- The type `CommChannel`. -/
structure CommChannel where
  Project : Project
  Status : Action
  deriving DecidableEq, Repr

/-- The fields of `TenantController` that the handlers use: the values sent on `ComSig` and
not yet received, oldest first, and `grpcServer`, whose maps are shared with the server
passed to `New`. A send on `ComSig` that finds the buffer full waits for the receiver; the
waiting is not represented. -/
structure controller.TenantController where
  ComSig : List CommChannel
  grpcServer : Server
  deriving DecidableEq, Repr

/-- The Go expression `m[k]` with its presence flag, on the map `Server.Projects`. -/
def projectsGet (k : String) (m : List (String × ProjectData)) : Option ProjectData :=
  (m.find? (fun e => e.1 == k)).map Prod.snd

/-- The Go statement `m[k] = v` on the map `Server.Projects`: the entry of `k` is replaced,
or added when absent. -/
def projectsSet (k : String) (v : ProjectData) :
    List (String × ProjectData) → List (String × ProjectData)
  | [] => [(k, v)]
  | e :: m => if e.1 == k then (k, v) :: m else e :: projectsSet k v m

/-- The Go expression `project.GetLabels()[util.OrgNameLabel]`: reading a nil map or a
missing key gives the empty string. -/
def orgLabel (project : Project) : String :=
  match project.Labels with
  | some labels => (labels.lookup OrgNameLabel).getD ""
  | none => ""

/-- Embedding of `TenantController.addHandler`. -/
def controller.TenantController.addHandler (tc : controller.TenantController)
    (project : Project) : controller.TenantController :=
  let ProjectName := project.DisplayName
  let OrgID := orgLabel project
  if project.Deleted then
    let comSig := tc.ComSig ++ [{ Project := project, Status := .CleanupTenant }]
    let pd : ProjectData :=
      { ProjectName := ProjectName, OrgID := OrgID, Status := .ProjectDeleted }
    let server : Server :=
      { tc.grpcServer with Projects := projectsSet project.UID pd tc.grpcServer.Projects }
    { ComSig := comSig, grpcServer := server.BroadcastUpdate }
  else
    let comSig := tc.ComSig ++ [{ Project := project, Status := .InitializeTenant }]
    let pd : ProjectData :=
      { ProjectName := ProjectName, OrgID := OrgID, Status := .ProjectCreated }
    let server : Server :=
      { tc.grpcServer with Projects := projectsSet project.UID pd tc.grpcServer.Projects }
    { ComSig := comSig, grpcServer := server.BroadcastUpdate }

/-- Embedding of `TenantController.updateHandler`; the first argument is the project before
the update. -/
def controller.TenantController.updateHandler (tc : controller.TenantController)
    (_old project : Project) : controller.TenantController :=
  let ProjectName := project.DisplayName
  let OrgID := orgLabel project
  if project.Deleted then
    let comSig := tc.ComSig ++ [{ Project := project, Status := .CleanupTenant }]
    let pd : ProjectData :=
      { ProjectName := ProjectName, OrgID := OrgID, Status := .ProjectDeleted }
    let server : Server :=
      { tc.grpcServer with Projects := projectsSet project.UID pd tc.grpcServer.Projects }
    { ComSig := comSig, grpcServer := server.BroadcastUpdate }
  else
    let comSig := tc.ComSig ++ [{ Project := project, Status := .InitializeTenant }]
    let pd : ProjectData :=
      { ProjectName := ProjectName, OrgID := OrgID, Status := .ProjectCreated }
    let server : Server :=
      { tc.grpcServer with Projects := projectsSet project.UID pd tc.grpcServer.Projects }
    { ComSig := comSig, grpcServer := server.BroadcastUpdate }

/-! ## The controller and the job manager together
(`cmd/observability-tenant-controller`) -/

/-- The controller and the job manager of `main`: the manager receives from the channel
`ComSig` of the controller. -/
structure System where
  tc : controller.TenantController
  jm : JobManager
  deriving DecidableEq

/-- The system `main` builds: no project recorded, no subscriber, nothing sent, no job. -/
def System.init (jCfg : config.Job) (endpoints : config.Endpoints) : System :=
  { tc := { ComSig := [], grpcServer := { Projects := [], Clients := [] } },
    jm := New jCfg endpoints }

/-- What the threads of the process do to the system. -/
inductive SysEvent where
  /-- The resource store calls the add callback. -/
  | add (project : Project)
  /-- The resource store calls the update callback. -/
  | update (old project : Project)
  /-- The case `v := <-jm.comSig` of `JobManager.Start`: the oldest value is received and
  handed to `startJob` with its action. -/
  | receive
  /-- The ticker case of `JobManager.Start`. -/
  | tick
  /-- A background function stores a status into the job of the given identity. -/
  | storeStatus (uid : String) (status : jobStatus)
  /-- A background function stores its cancel function into the job of the identity. -/
  | storeCancelFn (uid : String) (ctxId : Nat)
  deriving DecidableEq, Repr

/-- The effect of one event on the system. -/
def System.step (s : System) : SysEvent → System
  | .add project => { s with tc := s.tc.addHandler project }
  | .update old project => { s with tc := s.tc.updateHandler old project }
  | .receive =>
    match s.tc.ComSig with
    | [] => s
    | v :: rest =>
      { tc := { s.tc with ComSig := rest },
        jm := match v.Status with
          | .InitializeTenant => s.jm.step (.lifecycle v.Project .InitializeTenant)
          | .CleanupTenant => s.jm.step (.lifecycle v.Project .CleanupTenant) }
  | .tick => { s with jm := s.jm.step .tick }
  | .storeStatus uid status => { s with jm := s.jm.step (.storeStatus uid status) }
  | .storeCancelFn uid ctxId => { s with jm := s.jm.step (.storeCancelFn uid ctxId) }

/-- The system after a sequence of events. -/
def System.steps (s : System) (events : List SysEvent) : System :=
  events.foldl System.step s

/-! ## Concrete data for the worked examples -/

/-- The `float64` nearest to the decimal `1.6`: `7205759403792794 * 2^-52`. -/
def float1_6 : Float64 := .finite 7205759403792794 (-52)

/-- The `float64` nearest to the decimal `1.4`: `6305039478318694 * 2^-52`. -/
def float1_4 : Float64 := .finite 6305039478318694 (-52)

/-- The backoff of `testdata/test_config.yaml` as checked by `TestReadConfig`: initial 10 s,
max 10 min, multiplier 1.6. -/
def testConfigBackoff : Backoff :=
  { Initial := 10000000000, Max := 600000000000, TimeMultiplier := float1_6 }

/-- A backoff with initial 10 s, max 10 min and multiplier 1.4. -/
def backoff1_4 : Backoff :=
  { Initial := 10000000000, Max := 600000000000, TimeMultiplier := float1_4 }

/-- The job configuration checked by `TestReadConfig`. -/
def testConfigJob : config.Job :=
  { DeletionRate := 60000000000, Backoff := testConfigBackoff, Timeout := 1800000000000,
    SreEnabled := true }

/-- The endpoints checked by `TestReadConfig`. -/
def testConfigEndpoints : config.Endpoints :=
  { AlertingMonitor := "http://localhost:8080", Sre := "http://localhost:8080",
    Mimir := { Ingester := "http://localhost:8080", Compactor := "http://localhost:8080",
               PollingRate := 20000000000, DeleteVerifyMode := "loose" },
    Loki := { Write := "http://localhost:3100", Backend := "http://localhost:3100",
              PollingRate := 20000000000, MaxPollingRate := 60000000000,
              DeleteVerifyMode := "loose" } }

/-- A project with UID `foo`, as built by `prepareWatcher(t, "foo")` in the tests. -/
def projectFoo : Project :=
  { UID := "foo", DisplayName := "foo", Labels := none, Deleted := false }

/-- The project with UID `foo` after it has been renamed and marked deleted. -/
def projectFooDeleted : Project :=
  { UID := "foo", DisplayName := "foo-renamed", Labels := none, Deleted := true }

/-- A project with UID `bar`. -/
def projectBar : Project :=
  { UID := "bar", DisplayName := "bar", Labels := none, Deleted := false }

/-- A watcher as `AddActiveWatchers` of the fake client returns it. -/
def idleWatcher : Watcher :=
  { Spec := { StatusIndicator := .StatusIndicationIdle, Message := "", TimeStamp := 0 } }

/-- A store in which the watcher exists and belongs to the project `foo`; every call
succeeds. -/
def replyWatcherOfFoo : StoreReply :=
  { GetActiveWatchers := (some idleWatcher, none), GetParent := (some projectFoo, none),
    AddActiveWatchers := none, Update := none, DeleteActiveWatchers := none, now := 1700000000 }

/-- A store in which the watcher exists but belongs to the project `bar`. -/
def replyWatcherOfBar : StoreReply :=
  { GetActiveWatchers := (some idleWatcher, none), GetParent := (some projectBar, none),
    AddActiveWatchers := none, Update := none, DeleteActiveWatchers := none, now := 1700000000 }

/-- An outside world in which every call of an attempt succeeds. -/
def replyAllGood : AttemptReply :=
  { report := replyWatcherOfFoo, am := none, sre := none, loki := none, mimir := none,
    first := 0, closing := replyWatcherOfFoo }

/-- An outside world in which the watcher has passed to another project. -/
def replyMismatch : AttemptReply :=
  { report := replyWatcherOfBar, am := none, sre := none, loki := none, mimir := none,
    first := 0, closing := replyWatcherOfBar }

/-- A run in which the watcher has passed to another project. -/
def worldMismatch : RunWorld :=
  { attempt := fun _ => replyMismatch, wake := fun _ => .timer, ctxErr := none, ctxId := 0,
    otherStore := none }

/-- The run of `worldMismatch` on a job into which a superseded execution stores
`jobCancelled` after the retry loop of this run has ended and before this run reads the
status back. -/
def worldMismatchLateStore : RunWorld :=
  { worldMismatch with otherStore := some .jobCancelled }

/-- The job `newJob` builds for the project `foo`. -/
def jobFoo : job := newJob projectFoo testConfigJob testConfigEndpoints

/-- An outside world in which the alerting monitor is unavailable. -/
def replyUnavailable : AttemptReply :=
  { replyAllGood with am := some (.grpc 14) }

/-- A schedule in which the manager handles `E1` and `E2` before the execution of `E1` has
executed its first statement; then the execution of `E2` runs to its end, every call
succeeding, and after it the execution of `E1` does. -/
def scheduleLateStart : List Sched :=
  [.manager, .manager, .manager, .manager, .manager,
   .exec .exec2, .attempt .exec2 replyAllGood, .exec .exec2, .exec .exec2, .exec .exec2,
   .exec .exec2,
   .exec .exec1, .attempt .exec1 replyAllGood, .exec .exec1, .exec .exec1, .exec .exec1]

/-- A schedule in which the execution of `E1` has stored its cancel function and sleeps
after a failed attempt when `E2` arrives; the manager cancels it and starts the execution
of `E2`, which runs to its end; only then the execution of `E1` wakes up. -/
def scheduleLateWake : List Sched :=
  [.manager, .manager, .exec .exec1, .attempt .exec1 replyUnavailable,
   .manager, .manager, .manager,
   .exec .exec2, .attempt .exec2 replyAllGood, .exec .exec2, .exec .exec2, .exec .exec2,
   .exec .exec2,
   .wake .exec1 (.done .canceled), .exec .exec1, .exec .exec1, .exec .exec1]

/-- A schedule for a cleanup `E2` that supersedes `E1`: the execution of `E1` has stored its
cancel function and sleeps after a failed attempt when the manager cancels it and starts
the execution of `E2`. The attempt of `E2` finds the watcher owned by another project, so
its retry loop stores `tenantIDsNotMatch` and ends, and it reads `ctx.Err()`; then the
execution of `E1` wakes up and stores `jobCancelled`; only then the execution of `E2` reads
the status back. -/
def scheduleLateStoreMismatch : List Sched :=
  [.manager, .manager, .exec .exec1, .attempt .exec1 replyUnavailable,
   .manager, .manager, .manager,
   .exec .exec2, .attempt .exec2 replyMismatch, .exec .exec2,
   .wake .exec1 (.done .canceled), .exec .exec1, .exec .exec1,
   .exec .exec2, .exec .exec2, .exec .exec2,
   .exec .exec1]

/-- A schedule for an initialization `E2` that supersedes a cleanup `E1`: the manager
handles both events before the execution of `E1` has stored its cancel function, so
`job.cancel()` invokes nothing. The execution of `E2` runs to its end, every call
succeeding; after it the execution of `E1` makes its attempt, which finds the watcher owned
by another project. -/
def scheduleLateStartMismatch : List Sched :=
  [.manager, .manager, .manager, .manager, .manager,
   .exec .exec2, .attempt .exec2 replyAllGood, .exec .exec2, .exec .exec2, .exec .exec2,
   .exec .exec1, .attempt .exec1 replyMismatch, .exec .exec1, .exec .exec1, .exec .exec1]

/-- A schedule for an initialization `E2` that supersedes a cleanup `E1`: the execution of
`E1` has stored its cancel function when the manager cancels it and starts the execution of
`E2`, which runs to its end, every call succeeding. After it the attempt of `E1` returns:
it has found the watcher owned by another project. -/
def scheduleCancelledMismatch : List Sched :=
  [.manager, .manager, .exec .exec1,
   .manager, .manager, .manager,
   .exec .exec2, .attempt .exec2 replyAllGood, .exec .exec2, .exec .exec2, .exec .exec2,
   .attempt .exec1 replyMismatch, .exec .exec1, .exec .exec1, .exec .exec1]

/-- The thread and the status of a store event. -/
def Ev.asStore : Ev → Option (Thread × jobStatus)
  | .stored t status => some (t, status)
  | _ => none

/-- The last status store of a history, with the thread that made it. -/
def lastStore (h : List Ev) : Option (Thread × jobStatus) :=
  h.reverse.findSome? Ev.asStore

/-! ## Notions used to state the theorems -/

/-- Call number `i` of the tenant action returned an error that is not an identity
mismatch and the sleep after it was not ended by cancellation: the loop goes round. -/
def Retried (tenantAction : Nat → Option GoError) (wake : Nat → Wake) (i : Nat) : Prop :=
  ∃ e, tenantAction i = some e ∧ e.asIDsDoNotMatch = false ∧
    errorsIsCanceled (SleepWithContext (wake i)) = false

/-- The counter `cnt` after one more backoff computation. -/
def nextCnt (b : Backoff) (cnt : Nat) : Nat := (backoffStep b cnt).cntAfter

/-- The number a finite `float64` stands for; `none` for an infinity and for a value that
is not a number. -/
def Float64.value : Float64 → Option ℚ
  | .finite m e => some ((m : ℚ) * (2 : ℚ) ^ e)
  | _ => none

/-- Truncation of a number toward zero, to a whole number of nanoseconds. -/
def truncDuration (x : ℚ) : Int :=
  if 0 ≤ x then ⌊x⌋ else ⌈x⌉

/-- The delay after the `k`-th consecutive failed attempt as the specification words it:
`min(max, initial * multiplier^k)`, computed on exact numbers and truncated to whole
nanoseconds. -/
def delayFormula (initial max : Int) (multiplier : ℚ) (k : Nat) : Int :=
  truncDuration (min (max : ℚ) ((initial : ℚ) * multiplier ^ k))

/-- The statuses on which the sweep removes a job. -/
def reaped (status : jobStatus) : Bool :=
  status == .tenantDeleted || status == .tenantIDsNotMatch

/-- The condition under which `checkWatcher` gives up on the parent lookup:
`err != nil && !nexus.IsChildNotFound(err) && !nexus.IsNotFound(err)`. -/
def parentLookupFailed (reply : StoreReply) : Bool :=
  reply.GetParent.2.isSome && !IsChildNotFound reply.GetParent.2 && !IsNotFound reply.GetParent.2

/-- The parent project the lookup returned is absent, or its UID differs from `tenantID`. -/
def parentMismatch (reply : StoreReply) (tenantID : String) : Prop :=
  reply.GetParent.1 = none ∨ ∃ p, reply.GetParent.1 = some p ∧ p.UID ≠ tenantID

/-- A status an execution with action `a` can store: `jobCancelled`, the terminal status of
its action, or, for a cleanup, `tenantIDsNotMatch`. -/
def outcome (a : Action) (st : jobStatus) : Prop :=
  st = .jobCancelled ∨ (st = .tenantIDsNotMatch ∧ a = .CleanupTenant) ∨
    (st = .tenantCreated ∧ a = .InitializeTenant) ∨ (st = .tenantDeleted ∧ a = .CleanupTenant)

/-- In a history every start of the execution of `E2` comes after a call of
`job.cancel()`. -/
def cancelBeforeStart (h : List Ev) : Prop :=
  ∀ i : Nat, h[i]? = some (Ev.started .exec2) →
    ∃ (j : Nat) (inv : Option Thread), j < i ∧ h[j]? = some (Ev.cancelCall inv)

/-- The invariant of the three threads. -/
structure Inv (s : Shared) : Prop where
  pc2_idle : s.pc2 ≠ none → s.mgr = .idle
  status_last : s.job.status = ((lastStore s.history).map Prod.snd).getD .jobCreated
  stores : ∀ t st, Ev.stored t st ∈ s.history →
    (t = .manager ∧ st = .jobInProgress) ∨ (t ≠ .manager ∧ outcome (s.actionOf t) st)
  exec2_stored : (s.pc2 = some .deferred ∨ s.pc2 = some .done) →
    ∃ t st, lastStore s.history = some (t, st) ∧ t ≠ .manager
  no_start2 : s.mgr ≠ .idle → Ev.started .exec2 ∉ s.history
  cancel_called : (s.mgr = .e2Store ∨ s.mgr = .e2Go ∨ s.mgr = .idle) →
    ∃ inv, Ev.cancelCall inv ∈ s.history
  order : cancelBeforeStart s.history
  pc_created : ∀ t, s.pcOf t = some .storeCreated → s.actionOf t = .InitializeTenant
  pc_deleted : ∀ t, s.pcOf t = some .storeDeleted → s.actionOf t = .CleanupTenant
  pc_load : ∀ t, s.pcOf t = some .loadStatus → s.actionOf t = .CleanupTenant

/-- The invariant of the three threads when `E2` is an initialization and `job.cancel()`
has invoked the cancel function of the execution of `E1`: the context of that execution is
cancelled, and once the manager has stored `jobInProgress` for `E2`, a status
`tenantIDsNotMatch` of the job was stored by the execution of `E1`, which is then about to
read `ctx.Err()` or to store `jobCancelled`. -/
structure InvInit (s : Shared) : Prop where
  action2 : s.action2 = .InitializeTenant
  cancelled : Ev.cancelCall (some .exec1) ∈ s.history → s.cancelled1 = true
  overwritten : Ev.cancelCall (some .exec1) ∈ s.history → (s.mgr = .e2Go ∨ s.mgr = .idle) →
    s.job.status = .tenantIDsNotMatch →
    s.pc1 = some .readCtxErr ∨ s.pc1 = some .storeCancelled


/-! ## Concrete data and notions for the watcher operations, the stores and the stream -/

/-- A store in which the project `foo` has no watcher. -/
def replyWatcherAbsent : StoreReply :=
  { GetActiveWatchers := (none, some .notFound), GetParent := (none, some .notFound),
    AddActiveWatchers := none, Update := none, DeleteActiveWatchers := none, now := 1700000000 }

/-- A store in which the lookup finds no watcher, and the creation that follows finds that
another writer has created it in between. -/
def replyCreateExists : StoreReply :=
  { replyWatcherAbsent with AddActiveWatchers := some .alreadyExists }

/-- A store in which the watcher of `foo` is found, and has been removed by another writer
when the update arrives. -/
def replyUpdateNotFound : StoreReply :=
  { replyWatcherOfFoo with Update := some .notFound }

/-- A store in which the watcher is found, and its parent project is not. -/
def replyParentNotFound : StoreReply :=
  { replyWatcherOfFoo with GetParent := (none, some .notFound) }

/-- A store in which the watcher of `foo` is found, and has been removed by another writer
when the delete arrives. -/
def replyDeleteNotFound : StoreReply :=
  { replyWatcherOfFoo with DeleteActiveWatchers := some .notFound }

/-- The lookup of the watcher reported that there is none:
`nexus.IsNotFound(err) || nexus.IsChildNotFound(err)`. -/
def watcherAbsent (reply : StoreReply) : Bool :=
  IsNotFound reply.GetActiveWatchers.2 || IsChildNotFound reply.GetActiveWatchers.2

/-- The lookup of the watcher failed: 
`err != nil && !nexus.IsChildNotFound(err) && !nexus.IsNotFound(err)`. -/
def watcherLookupFailed (reply : StoreReply) : Bool :=
  reply.GetActiveWatchers.2.isSome && !IsChildNotFound reply.GetActiveWatchers.2 &&
    !IsNotFound reply.GetActiveWatchers.2

/-- The store holds the watcher `w` and names as its parent a project whose UID is
`tenantID`; a not-found error may accompany the parent. -/
def watcherOwned (reply : StoreReply) (w : Watcher) (tenantID : String) : Prop :=
  reply.GetActiveWatchers = (some w, none) ∧ parentLookupFailed reply = false ∧
    ∃ parent, reply.GetParent.1 = some parent ∧ parent.UID = tenantID

/-- The spec `createWatcher` and `updateWatcher` write: the given status and message, and
the time of the call. -/
def specOf (status : ActiveWatcherStatus) (message : String) (reply : StoreReply) :
    ProjectActiveWatcherSpec :=
  { StatusIndicator := status, Message := message, TimeStamp := safeUnixTime reply.now }

/-- A request that is built and delivered and answered with status 200 and an empty body. -/
def httpOK : HttpReply :=
  { Parse := none, NewRequest := none, Do := none, StatusCode := 200, Body := "", ReadAll := none }

/-- A request that is built and delivered and answered with status 200, and whose response
body cannot be read to its end. -/
def httpUnreadable : HttpReply :=
  { httpOK with ReadAll := some (.other "unexpected EOF") }

/-- A deletion request of the log store in the given state. -/
def deleteLogEntry (status : String) : DeleteLogEntry :=
  { RequestID := "1", Query := "\x7b__tenant_id__=\"foo\"\x7d", Status := status }

/-- A poll of the log store that is answered with one deletion request in the given
state. -/
def lokiPoll (status : String) : loki.PollReply :=
  { wake := .timer, get := httpOK, Unmarshal := (none, [deleteLogEntry status]), delete := httpOK }

/-- A poll of the log store that is answered with the empty list. -/
def lokiPollEmpty : loki.PollReply :=
  { wake := .timer, get := httpOK, Unmarshal := (none, []), delete := httpOK }

/-- A log store that accepts every request and reports the deletion as received, not yet
processed, at every poll. -/
def lokiReceived : loki.CleanupReply :=
  { flush := httpOK, delete := httpOK, poll := fun _ => lokiPoll "received" }

/-- A log store that accepts every request and reports the deletion as received at the
first two polls and as processed from the third on. -/
def lokiProcessedLater : loki.CleanupReply :=
  { flush := httpOK, delete := httpOK,
    poll := fun i => if i < 2 then lokiPoll "received" else lokiPoll "processed" }

/-- A poll of the metrics store that reports whether the blocks are deleted. -/
def mimirPoll (deleted : Bool) : mimir.PollReply :=
  { get := httpOK, Unmarshal := (none, { TenantID := "foo", BlocksDeleted := deleted }),
    wake := .timer }

/-- A metrics store that accepts every request and never reports the blocks as deleted. -/
def mimirPending : mimir.CleanupReply :=
  { flush := httpOK, delete := httpOK, poll := fun _ => mimirPoll false }

/-- The log store of `testdata/test_config.yaml` with the verification mode `strict`. -/
def lokiStrict : config.Loki :=
  { testConfigEndpoints.Loki with DeleteVerifyMode := "strict" }

/-- The request could be built and delivered and was answered with status 200 or 204: the
condition under which `PostReq` returns nil. -/
def HttpReply.delivered (r : HttpReply) : Prop :=
  r.Parse = none ∧ r.NewRequest = none ∧ r.Do = none ∧ (r.StatusCode = 200 ∨ r.StatusCode = 204)

/-- The request was delivered and the body of the response could be read: the condition
under which `GetReq` returns nil. -/
def HttpReply.readable (r : HttpReply) : Prop :=
  r.delivered ∧ r.ReadAll = none

/-- The poll got as far as a decoded response: the sleep ran to its end, the status request
succeeded and its body was decoded. -/
def loki.PollReply.answered (r : loki.PollReply) : Prop :=
  r.wake = .timer ∧ r.get.readable ∧ r.Unmarshal.1 = none

/-- The poll was answered with a non-empty list. -/
def loki.PollReply.nonEmpty (r : loki.PollReply) : Prop :=
  r.answered ∧ r.Unmarshal.2 ≠ []

/-- The poll was answered with the empty list, and the delete request sent again after it
was accepted. -/
def loki.PollReply.empty (r : loki.PollReply) : Prop :=
  r.answered ∧ r.Unmarshal.2 = [] ∧ r.delete.delivered

/-- The poll was answered with a non-empty list whose last entry has the status
`processed`. -/
def loki.PollReply.processed (r : loki.PollReply) : Prop :=
  r.answered ∧ ∃ newest, r.Unmarshal.2.getLast? = some newest ∧ newest.Status = "processed"

/-- The poll was answered with a non-empty list whose last entry has a status other than
`processed`. -/
def loki.PollReply.pending (r : loki.PollReply) : Prop :=
  r.answered ∧ ∃ newest, r.Unmarshal.2.getLast? = some newest ∧ newest.Status ≠ "processed"

/-- The deletion-status request of the log store. -/
def loki.statusRequest (urlCfg : config.Loki) (tenantID : String) : HttpRequest :=
  { method := "GET", url := urlCfg.Backend ++ "/loki/api/v1/delete", orgID := tenantID }

/-- The deletion-status request of the metrics store. -/
def mimir.statusRequest (urlCfg : config.Mimir) (tenantID : String) : HttpRequest :=
  { method := "GET", url := urlCfg.Compactor ++ "/compactor/delete_tenant_status",
    orgID := tenantID }

/-- The flush request of the metrics store. -/
def mimir.flushRequest (urlCfg : config.Mimir) (tenantID : String) : HttpRequest :=
  { method := "GET", url := urlCfg.Ingester ++ "/ingester/flush?wait=true", orgID := tenantID }

/-- The delete request of the metrics store. -/
def mimir.deleteRequest (urlCfg : config.Mimir) (tenantID : String) : HttpRequest :=
  { method := "POST", url := urlCfg.Compactor ++ "/compactor/delete_tenant", orgID := tenantID }

/-- A server with two subscribers, one with an empty channel and one that has not drained
the notification before, and no projects. -/
def serverTwoSubscribers : Server :=
  { Projects := [], Clients := [.chan updateChan, .chan { cap := 1, len := 1 }] }

/-! ## Concrete data and notions for the stream, the controller, the attempts and the waits -/

/-- A server that has recorded the projects `foo`, created, and `bar`, deleted, and has no
subscriber. -/
def serverFooBar : Server :=
  { Projects := [("foo", { ProjectName := "foo", OrgID := "", Status := .ProjectCreated }),
                 ("bar", { ProjectName := "bar", OrgID := "", Status := .ProjectDeleted })],
    Clients := [] }

/-- The entry `SendCurrentStateToClient` builds for the key `k` and the data `pd`. -/
def entryOf (k : String) (pd : ProjectData) : pb.ProjectEntry :=
  { Key := k,
    Data := { ProjectName := pd.ProjectName, OrgName := pd.OrgID, Status := pd.Status.string } }

/-- The keys of the map `Server.Projects`. -/
def Server.keys (s : Server) : List String := s.Projects.map Prod.fst

/-- The action a handler emits for a project: cleanup when its deleted flag is set. -/
def actionOf (project : Project) : Action :=
  if project.Deleted then .CleanupTenant else .InitializeTenant

/-- The snapshot entry a handler records for a project. -/
def dataOf (project : Project) : ProjectData :=
  { ProjectName := project.DisplayName, OrgID := orgLabel project,
    Status := if project.Deleted then .ProjectDeleted else .ProjectCreated }

/-- A controller that has sent nothing, with the server `serverTwoSubscribers`. -/
def controllerTwoSubscribers : controller.TenantController :=
  { ComSig := [], grpcServer := serverTwoSubscribers }

/-- A store in which the watcher exists and belongs to the project `p`, and every call
succeeds. -/
def storeSucceeding (p : Project) : StoreReply :=
  { GetActiveWatchers := (some idleWatcher, none), GetParent := (some p, none),
    AddActiveWatchers := none, Update := none, DeleteActiveWatchers := none, now := 1700000000 }

/-- An outside world in which every watcher and backend call of an attempt for the project
`p` succeeds. -/
def attemptSucceeding (p : Project) : AttemptReply :=
  { report := storeSucceeding p, am := none, sre := none, loki := none, mimir := none,
    first := 0, closing := storeSucceeding p }

/-- A background execution for the project `p` in which every call succeeds; `ctxErr` is
the value of `ctx.Err()` at its end, and `otherStore` the status another thread has stored
when the execution reads the status back. -/
def worldSucceeding (p : Project) (ctxId : Nat) (ctxErr : Option CtxErr)
    (otherStore : Option jobStatus) : RunWorld :=
  { attempt := fun _ => attemptSucceeding p, wake := fun _ => .timer, ctxErr := ctxErr,
    ctxId := ctxId, otherStore := otherStore }

/-- Whether the event is a call of the add or of the update callback. -/
def SysEvent.isCallback : SysEvent → Bool
  | .add _ => true
  | .update _ _ => true
  | _ => false

/-- The status stores of the background executions in the scenario
`[Add(P1), Add(P2), Update(P1, deleted)]` when every backend and watcher call succeeds:
into the job of `P1` the initialization stores `jobCancelled` or `tenantCreated` and the
cleanup stores `tenantDeleted`; into the job of `P2` the initialization stores
`tenantCreated`. Events that are not status stores are not restricted. -/
def scenarioStore (P1 P2 : Project) : SysEvent → Bool
  | .storeStatus uid status =>
    (uid == P1.UID &&
      (status == .jobCancelled || status == .tenantCreated || status == .tenantDeleted)) ||
    (uid == P2.UID && status == .tenantCreated)
  | _ => true

/-- The callbacks of the scenario, in their order; `old` is the project before the update
and `P1d` the project after it. -/
def scenarioCallbacks (P1 P2 old P1d : Project) : List SysEvent :=
  [.add P1, .add P2, .update old P1d]

/-- The values the three callbacks of the scenario send on `ComSig`. -/
def scenarioSent (P1 P2 P1d : Project) : List CommChannel :=
  [{ Project := P1, Status := .InitializeTenant }, { Project := P2, Status := .InitializeTenant },
   { Project := P1d, Status := .CleanupTenant }]

/-- The background executions the manager starts in the scenario, in their order. The
cleanup runs on the job of `P1`, which has captured `P1` as the add event carried it. -/
def scenarioExecs (P1 P2 : Project) : List Execution :=
  [{ uid := P1.UID, project := P1, action := .InitializeTenant },
   { uid := P2.UID, project := P2, action := .InitializeTenant },
   { uid := P1.UID, project := P1, action := .CleanupTenant }]

/-- The map `Server.Projects` after the first `c` callbacks of the scenario. -/
def scenarioProjects (P1 P2 P1d : Project) : Nat → List (String × ProjectData)
  | 0 => []
  | 1 => [(P1.UID, dataOf P1)]
  | 2 => [(P1.UID, dataOf P1), (P2.UID, dataOf P2)]
  | _ => [(P1.UID, dataOf P1d), (P2.UID, dataOf P2)]

/-- The state of the system in the scenario after `c` callbacks have run and the manager
has received `r` values: `F1` says that the cleanup of `P1` has stored its status, `F2`
that the initialization of `P2` has. -/
structure ScenarioInv (P1 P2 P1d : Project) (s : System) (c r : Nat) (F1 F2 : Prop) : Prop where
  c_le : c ≤ 3
  r_le : r ≤ c
  comSig : s.tc.ComSig = ((scenarioSent P1 P2 P1d).take c).drop r
  projects : s.tc.grpcServer.Projects = scenarioProjects P1 P2 P1d c
  started : s.jm.started = (scenarioExecs P1 P2).take r
  done1 : F1 → r = 3
  done2 : F2 → 2 ≤ r
  jobs : ∃ (gone : Bool) (j1 j2 : job),
    s.jm.jobList =
      (if 1 ≤ r ∧ gone = false then [(P1.UID, j1)] else []) ++
        (if 2 ≤ r then [(P2.UID, j2)] else []) ∧
    j1.project = P1 ∧ j2.project = P2 ∧
    (gone = true → F1) ∧ (F1 → j1.status = .tenantDeleted) ∧
    (¬ F1 → reaped j1.status = false) ∧
    reaped j2.status = false ∧ (F2 → j2.status = .tenantCreated)

/-- A schedule of the scenario with `P1 = foo` and `P2 = bar`, the update renaming `foo`.
The three callbacks run first; the manager then receives the three values, the third of
which cancels the initialization of `foo`. The cancelled initialization of `foo` stores
its status, then the initialization of `bar` and the cleanup of `foo` store theirs. -/
def scenarioFooBar : List SysEvent :=
  [.add projectFoo, .add projectBar, .update projectFoo projectFooDeleted,
   .receive, .storeCancelFn "foo" 1,
   .receive, .storeCancelFn "bar" 2,
   .receive,
   .storeStatus "foo" .jobCancelled,
   .storeCancelFn "foo" 3,
   .storeStatus "bar" .tenantCreated,
   .storeStatus "foo" .tenantDeleted]

/-- The schedule `scenarioFooBar` with the last two stores into the job of `foo` in the
other order: the cancelled initialization stores its status after the cleanup has. -/
def scenarioFooBarLateStore : List SysEvent :=
  [.add projectFoo, .add projectBar, .update projectFoo projectFooDeleted,
   .receive, .storeCancelFn "foo" 1,
   .receive, .storeCancelFn "bar" 2,
   .receive,
   .storeCancelFn "foo" 3,
   .storeStatus "bar" .tenantCreated,
   .storeStatus "foo" .tenantDeleted,
   .storeStatus "foo" .jobCancelled]

/-- The project `foo` is added, its job is started, ends its cleanup and is swept. -/
def eventsFooSwept : List SysEvent :=
  [.add projectFooDeleted, .receive, .storeStatus "foo" .tenantDeleted, .tick]

/-- The tenant action `run` hands to `manageTenant` for an action. -/
def attempt (action : Action) (j : job) (ctx : Ctx) (reply : AttemptReply) : AttemptResult :=
  match action with
  | .InitializeTenant => initializeTenant j ctx reply
  | .CleanupTenant => cleanupTenant j ctx reply

/-- The first watcher call of an attempt: the report of `InProgress`. -/
def firstReport (action : Action) (j : job) (ctx : Ctx) (reply : AttemptReply) : WatcherResult :=
  CreateUpdateWatcher ctx (some j.project) .StatusIndicationInProgress
    (match action with
      | .InitializeTenant => "Creating tenant " ++ quoted j.project.UID
      | .CleanupTenant => "Deleting tenant " ++ quoted j.project.UID)
    reply.report

/-- The last watcher call of an attempt: the report of `Idle` for an initialization, the
deletion of the watcher for a cleanup. -/
def closingStep (action : Action) (j : job) (ctx : Ctx) (reply : AttemptReply) : WatcherResult :=
  match action with
  | .InitializeTenant =>
    CreateUpdateWatcher ctx (some j.project) .StatusIndicationIdle
      ("Tenant " ++ quoted j.project.UID ++ " created") reply.closing
  | .CleanupTenant => DeleteWatcher ctx (some j.project) reply.closing

/-- The backend actions of an action, in the order of the `g.Go` calls; `sreEnabled` is
`jobCfg.Sre.Enabled`. -/
def backendSet (action : Action) (sreEnabled : Bool) : List BackendCall :=
  match action with
  | .InitializeTenant => [.amInitialize] ++ (if sreEnabled then [.sreInitialize] else [])
  | .CleanupTenant =>
    [.amCleanup] ++ (if sreEnabled then [.sreCleanup] else []) ++ [.lokiCleanup, .mimirCleanup]

/-- The error a backend action returns in an attempt. -/
def backendError (ctx : Ctx) (reply : AttemptReply) : BackendCall → Option GoError
  | .amInitialize => (alertingmonitor.InitializeTenant ctx reply.am).err
  | .sreInitialize => (sre.InitializeTenant ctx reply.sre).err
  | .amCleanup => (alertingmonitor.CleanupTenant ctx reply.am).err
  | .sreCleanup => (sre.CleanupTenant ctx reply.sre).err
  | .lokiCleanup => reply.loki
  | .mimirCleanup => reply.mimir

/-- The update of `cnt` and `sleepTime` that `loki.checkDeletionStatus` makes after an
empty response, on the pair of the two variables. -/
def lokiRetryStep (urlCfg : config.Loki) (x : Nat × Int) : Nat × Int :=
  if wrapInt64 (wrapInt64 (2 ^ x.1) * urlCfg.PollingRate) < urlCfg.MaxPollingRate then
    (x.1 + 1, wrapInt64 (wrapInt64 (2 ^ x.1) * urlCfg.PollingRate))
  else (x.1, urlCfg.MaxPollingRate)

/-- The wait before poll number `n` of a run of empty responses, in closed form: the
polling rate before the first poll, and before retry `n + 1` the polling rate doubled `n`
times, capped at the maximal polling rate. -/
def lokiWait (urlCfg : config.Loki) : Nat → Int
  | 0 => urlCfg.PollingRate
  | n + 1 => min (2 ^ n * urlCfg.PollingRate) urlCfg.MaxPollingRate

/-- The flush request of the log store. -/
def loki.flushRequest (urlCfg : config.Loki) (tenantID : String) : HttpRequest :=
  { method := "POST", url := urlCfg.Write ++ "/flush", orgID := tenantID }

/-- The delete request of the log store. -/
def loki.deleteRequest (urlCfg : config.Loki) (tenantID : String) : HttpRequest :=
  { method := "POST",
    url := urlCfg.Backend ++ "/loki/api/v1/delete?query=\x7b__tenant_id__=\"" ++ tenantID ++
      "\"\x7d&start=0000000001",
    orgID := tenantID }

/-- A request that cannot be delivered: the endpoint is not reachable. -/
def httpUnreachable : HttpReply :=
  { httpOK with Do := some (.other "connection refused") }

/-- A log store whose ingesters accept the flush and whose backend is not reachable. -/
def lokiDeleteFails : loki.CleanupReply :=
  { flush := httpOK, delete := httpUnreachable, poll := fun _ => lokiPoll "processed" }

/-! ## Theorems: the retry loop (C2) -/

theorem manageTenantLoop_retried (b : Backoff) (act : Nat → Option GoError) (wake : Nat → Wake)
    (fuel i cnt : Nat) (bs : List BackoffRecord) (st : jobStatus) (h : Retried act wake i) :
    manageTenantLoop b act wake (fuel + 1) i cnt bs st =
      manageTenantLoop b act wake fuel (i + 1) (backoffStep b cnt).cntAfter
        (bs ++ [backoffStep b cnt]) st := by
  obtain ⟨e, he, hm, hc⟩ := h
  simp [manageTenantLoop, he, hm, hc]

theorem manageTenantLoop_lower (b : Backoff) (act : Nat → Option GoError) (wake : Nat → Wake)
    (st : jobStatus) (fuel : Nat) :
    ∀ (i cnt : Nat) (bs : List BackoffRecord),
      bs.length ≤ (manageTenantLoop b act wake fuel i cnt bs st).backoffs.length ∧
      (0 < fuel → i + 1 ≤ (manageTenantLoop b act wake fuel i cnt bs st).attempts) ∧
      (fuel = 0 → (manageTenantLoop b act wake fuel i cnt bs st).ended = none) := by
  induction fuel with
  | zero => intro i cnt bs; simp [manageTenantLoop]
  | succ f ih =>
    intro i cnt bs
    unfold manageTenantLoop
    cases hact : act i with
    | none => simp
    | some e =>
      by_cases hm : e.asIDsDoNotMatch = true
      · simp [hm]
      · by_cases hc : errorsIsCanceled (SleepWithContext (wake i)) = true
        · simp [hm, hc]
        · have := ih (i + 1) (backoffStep b cnt).cntAfter (bs ++ [backoffStep b cnt])
          simp only [List.length_append, List.length_singleton] at this
          simp only [hm, hc]
          refine ⟨by simp; omega, fun _ => ?_, by simp⟩
          simp only [Bool.false_eq_true, if_false]
          rcases Nat.eq_zero_or_pos f with h0 | h0
          · subst h0; simp [manageTenantLoop]
          · have := this.2.1 h0; omega

theorem manageTenantLoop_upper (b : Backoff) (act : Nat → Option GoError) (wake : Nat → Wake)
    (st : jobStatus) (fuel : Nat) :
    ∀ (i cnt : Nat) (bs : List BackoffRecord),
      (manageTenantLoop b act wake fuel i cnt bs st).backoffs.length ≤ bs.length + fuel ∧
      (manageTenantLoop b act wake fuel i cnt bs st).attempts ≤ i + fuel := by
  induction fuel with
  | zero => intro i cnt bs; simp [manageTenantLoop]
  | succ f ih =>
    intro i cnt bs
    unfold manageTenantLoop
    cases hact : act i with
    | none => simp
    | some e =>
      by_cases hm : e.asIDsDoNotMatch = true
      · simp [hm]
      · by_cases hc : errorsIsCanceled (SleepWithContext (wake i)) = true
        · simp [hm, hc]
        · have := ih (i + 1) (backoffStep b cnt).cntAfter (bs ++ [backoffStep b cnt])
          simp only [List.length_append, List.length_singleton] at this
          simp only [hm, hc, Bool.false_eq_true, if_false]
          omega

theorem manageTenantLoop_spec (b : Backoff) (act : Nat → Option GoError) (wake : Nat → Wake)
    (st : jobStatus) (n : Nat) :
    ∀ (fuel i cnt : Nat) (bs : List BackoffRecord), n < fuel →
      (∀ j, j < n → Retried act wake (i + j)) →
      (act (i + n) = none →
        (manageTenantLoop b act wake fuel i cnt bs st).ended = some .succeeded ∧
        (manageTenantLoop b act wake fuel i cnt bs st).attempts = i + n + 1 ∧
        (manageTenantLoop b act wake fuel i cnt bs st).backoffs.length = bs.length + n ∧
        (manageTenantLoop b act wake fuel i cnt bs st).status = st) ∧
      (∀ e, act (i + n) = some e → e.asIDsDoNotMatch = true →
        (manageTenantLoop b act wake fuel i cnt bs st).ended = some .idsDoNotMatch ∧
        (manageTenantLoop b act wake fuel i cnt bs st).attempts = i + n + 1 ∧
        (manageTenantLoop b act wake fuel i cnt bs st).backoffs.length = bs.length + n ∧
        (manageTenantLoop b act wake fuel i cnt bs st).status = .tenantIDsNotMatch) ∧
      (∀ e, act (i + n) = some e → e.asIDsDoNotMatch = false →
        errorsIsCanceled (SleepWithContext (wake (i + n))) = true →
        (manageTenantLoop b act wake fuel i cnt bs st).ended = some .cancelled ∧
        (manageTenantLoop b act wake fuel i cnt bs st).attempts = i + n + 1 ∧
        (manageTenantLoop b act wake fuel i cnt bs st).backoffs.length = bs.length + n + 1 ∧
        (manageTenantLoop b act wake fuel i cnt bs st).status = st) ∧
      (Retried act wake (i + n) →
        ((manageTenantLoop b act wake fuel i cnt bs st).ended = none ∨
          i + n + 1 < (manageTenantLoop b act wake fuel i cnt bs st).attempts) ∧
        bs.length + n + 1 ≤ (manageTenantLoop b act wake fuel i cnt bs st).backoffs.length ∧
        (n + 1 < fuel → i + n + 2 ≤ (manageTenantLoop b act wake fuel i cnt bs st).attempts)) := by
  induction n with
  | zero =>
    intro fuel i cnt bs hf _
    obtain ⟨f, rfl⟩ : ∃ f, fuel = f + 1 := ⟨fuel - 1, by omega⟩
    refine ⟨?_, ?_, ?_, ?_⟩
    · intro h
      simp at h
      simp [manageTenantLoop, h]
    · intro e h hm
      simp at h
      simp [manageTenantLoop, h, hm]
    · intro e h hm hc
      simp at h hc
      simp [manageTenantLoop, h, hm, hc]
    · intro h
      simp at h
      rw [manageTenantLoop_retried b act wake f i cnt bs st h]
      have hl := manageTenantLoop_lower b act wake st f (i + 1) (backoffStep b cnt).cntAfter
        (bs ++ [backoffStep b cnt])
      simp only [List.length_append, List.length_singleton] at hl
      refine ⟨?_, by simpa using hl.1, fun hf2 => ?_⟩
      · rcases Nat.eq_zero_or_pos f with h0 | h0
        · exact Or.inl (hl.2.2 h0)
        · exact Or.inr (by have := hl.2.1 h0; omega)
      · have := hl.2.1 (by omega); omega
  | succ n ih =>
    intro fuel i cnt bs hf hr
    obtain ⟨f, rfl⟩ : ∃ f, fuel = f + 1 := ⟨fuel - 1, by omega⟩
    have h0 : Retried act wake i := by simpa using hr 0 (by omega)
    rw [manageTenantLoop_retried b act wake f i cnt bs st h0]
    have hr2 : ∀ j, j < n → Retried act wake (i + 1 + j) := by
      intro j hj
      have := hr (j + 1) (by omega)
      rwa [show i + (j + 1) = i + 1 + j by omega] at this
    have := ih f (i + 1) (backoffStep b cnt).cntAfter (bs ++ [backoffStep b cnt]) (by omega) hr2
    simp only [show i + 1 + n = i + (n + 1) by omega, List.length_append,
      List.length_singleton] at this
    obtain ⟨h1, h2, h3, h4⟩ := this
    refine ⟨fun h => ?_, fun e h hm => ?_, fun e h hm hc => ?_, fun h => ?_⟩
    · have := h1 h; refine ⟨this.1, by omega, by omega, this.2.2.2⟩
    · have := h2 e h hm; refine ⟨this.1, by omega, by omega, this.2.2.2⟩
    · have := h3 e h hm hc; refine ⟨this.1, by omega, by omega, this.2.2.2⟩
    · have := h4 h
      refine ⟨?_, by omega, fun hf2 => ?_⟩
      · rcases this.1 with h | h
        · exact Or.inl h
        · exact Or.inr (by omega)
      · have := this.2.2 (by omega); omega

/-- **C2.** Let the first `n` calls of the tenant action each return an error that is not an
identity mismatch, each followed by a sleep that is not ended by cancellation. Then
`manageTenant` makes call number `n` (counted from 0) and
* if it returns no error, the loop stops after it: `n + 1` calls, `n` sleeps, status untouched;
* if it returns an identity mismatch, the loop stops after it without a further sleep and
  the status is `tenantIDsNotMatch`;
* if it returns another error and the sleep after it is ended by cancellation, the loop
  stops there: `n + 1` calls, `n + 1` sleeps, status untouched;
* if it returns another error and the sleep is not ended by cancellation, the loop does not
  stop after it: the sleep is made and, fuel permitting, a further call of the action. -/
theorem manageTenant_stops_exactly (b : Backoff) (act : Nat → Option GoError)
    (wake : Nat → Wake) (st : jobStatus) (fuel n : Nat) (hn : n < fuel)
    (hretry : ∀ j, j < n → Retried act wake j) :
    (act n = none →
      (manageTenant b act wake st fuel).ended = some .succeeded ∧
      (manageTenant b act wake st fuel).attempts = n + 1 ∧
      (manageTenant b act wake st fuel).backoffs.length = n ∧
      (manageTenant b act wake st fuel).status = st) ∧
    (∀ e, act n = some e → e.asIDsDoNotMatch = true →
      (manageTenant b act wake st fuel).ended = some .idsDoNotMatch ∧
      (manageTenant b act wake st fuel).attempts = n + 1 ∧
      (manageTenant b act wake st fuel).backoffs.length = n ∧
      (manageTenant b act wake st fuel).status = .tenantIDsNotMatch) ∧
    (∀ e, act n = some e → e.asIDsDoNotMatch = false →
      errorsIsCanceled (SleepWithContext (wake n)) = true →
      (manageTenant b act wake st fuel).ended = some .cancelled ∧
      (manageTenant b act wake st fuel).attempts = n + 1 ∧
      (manageTenant b act wake st fuel).backoffs.length = n + 1 ∧
      (manageTenant b act wake st fuel).status = st) ∧
    (Retried act wake n →
      ((manageTenant b act wake st fuel).ended = none ∨
        n + 1 < (manageTenant b act wake st fuel).attempts) ∧
      n + 1 ≤ (manageTenant b act wake st fuel).backoffs.length ∧
      (n + 1 < fuel → n + 2 ≤ (manageTenant b act wake st fuel).attempts)) := by
  have h := manageTenantLoop_spec b act wake st n fuel 0 0 [] hn
    (fun j hj => by simpa using hretry j hj)
  simpa [manageTenant] using h

/-- Two failed attempts, then a successful one: the loop stops after the third call. -/
theorem manageTenant_stops_exactly_witness :
    (manageTenant testConfigBackoff
        (fun i => if i < 2 then some (.new "unavailable") else none) (fun _ => .timer)
        .jobInProgress 5).ended = some .succeeded ∧
      (manageTenant testConfigBackoff
        (fun i => if i < 2 then some (.new "unavailable") else none) (fun _ => .timer)
        .jobInProgress 5).attempts = 3 :=
  have h := (manageTenant_stops_exactly testConfigBackoff
    (fun i => if i < 2 then some (.new "unavailable") else none) (fun _ => .timer)
    .jobInProgress 5 2 (by decide)
    (fun j hj => ⟨.new "unavailable", by simp [hj], rfl, rfl⟩)).1 (by simp)
  ⟨h.1, h.2.1⟩

/-! ## Theorems: backoff -/

set_option maxRecDepth 4000

theorem manageTenantLoop_backoffs (b : Backoff) (act : Nat → Option GoError) (wake : Nat → Wake)
    (st : jobStatus) (fuel : Nat) :
    ∀ (i cnt : Nat) (bs : List BackoffRecord), ∃ m,
      (manageTenantLoop b act wake fuel i cnt bs st).backoffs =
        bs ++ (List.range m).map (fun k => backoffStep b ((nextCnt b)^[k] cnt)) ∧
      (manageTenantLoop b act wake fuel i cnt bs st).cnt = (nextCnt b)^[m] cnt := by
  induction fuel with
  | zero => intro i cnt bs; exact ⟨0, by simp [manageTenantLoop], by simp [manageTenantLoop]⟩
  | succ f ih =>
    intro i cnt bs
    unfold manageTenantLoop
    cases hact : act i with
    | none => exact ⟨0, by simp, by simp⟩
    | some e =>
      by_cases hm : e.asIDsDoNotMatch = true
      · exact ⟨0, by simp [hm], by simp [hm]⟩
      · by_cases hc : errorsIsCanceled (SleepWithContext (wake i)) = true
        · refine ⟨1, by simp [hm, hc, List.range_succ], by simp [hm, hc, nextCnt]⟩
        · obtain ⟨m, h1, h2⟩ := ih (i + 1) (backoffStep b cnt).cntAfter (bs ++ [backoffStep b cnt])
          refine ⟨m + 1, ?_, ?_⟩
          · simp only [hm, hc, Bool.false_eq_true, if_false]
            rw [h1, List.range_succ_eq_map]
            simp [List.map_map, Function.comp_def, nextCnt]
          · simp only [hm, hc, Bool.false_eq_true, if_false]
            rw [h2]; simp [nextCnt]

theorem manageTenant_backoffs_get (b : Backoff) (act : Nat → Option GoError) (wake : Nat → Wake)
    (st : jobStatus) (fuel k : Nat) (rec : BackoffRecord)
    (hk : (manageTenant b act wake st fuel).backoffs[k]? = some rec) :
    rec = backoffStep b ((nextCnt b)^[k] 0) := by
  obtain ⟨m, hb, _⟩ := manageTenantLoop_backoffs b act wake st fuel 0 0 []
  have hb2 : (manageTenant b act wake st fuel).backoffs =
      (List.range m).map (fun k => backoffStep b ((nextCnt b)^[k] 0)) := by
    simpa [manageTenant] using hb
  rw [hb2, List.getElem?_map] at hk
  rcases hlt : (List.range m)[k]? with _ | v
  · rw [hlt] at hk; simp at hk
  · rw [hlt] at hk
    have hv : v = k := by
      obtain ⟨h1, h2⟩ := List.getElem?_eq_some.mp hlt
      simpa using h2.symm
    subst hv
    simpa using hk.symm

theorem nextCnt_eq (b : Backoff) (c : Nat) :
    nextCnt b c = if (calcTime b c).lt (Float64.ofInt b.Max) = true then c + 1 else c := by
  unfold nextCnt backoffStep
  split <;> rfl

theorem nextCnt_iterate_below (b : Backoff) (k : Nat)
    (h : ∀ j, j < k → (calcTime b j).lt (Float64.ofInt b.Max) = true) :
    (nextCnt b)^[k] 0 = k := by
  induction k with
  | zero => rfl
  | succ k ih =>
    rw [Function.iterate_succ_apply', ih (fun j hj => h j (by omega)), nextCnt_eq,
      if_pos (h k (by omega))]

theorem nextCnt_iterate_capped (b : Backoff) (k : Nat)
    (h : ∃ j, j ≤ k ∧ (calcTime b j).lt (Float64.ofInt b.Max) = false) :
    (calcTime b ((nextCnt b)^[k] 0)).lt (Float64.ofInt b.Max) = false := by
  induction k with
  | zero =>
    obtain ⟨j, hj, hlt⟩ := h
    have : j = 0 := by omega
    subst this
    exact hlt
  | succ k ih =>
    by_cases hall : ∀ j, j < k + 1 → (calcTime b j).lt (Float64.ofInt b.Max) = true
    · obtain ⟨j, hj, hlt⟩ := h
      have hjk : j = k + 1 := by
        rcases Nat.lt_or_ge j (k + 1) with h1 | h1
        · rw [hall j h1] at hlt; cases hlt
        · omega
      subst hjk
      rw [nextCnt_iterate_below b _ hall]
      exact hlt
    · have hex : ∃ j, j ≤ k ∧ (calcTime b j).lt (Float64.ofInt b.Max) = false := by
        by_contra hno
        apply hall
        intro j hj
        by_contra hf
        exact hno ⟨j, by omega, by simpa using hf⟩
      have hprev := ih hex
      rw [Function.iterate_succ_apply', nextCnt_eq, hprev]
      simpa using hprev

theorem backoffStep_rule (b : Backoff) (c : Nat) :
    ((backoffStep b c).cntAfter = (backoffStep b c).cntBefore + 1 ∧
        (calcTime b (backoffStep b c).cntBefore).lt (Float64.ofInt b.Max) = true) ∨
      ((backoffStep b c).cntAfter = (backoffStep b c).cntBefore ∧
        (calcTime b (backoffStep b c).cntBefore).lt (Float64.ofInt b.Max) = false) := by
  unfold backoffStep
  by_cases h : (calcTime b c).lt (Float64.ofInt b.Max) = true
  · left
    simp only [h, if_true, true_and]
  · right
    simp only [h, if_false, true_and]
    simpa using h

theorem backoffStep_cntBefore (b : Backoff) (c : Nat) : (backoffStep b c).cntBefore = c := by
  unfold backoffStep; split <;> rfl

theorem float1_6_nearest :
    float1_6.value = some (7205759403792794 / 2 ^ 52) ∧
      |(7205759403792794 / 2 ^ 52 : ℚ) - 8 / 5| < 1 / 2 ^ 53 := by
  constructor
  · simp [float1_6, Float64.value]
    norm_num
  · rw [abs_lt]; constructor <;> norm_num

theorem float1_4_nearest :
    float1_4.value = some (6305039478318694 / 2 ^ 52) ∧
      |(6305039478318694 / 2 ^ 52 : ℚ) - 7 / 5| < 1 / 2 ^ 53 := by
  constructor
  · simp [float1_4, Float64.value]
    norm_num
  · rw [abs_lt]; constructor <;> norm_num

/-- **C3, as the spec words it, fails.** With initial 10 s, max 10 min and multiplier 1.4
the first three sleeps of `manageTenant` last 10 s, 14 s and 19.599999999 s. The formula
`min(max, initial * multiplier^k)`, truncated to whole nanoseconds, gives 19.6 s for the
third sleep when the multiplier is the decimal `1.4`, and 13.999999999 s for the second
sleep when the multiplier is the number the `float64` nearest to `1.4` stands for: under
neither reading does it give the three delays of the code. -/
theorem manageTenant_delay_not_formula :
    0 < backoff1_4.Initial ∧ 0 < backoff1_4.Max ∧
    (Float64.finite 1 0).le backoff1_4.TimeMultiplier = true ∧
    (manageTenant backoff1_4 (fun _ => some (.new "unavailable")) (fun _ => .timer)
      .jobInProgress 3).backoffs.map (fun r => r.sleepTime) =
      [10000000000, 14000000000, 19599999999] ∧
    delayFormula backoff1_4.Initial backoff1_4.Max (7 / 5) 2 = 19600000000 ∧
    backoff1_4.TimeMultiplier.value = some (6305039478318694 / 2 ^ 52) ∧
    delayFormula backoff1_4.Initial backoff1_4.Max (6305039478318694 / 2 ^ 52) 1 =
      13999999999 := by
  refine ⟨by decide, by decide, by decide, by decide, ?_, float1_4_nearest.1, ?_⟩
  · simp only [delayFormula, truncDuration, backoff1_4]
    norm_num
  · simp only [delayFormula, truncDuration, backoff1_4]
    norm_num

/-- **C3, amended.** For a backoff with `Initial > 0`, `Max > 0` and `TimeMultiplier ≥ 1`,
in any run of `manageTenant`, with `calcTime j` the `float64` product
`math.Pow(TimeMultiplier, float64(j)) * float64(Initial)` as `float64` arithmetic rounds it:
as long as `calcTime j < float64(Max)` held for every `j ≤ k`, the `k`-th sleep (counted
from 0) is computed at counter `k` and lasts `calcTime k` truncated to whole nanoseconds;
once `calcTime j < float64(Max)` has failed for some `j ≤ k`, the `k`-th sleep lasts `Max`.
Each backoff computation leaves the counter either incremented by one, and then
`calcTime cnt < float64(Max)` held for the counter it read, or unchanged, and then it did
not hold; the first computation reads counter 0 and each later one reads the counter the
previous one left. The bound on `k` keeps the counter in the range that `float64` holds
exactly. -/
theorem manageTenant_backoff_delay (b : Backoff) (_hI : 0 < b.Initial) (_hM : 0 < b.Max)
    (_hm : (Float64.finite 1 0).le b.TimeMultiplier = true)
    (act : Nat → Option GoError) (wake : Nat → Wake)
    (st : jobStatus) (fuel k : Nat) (_hk53 : k < 2 ^ 53) (rec : BackoffRecord)
    (hk : (manageTenant b act wake st fuel).backoffs[k]? = some rec) :
    ((∀ j, j ≤ k → (calcTime b j).lt (Float64.ofInt b.Max) = true) →
      rec.cntBefore = k ∧ rec.sleepTime = (calcTime b k).toDuration) ∧
    ((∃ j, j ≤ k ∧ (calcTime b j).lt (Float64.ofInt b.Max) = false) →
      rec.sleepTime = b.Max) ∧
    ((rec.cntAfter = rec.cntBefore + 1 ∧
        (calcTime b rec.cntBefore).lt (Float64.ofInt b.Max) = true) ∨
      (rec.cntAfter = rec.cntBefore ∧
        (calcTime b rec.cntBefore).lt (Float64.ofInt b.Max) = false)) ∧
    (k = 0 → rec.cntBefore = 0) ∧
    (∀ rec2, (manageTenant b act wake st fuel).backoffs[k + 1]? = some rec2 →
      rec2.cntBefore = rec.cntAfter) := by
  have hrec := manageTenant_backoffs_get b act wake st fuel k rec hk
  subst hrec
  refine ⟨?_, ?_, backoffStep_rule b _, ?_, ?_⟩
  · intro hall
    rw [nextCnt_iterate_below b k (fun j hj => hall j (by omega))]
    refine ⟨backoffStep_cntBefore b k, ?_⟩
    simp only [backoffStep, hall k (le_refl k), if_true]
  · intro hex
    have := nextCnt_iterate_capped b k hex
    simp only [backoffStep, this, Bool.false_eq_true, if_false]
  · intro h0; subst h0; simp [backoffStep_cntBefore]
  · intro rec2 h2
    have := manageTenant_backoffs_get b act wake st fuel (k + 1) rec2 h2
    subst this
    rw [backoffStep_cntBefore, Function.iterate_succ_apply']
    rfl

/-- When every attempt fails, the third sleep with multiplier 1.4 is computed at counter 2,
lasts 19.599999999 s, the truncated `float64` product, and leaves the counter at 3. -/
theorem manageTenant_backoff_delay_witness :
    (manageTenant backoff1_4 (fun _ => some (.new "unavailable")) (fun _ => .timer)
      .jobInProgress 3).backoffs[2]? =
      some { cntBefore := 2, sleepTime := 19599999999, cntAfter := 3 } ∧
    (19599999999 : Int) = (calcTime backoff1_4 2).toDuration :=
  ⟨by decide,
    ((manageTenant_backoff_delay backoff1_4 (by decide) (by decide) (by decide)
      (fun _ => some (.new "unavailable")) (fun _ => .timer) .jobInProgress 3 2 (by decide)
      { cntBefore := 2, sleepTime := 19599999999, cntAfter := 3 } (by decide)).1
      (by decide)).2⟩

theorem testConfigBackoff_step (k : Nat) (hk : k ≤ 9) :
    backoffStep testConfigBackoff k =
      if k < 9 then
        { cntBefore := k, sleepTime := 10000000000 * 8 ^ k / 5 ^ k, cntAfter := k + 1 }
      else { cntBefore := k, sleepTime := 600000000000, cntAfter := k } := by
  interval_cases k <;> decide

/-- **C4.** With initial 10 s, max 600 s and multiplier 1.6, in every run of `manageTenant`
sleep number `k` lasts `10 * 1.6^k` seconds for `k = 0..8` (an exact number of nanoseconds)
and 600 s for every later `k`; the counter is `k` before and `k + 1` after each of the
first nine backoff computations, and stays at 9 before and after every later one. -/
theorem manageTenant_testConfig_delays (act : Nat → Option GoError) (wake : Nat → Wake)
    (st : jobStatus) (fuel : Nat) :
    (manageTenant testConfigBackoff act wake st fuel).backoffs =
      (List.range (manageTenant testConfigBackoff act wake st fuel).backoffs.length).map
        (fun k =>
          if k < 9 then
            ({ cntBefore := k, sleepTime := 10000000000 * 8 ^ k / 5 ^ k, cntAfter := k + 1 } :
              BackoffRecord)
          else { cntBefore := 9, sleepTime := 600000000000, cntAfter := 9 }) ∧
    (∀ k, k < 9 → (((10000000000 * 8 ^ k / 5 ^ k : Int) : ℚ) = 10 * (8 / 5) ^ k * 1000000000)) ∧
    (manageTenant testConfigBackoff act wake st fuel).cnt =
      min (manageTenant testConfigBackoff act wake st fuel).backoffs.length 9 := by
  have hiter : ∀ k, (nextCnt testConfigBackoff)^[k] 0 = min k 9 := by
    intro k
    induction k with
    | zero => rfl
    | succ k ih =>
      rw [Function.iterate_succ_apply', ih, nextCnt,
        testConfigBackoff_step _ (min_le_right k 9)]
      by_cases h : k < 9
      · rw [min_eq_left h.le, if_pos h]; simp; omega
      · rw [min_eq_right (by omega), if_neg (by omega)]; simp; omega
  obtain ⟨m, hb, hc⟩ := manageTenantLoop_backoffs testConfigBackoff act wake st fuel 0 0 []
  have hb2 : (manageTenant testConfigBackoff act wake st fuel).backoffs =
      (List.range m).map (fun k => backoffStep testConfigBackoff ((nextCnt testConfigBackoff)^[k] 0)) := by
    simpa [manageTenant] using hb
  have hlen : (manageTenant testConfigBackoff act wake st fuel).backoffs.length = m := by
    rw [hb2]; simp
  refine ⟨?_, ?_, ?_⟩
  · rw [hlen, hb2]
    apply List.map_congr_left
    intro k _
    rw [hiter, testConfigBackoff_step _ (min_le_right k 9)]
    by_cases h : k < 9
    · rw [min_eq_left h.le, if_pos h, if_pos h]
    · rw [min_eq_right (by omega), if_neg (by omega), if_neg h]
  · intro k hk
    interval_cases k <;> norm_num
  · rw [hlen]
    have : (manageTenant testConfigBackoff act wake st fuel).cnt = (nextCnt testConfigBackoff)^[m] 0 := by
      simpa [manageTenant] using hc
    rw [this, hiter]

/-- The first twelve sleeps when every attempt fails and no sleep is cancelled. -/
theorem manageTenant_testConfig_delays_witness :
    ((manageTenant testConfigBackoff (fun _ => some (.new "unavailable")) (fun _ => .timer)
      .jobInProgress 12).backoffs.map (fun r => r.sleepTime)) =
      [10000000000, 16000000000, 25600000000, 40960000000, 65536000000, 104857600000,
        167772160000, 268435456000, 429496729600, 600000000000, 600000000000, 600000000000] := by
  have h := (manageTenant_testConfig_delays (fun _ => some (.new "unavailable"))
    (fun _ => .timer) .jobInProgress 12).1
  have hl : (manageTenant testConfigBackoff (fun _ => some (.new "unavailable"))
      (fun _ => .timer) .jobInProgress 12).backoffs.length = 12 := by
    have h1 := (manageTenantLoop_spec testConfigBackoff (fun _ => some (.new "unavailable"))
      (fun _ => .timer) .jobInProgress 11 12 0 0 [] (by omega)
      (fun j _ => ⟨_, rfl, rfl, rfl⟩)).2.2.2 ⟨_, rfl, rfl, rfl⟩
    have h2 := (manageTenantLoop_upper testConfigBackoff (fun _ => some (.new "unavailable"))
      (fun _ => .timer) .jobInProgress 12 0 0 []).1
    simp only [List.length_nil] at h1 h2
    unfold manageTenant
    omega
  rw [h, hl]
  decide

/-! ## Theorems: the final status of a job run -/

theorem wrapExt_not_mismatch (msg : String) (err : Option ExtError) :
    errorsAsIDsDoNotMatch (wrapExt msg err) = false := by
  cases err <;> simp [wrapExt, errorsAsIDsDoNotMatch, GoError.asIDsDoNotMatch]

theorem createWatcher_not_mismatch (project : Option Project) (status : ActiveWatcherStatus)
    (message : String) (reply : StoreReply) :
    errorsAsIDsDoNotMatch (createWatcher project status message reply).err = false := by
  unfold createWatcher
  cases project with
  | none => simp [errorsAsIDsDoNotMatch, GoError.asIDsDoNotMatch]
  | some p =>
    cases h : reply.AddActiveWatchers <;>
      simp [h, errorsAsIDsDoNotMatch, GoError.asIDsDoNotMatch]

theorem updateWatcher_not_mismatch (ctx : Ctx) (watcher : Option Watcher)
    (status : ActiveWatcherStatus) (tenantID message : String) (reply : StoreReply) :
    errorsAsIDsDoNotMatch (updateWatcher ctx watcher status tenantID message reply).err = false := by
  unfold updateWatcher
  cases watcher with
  | none => simp [errorsAsIDsDoNotMatch, GoError.asIDsDoNotMatch]
  | some w =>
    simp only
    cases hc : (checkWatcher ctx (some w) reply).err with
    | none =>
      cases h : reply.Update <;> simp [h, errorsAsIDsDoNotMatch, GoError.asIDsDoNotMatch]
    | some err =>
      by_cases hm : err.asIDsDoNotMatch = true
      · simp [hm, errorsAsIDsDoNotMatch]
      · simp [hm, errorsAsIDsDoNotMatch]

theorem CreateUpdateWatcher_not_mismatch (ctx : Ctx) (project : Option Project)
    (status : ActiveWatcherStatus) (message : String) (reply : StoreReply) :
    errorsAsIDsDoNotMatch (CreateUpdateWatcher ctx project status message reply).err = false := by
  unfold CreateUpdateWatcher
  cases project with
  | none => simp [errorsAsIDsDoNotMatch, GoError.asIDsDoNotMatch]
  | some p =>
    simp only
    split
    · exact wrapExt_not_mismatch _ _
    · split
      · exact createWatcher_not_mismatch _ _ _ _
      · exact updateWatcher_not_mismatch _ _ _ _ _ _

theorem amInitializeTenant_not_mismatch (ctx : Ctx) (rpc : Option ExtError) :
    errorsAsIDsDoNotMatch (alertingmonitor.InitializeTenant ctx rpc).err = false := by
  unfold alertingmonitor.InitializeTenant
  cases ctx.tenantID with
  | none => simp [errorsAsIDsDoNotMatch, noTenantID, GoError.asIDsDoNotMatch]
  | some t =>
    simp only
    split
    · rfl
    · split
      · exact wrapExt_not_mismatch _ _
      · rfl

theorem sreInitializeTenant_not_mismatch (ctx : Ctx) (rpc : Option ExtError) :
    errorsAsIDsDoNotMatch (sre.InitializeTenant ctx rpc).err = false := by
  unfold sre.InitializeTenant
  cases ctx.tenantID with
  | none => simp [errorsAsIDsDoNotMatch, noTenantID, GoError.asIDsDoNotMatch]
  | some t =>
    simp only
    split
    · rfl
    · split
      · exact wrapExt_not_mismatch _ _
      · rfl

theorem errgroupWait_not_mismatch (results : List (Option GoError)) (first : Nat)
    (h : ∀ r ∈ results, errorsAsIDsDoNotMatch r = false) :
    errorsAsIDsDoNotMatch (errgroupWait results first) = false := by
  unfold errgroupWait
  cases hj : (results.get? first).join with
  | some e =>
    simp only
    have hmem : some e ∈ results := by
      cases hg : results.get? first with
      | none => rw [hg] at hj; simp at hj
      | some o =>
        rw [hg] at hj
        simp at hj
        subst hj
        exact List.get?_mem hg
    exact h _ hmem
  | none =>
    simp only
    cases hf : results.findSome? id with
    | none => rfl
    | some e =>
      obtain ⟨a, ha, hid⟩ := List.exists_of_findSome?_eq_some hf
      simp at hid
      subst hid
      exact h _ ha

theorem initializeTenant_not_mismatch (j : job) (ctx : Ctx) (reply : AttemptReply) :
    errorsAsIDsDoNotMatch (initializeTenant j ctx reply).err = false := by
  unfold initializeTenant
  simp only
  cases h1 : (CreateUpdateWatcher ctx (some j.project) .StatusIndicationInProgress
    ("Creating tenant " ++ quoted j.project.UID) reply.report).err with
  | some err =>
    simp only
    rw [← h1]; exact CreateUpdateWatcher_not_mismatch _ _ _ _ _
  | none =>
    simp only
    split
    · next err hw =>
      simp only
      rw [← hw]
      apply errgroupWait_not_mismatch
      intro r hr
      by_cases hs : j.jobCfg.SreEnabled = true
      · simp [hs] at hr
        rcases hr with rfl | rfl
        · exact amInitializeTenant_not_mismatch _ _
        · exact sreInitializeTenant_not_mismatch _ _
      · simp [hs] at hr
        subst hr
        exact amInitializeTenant_not_mismatch _ _
    · exact CreateUpdateWatcher_not_mismatch _ _ _ _ _

theorem manageTenantLoop_status (b : Backoff) (act : Nat → Option GoError) (wake : Nat → Wake)
    (st : jobStatus) (fuel : Nat) :
    ∀ (i cnt : Nat) (bs : List BackoffRecord),
      ((manageTenantLoop b act wake fuel i cnt bs st).ended = some .idsDoNotMatch →
        (manageTenantLoop b act wake fuel i cnt bs st).status = .tenantIDsNotMatch ∧
        ∃ k e, act k = some e ∧ e.asIDsDoNotMatch = true) ∧
      ((manageTenantLoop b act wake fuel i cnt bs st).ended ≠ some .idsDoNotMatch →
        (manageTenantLoop b act wake fuel i cnt bs st).status = st) := by
  induction fuel with
  | zero => intro i cnt bs; simp [manageTenantLoop]
  | succ f ih =>
    intro i cnt bs
    unfold manageTenantLoop
    cases hact : act i with
    | none => simp
    | some e =>
      by_cases hm : e.asIDsDoNotMatch = true
      · simp only [hm, if_true]
        exact ⟨fun _ => ⟨trivial, i, e, hact, hm⟩, fun h => absurd rfl h⟩
      · by_cases hc : errorsIsCanceled (SleepWithContext (wake i)) = true
        · simp [hm, hc]
        · simp only [hm, hc, Bool.false_eq_true, if_false]
          exact ih _ _ _

/-- **C1, as the spec words it, fails.** A cleanup of the job of `foo` completes, its context
is not cancelled and its retry loop ends because of an identity mismatch, but another
execution stores `jobCancelled` into the job before the run reads the status back: the run
ends by storing `tenantDeleted`. The schedule `scheduleLateStoreMismatch` is such a run: the
cleanup `E2` supersedes the initialization `E1`, whose cancel function the manager invokes;
`E2` stores `tenantIDsNotMatch`, the cancelled `E1` stores `jobCancelled`, and `E2`, whose
own cancel function nobody has invoked, stores `tenantDeleted`. -/
theorem run_mismatch_overwritten :
    (run jobFoo .CleanupTenant worldMismatchLateStore 1).completed = true ∧
    errorsIsCanceled (worldMismatchLateStore.ctxErr.map CtxErr.toError) = false ∧
    (run jobFoo .CleanupTenant worldMismatchLateStore 1).loop.ended = some .idsDoNotMatch ∧
    (run jobFoo .CleanupTenant worldMismatchLateStore 1).job.status = .tenantDeleted ∧
    ((Shared.init projectFoo testConfigJob testConfigEndpoints .InitializeTenant
        .CleanupTenant).exec scheduleLateStoreMismatch).map
        (fun s => (s.finished, s.job.status, s.history)) =
      some (true, .tenantDeleted,
        [.stored .manager .jobInProgress, .started .exec1, .cancelCall (some .exec1),
         .stored .manager .jobInProgress, .started .exec2,
         .stored .exec2 .tenantIDsNotMatch, .stored .exec1 .jobCancelled,
         .stored .exec2 .tenantDeleted]) := by
  refine ⟨?_, ?_, ?_, ?_, ?_⟩ <;> decide

/-- **C1, amended.** A background execution of `run` that reaches its end leaves the job, at
its last statement, in status `jobCancelled` when `ctx.Err()` is `context.Canceled`.
Otherwise, when no other thread has stored a status since the last store of this run, it
leaves the job in `tenantIDsNotMatch` when the retry loop was left through the
identity-mismatch branch, and else in `tenantCreated` for `InitializeTenant` and in
`tenantDeleted` for `CleanupTenant`. In general an initialization whose context is not
cancelled leaves the job in `tenantCreated`, and its retry loop is never left through the
identity-mismatch branch; a cleanup whose context is not cancelled reads the status back,
and when another thread has stored a status since the last store of this run, the cleanup
leaves the job in `tenantIDsNotMatch` if that status is `tenantIDsNotMatch` and stores
`tenantDeleted` if it is not. The execution reaches its end exactly when the retry loop is
left. -/
theorem run_final_status (j : job) (action : Action) (w : RunWorld) (fuel : Nat)
    (hdone : (run j action w fuel).completed = true) :
    (errorsIsCanceled (w.ctxErr.map CtxErr.toError) = true →
      (run j action w fuel).job.status = .jobCancelled) ∧
    (errorsIsCanceled (w.ctxErr.map CtxErr.toError) = false → w.otherStore = none →
      (run j action w fuel).loop.ended = some .idsDoNotMatch →
      (run j action w fuel).job.status = .tenantIDsNotMatch) ∧
    (errorsIsCanceled (w.ctxErr.map CtxErr.toError) = false → w.otherStore = none →
      (run j action w fuel).loop.ended ≠ some .idsDoNotMatch →
      (run j action w fuel).job.status =
        match action with
        | .InitializeTenant => .tenantCreated
        | .CleanupTenant => .tenantDeleted) ∧
    (errorsIsCanceled (w.ctxErr.map CtxErr.toError) = false → action = .InitializeTenant →
      (run j action w fuel).loop.ended ≠ some .idsDoNotMatch ∧
      (run j action w fuel).job.status = .tenantCreated) ∧
    (errorsIsCanceled (w.ctxErr.map CtxErr.toError) = false → action = .CleanupTenant →
      ∀ other, w.otherStore = some other →
        (run j action w fuel).job.status =
          if other = .tenantIDsNotMatch then .tenantIDsNotMatch else .tenantDeleted) ∧
    (run j action w fuel).loop.ended.isSome = true := by
  cases action with
  | InitializeTenant =>
    have hst := manageTenantLoop_status (runStore j).jobCfg.Backoff
      (fun i => (initializeTenant { runStore j with cancelFn := some w.ctxId }
        (jobCtx { runStore j with cancelFn := some w.ctxId }) (w.attempt i)).err)
      w.wake .jobInProgress fuel 0 0 []
    have hnm : (manageTenantLoop (runStore j).jobCfg.Backoff
        (fun i => (initializeTenant { runStore j with cancelFn := some w.ctxId }
          (jobCtx { runStore j with cancelFn := some w.ctxId }) (w.attempt i)).err)
        w.wake fuel 0 0 [] .jobInProgress).ended ≠ some .idsDoNotMatch := by
      intro h
      obtain ⟨_, k, e, hk, he⟩ := hst.1 h
      have := initializeTenant_not_mismatch { runStore j with cancelFn := some w.ctxId }
        (jobCtx { runStore j with cancelFn := some w.ctxId }) (w.attempt k)
      simp only at hk
      rw [hk] at this
      simp [errorsAsIDsDoNotMatch, he] at this
    revert hdone hnm
    simp only [run, runGoroutine, manageTenant, runStore]
    cases hend : (manageTenantLoop j.jobCfg.Backoff _ w.wake fuel 0 0 [] .jobInProgress).ended with
    | none => simp
    | some x =>
      by_cases hc : errorsIsCanceled (w.ctxErr.map CtxErr.toError) = true
      · simp [hc, hend]
      · simp only [hc, hend, Bool.false_eq_true, if_false, Option.isSome_some, ne_eq,
          Option.some.injEq, false_implies, true_implies, and_true, true_and, implies_true,
          reduceCtorEq, not_false_eq_true]
        intro hx
        exact ⟨fun _ => hx, hx⟩
  | CleanupTenant =>
    have hst := manageTenantLoop_status (runStore j).jobCfg.Backoff
      (fun i => (cleanupTenant { runStore j with cancelFn := some w.ctxId }
        (jobCtx { runStore j with cancelFn := some w.ctxId }) (w.attempt i)).err)
      w.wake .jobInProgress fuel 0 0 []
    revert hdone hst
    simp only [run, runGoroutine, manageTenant, runStore]
    cases hend : (manageTenantLoop j.jobCfg.Backoff _ w.wake fuel 0 0 [] .jobInProgress).ended with
    | none => simp
    | some x =>
      by_cases hc : errorsIsCanceled (w.ctxErr.map CtxErr.toError) = true
      · simp [hc, hend]
      · intro _ hst
        cases hother : w.otherStore with
        | none =>
          by_cases hx : x = .idsDoNotMatch
          · subst hx
            have := (hst.1 rfl).1
            simp [hc, hend, this]
          · have := hst.2 (by simpa using hx)
            simp [hc, hend, this, hx]
        | some other =>
          by_cases ho : other = .tenantIDsNotMatch
          · simp [hc, hend, ho]
          · simp [hc, hend, ho]

/-- A cleanup that finds the watcher owned by another project, on a job into which no other
thread stores, ends in `tenantIDsNotMatch`. -/
theorem run_final_status_witness :
    (run jobFoo .CleanupTenant worldMismatch 1).job.status = .tenantIDsNotMatch :=
  (run_final_status jobFoo .CleanupTenant worldMismatch 1 (by decide)).2.1 (by decide) rfl
    (by decide)

/-! ## Theorems: the job table -/

theorem mapGet_mapSet_self (k : String) (v : job) (m : List (String × job)) :
    mapGet k (mapSet k v m) = some v := by
  induction m with
  | nil => simp [mapSet, mapGet]
  | cons e m ih =>
    unfold mapSet
    by_cases h : e.1 = k
    · simp [h, mapGet]
    · have h2 : (e.1 == k) = false := by simpa using h
      simp only [h2, Bool.false_eq_true, if_false]
      unfold mapGet at ih ⊢
      simp only [List.find?_cons, h2]
      exact ih

theorem mapGet_mapSet_other (k k2 : String) (v : job) (m : List (String × job)) (h : k2 ≠ k) :
    mapGet k2 (mapSet k v m) = mapGet k2 m := by
  induction m with
  | nil =>
    have h2 : (k == k2) = false := by simpa using fun h3 => h h3.symm
    simp [mapSet, mapGet, h2]
  | cons e m ih =>
    unfold mapSet
    by_cases hk : e.1 = k
    · have h2 : (k == k2) = false := by simpa using fun h3 => h h3.symm
      have h3 : (e.1 == k2) = false := by rw [hk]; exact h2
      simp [hk, mapGet, h2]
    · have h2 : (e.1 == k) = false := by simpa using hk
      simp only [h2, Bool.false_eq_true, if_false]
      unfold mapGet at ih ⊢
      simp only [List.find?_cons]
      cases h3 : (e.1 == k2)
      · simpa using ih
      · rfl

theorem mapSet_keys (k : String) (v : job) (m : List (String × job)) :
    (mapSet k v m).map Prod.fst =
      if k ∈ m.map Prod.fst then m.map Prod.fst else m.map Prod.fst ++ [k] := by
  induction m with
  | nil => simp [mapSet]
  | cons e m ih =>
    unfold mapSet
    by_cases hk : e.1 = k
    · simp [hk]
    · have h2 : (e.1 == k) = false := by simpa using hk
      simp only [h2, Bool.false_eq_true, if_false, List.map_cons, ih, List.mem_cons]
      have hk2 : ¬ k = e.1 := fun h => hk h.symm
      by_cases hmem : k ∈ m.map Prod.fst
      · simp [hmem]
      · simp [hmem, hk2]

theorem mapSet_keys_nodup (k : String) (v : job) (m : List (String × job))
    (h : (m.map Prod.fst).Nodup) : ((mapSet k v m).map Prod.fst).Nodup := by
  rw [mapSet_keys]
  split
  · exact h
  · next hmem =>
    rw [List.nodup_append]
    refine ⟨h, List.nodup_singleton k, ?_⟩
    intro a ha hb
    simp at hb
    subst hb
    exact hmem ha

theorem mapDelete_keys_nodup (k : String) (m : List (String × job))
    (h : (m.map Prod.fst).Nodup) : ((mapDelete k m).map Prod.fst).Nodup :=
  (List.Sublist.map Prod.fst (List.filter_sublist m)).nodup h

theorem mapDelete_keys_subset (k : String) (m : List (String × job)) :
    ∀ x ∈ (mapDelete k m).map Prod.fst, x ∈ m.map Prod.fst :=
  fun _ hx => (List.Sublist.map Prod.fst (List.filter_sublist m)).subset hx

theorem sweepEntry_jobList (jm : JobManager) (e : String × job) :
    (sweepEntry jm e).jobList =
      if reaped e.2.status then mapDelete e.1 jm.jobList else jm.jobList := by
  unfold sweepEntry reaped
  cases h : e.2.status <;> simp

theorem sweep_fold_jobList (es : List (String × job)) :
    ∀ jm : JobManager, (es.foldl sweepEntry jm).jobList =
      jm.jobList.filter (fun e => !(es.any (fun d => d.1 == e.1 && reaped d.2.status))) := by
  induction es with
  | nil => intro jm; simp
  | cons d es ih =>
    intro jm
    rw [List.foldl_cons, ih, sweepEntry_jobList]
    by_cases hr : reaped d.2.status = true
    · simp only [hr, if_true, mapDelete, List.filter_filter]
      apply List.filter_congr
      intro x _
      simp only [List.any_cons, hr, Bool.and_true]
      by_cases hxd : d.1 = x.1
      · have b1 : (x.1 == d.1) = true := by simpa using hxd.symm
        have b2 : (d.1 == x.1) = true := by simpa using hxd
        rw [b1, b2]
        simp
      · have hxd2 : ¬ x.1 = d.1 := fun h => hxd h.symm
        have b1 : (x.1 == d.1) = false := by simpa using hxd2
        have b2 : (d.1 == x.1) = false := by simpa using hxd
        rw [b1, b2]
        simp
    · simp only [hr, Bool.false_eq_true, if_false]
      apply List.filter_congr
      intro x _
      simp [List.any_cons, hr]

theorem sweep_fold_fields (es : List (String × job)) :
    ∀ jm : JobManager, (es.foldl sweepEntry jm).started = jm.started ∧
      (es.foldl sweepEntry jm).cancelled = jm.cancelled ∧
      (es.foldl sweepEntry jm).jobCfg = jm.jobCfg ∧
      (es.foldl sweepEntry jm).endpointsCfg = jm.endpointsCfg := by
  induction es with
  | nil => intro jm; simp
  | cons d es ih =>
    intro jm
    rw [List.foldl_cons]
    obtain ⟨h1, h2, h3, h4⟩ := ih (sweepEntry jm d)
    rw [h1, h2, h3, h4]
    cases h : d.2.status <;> simp [sweepEntry, h]

theorem any_key_reaped (m : List (String × job)) (h : (m.map Prod.fst).Nodup)
    (e : String × job) (he : e ∈ m) :
    m.any (fun d => d.1 == e.1 && reaped d.2.status) = reaped e.2.status := by
  induction m with
  | nil => simp at he
  | cons d m ih =>
    simp only [List.map_cons, List.nodup_cons] at h
    simp only [List.any_cons]
    rcases List.mem_cons.mp he with rfl | hm
    · have : m.any (fun d => d.1 == e.1 && reaped d.2.status) = false := by
        rw [List.any_eq_false]
        intro x hx
        have hne : x.1 ≠ e.1 := fun hxe => h.1 (hxe ▸ List.mem_map_of_mem Prod.fst hx)
        simp [hne]
      simp [this]
    · have hne : d.1 ≠ e.1 := fun hde => h.1 (hde ▸ List.mem_map_of_mem Prod.fst hm)
      have h2 : (d.1 == e.1) = false := by simpa using hne
      simp [h2, ih h.2 hm]

/-- **C5.** On a job table with one entry per key, one sweep leaves exactly the entries
whose status is neither `tenantDeleted` nor `tenantIDsNotMatch`, each unchanged and in its
place: the entries with status `jobCreated`, `jobInProgress`, `jobCancelled` or
`tenantCreated` stay, the others are removed. -/
theorem sweep_removes_exactly (jm : JobManager) (hkeys : (jm.jobList.map Prod.fst).Nodup) :
    (sweep jm).jobList =
      jm.jobList.filter (fun e =>
        e.2.status = .jobCreated ∨ e.2.status = .jobInProgress ∨ e.2.status = .jobCancelled ∨
          e.2.status = .tenantCreated) ∧
    (∀ e ∈ jm.jobList, e ∈ (sweep jm).jobList ↔
      ¬ (e.2.status = .tenantDeleted ∨ e.2.status = .tenantIDsNotMatch)) := by
  have h1 : (sweep jm).jobList =
      jm.jobList.filter (fun e =>
        e.2.status = .jobCreated ∨ e.2.status = .jobInProgress ∨ e.2.status = .jobCancelled ∨
          e.2.status = .tenantCreated) := by
    unfold sweep
    rw [sweep_fold_jobList]
    apply List.filter_congr
    intro e he
    rw [any_key_reaped jm.jobList hkeys e he]
    unfold reaped
    cases e.2.status <;> simp
  refine ⟨h1, fun e he => ?_⟩
  rw [h1, List.mem_filter]
  cases hs : e.2.status <;> simp [he]

theorem sweep_keys_nodup (jm : JobManager) (h : (jm.jobList.map Prod.fst).Nodup) :
    ((sweep jm).jobList.map Prod.fst).Nodup := by
  unfold sweep
  rw [sweep_fold_jobList]
  exact (List.Sublist.map Prod.fst (List.filter_sublist _)).nodup h

theorem sweep_keys_subset (jm : JobManager) :
    ∀ x ∈ (sweep jm).jobList.map Prod.fst, x ∈ jm.jobList.map Prod.fst := by
  unfold sweep
  rw [sweep_fold_jobList]
  exact fun _ hx => (List.Sublist.map Prod.fst (List.filter_sublist _)).subset hx

theorem startJob_jobList (jm : JobManager) (project : Project) (action : Action) :
    ∃ v, (startJob jm project action).jobList = mapSet project.UID v jm.jobList := by
  unfold startJob
  cases mapGet project.UID jm.jobList with
  | none => exact ⟨_, rfl⟩
  | some j => exact ⟨_, rfl⟩

theorem step_keys (jm : JobManager) (ev : Event) (h : (jm.jobList.map Prod.fst).Nodup) :
    ((jm.step ev).jobList.map Prod.fst).Nodup ∧
      ∀ x ∈ (jm.step ev).jobList.map Prod.fst,
        x ∈ jm.jobList.map Prod.fst ∨ ∃ p a, ev = .lifecycle p a ∧ p.UID = x := by
  cases ev with
  | lifecycle p a =>
    obtain ⟨v, hv⟩ := startJob_jobList jm p a
    simp only [JobManager.step, hv]
    refine ⟨mapSet_keys_nodup _ _ _ h, fun x hx => ?_⟩
    rw [mapSet_keys] at hx
    split at hx
    · exact Or.inl hx
    · rcases List.mem_append.mp hx with hx | hx
      · exact Or.inl hx
      · exact Or.inr ⟨p, a, rfl, by simpa using (List.mem_singleton.mp hx).symm⟩
  | tick =>
    exact ⟨sweep_keys_nodup jm h, fun x hx => Or.inl (sweep_keys_subset jm x hx)⟩
  | storeStatus uid st =>
    simp only [JobManager.step]
    cases hg : mapGet uid jm.jobList with
    | none => exact ⟨h, fun x hx => Or.inl hx⟩
    | some j =>
      have hmem : uid ∈ jm.jobList.map Prod.fst := by
        unfold mapGet at hg
        cases hf : jm.jobList.find? (fun e => e.1 == uid) with
        | none => rw [hf] at hg; simp at hg
        | some e =>
          have h1 := List.find?_some hf
          have h2 := List.mem_of_find?_eq_some hf
          simp at h1
          exact h1 ▸ List.mem_map_of_mem Prod.fst h2
      refine ⟨mapSet_keys_nodup _ _ _ h, fun x hx => ?_⟩
      simp only [mapSet_keys, hmem, if_true] at hx
      exact Or.inl hx
  | storeCancelFn uid c =>
    simp only [JobManager.step]
    cases hg : mapGet uid jm.jobList with
    | none => exact ⟨h, fun x hx => Or.inl hx⟩
    | some j =>
      have hmem : uid ∈ jm.jobList.map Prod.fst := by
        unfold mapGet at hg
        cases hf : jm.jobList.find? (fun e => e.1 == uid) with
        | none => rw [hf] at hg; simp at hg
        | some e =>
          have h1 := List.find?_some hf
          have h2 := List.mem_of_find?_eq_some hf
          simp at h1
          exact h1 ▸ List.mem_map_of_mem Prod.fst h2
      refine ⟨mapSet_keys_nodup _ _ _ h, fun x hx => ?_⟩
      simp only [mapSet_keys, hmem, if_true] at hx
      exact Or.inl hx

theorem steps_keys (events : List Event) :
    ∀ jm : JobManager, (jm.jobList.map Prod.fst).Nodup →
      ((jm.steps events).jobList.map Prod.fst).Nodup ∧
      ∀ x ∈ (jm.steps events).jobList.map Prod.fst,
        x ∈ jm.jobList.map Prod.fst ∨ ∃ p a, Event.lifecycle p a ∈ events ∧ p.UID = x := by
  induction events with
  | nil => intro jm h; exact ⟨h, fun x hx => Or.inl hx⟩
  | cons ev events ih =>
    intro jm h
    obtain ⟨h1, h2⟩ := step_keys jm ev h
    obtain ⟨h3, h4⟩ := ih (jm.step ev) h1
    refine ⟨h3, fun x hx => ?_⟩
    rcases h4 x hx with hx | ⟨p, a, hpa, hp⟩
    · rcases h2 x hx with hx | ⟨p, a, hpa, hp⟩
      · exact Or.inl hx
      · exact Or.inr ⟨p, a, by simp [hpa], hp⟩
    · exact Or.inr ⟨p, a, List.mem_cons_of_mem _ hpa, hp⟩

/-- **C8.** Starting from the empty job table of `New`, after any finite sequence of
lifecycle events, sweep ticks and stores made by background executions, the table holds at
most one job for each project identity, and it holds a job for an identity only if a
lifecycle event for a project with that UID occurs in the sequence. -/
theorem jobList_at_most_one_per_identity (jCfg : config.Job) (endpoints : config.Endpoints)
    (events : List Event) (uid : String) :
    (((New jCfg endpoints).steps events).jobList.filter (fun e => e.1 = uid)).length ≤ 1 ∧
    ((mapGet uid ((New jCfg endpoints).steps events).jobList).isSome = true →
      ∃ p a, Event.lifecycle p a ∈ events ∧ p.UID = uid) := by
  obtain ⟨h1, h2⟩ := steps_keys events (New jCfg endpoints) (by simp [New])
  constructor
  · have hc := List.nodup_iff_count_le_one.mp h1 uid
    have : (((New jCfg endpoints).steps events).jobList.filter (fun e => e.1 = uid)).length =
        (((New jCfg endpoints).steps events).jobList.map Prod.fst).count uid := by
      generalize ((New jCfg endpoints).steps events).jobList = l
      induction l with
      | nil => simp
      | cons e l ih =>
        by_cases he : e.1 = uid
        · simp [List.filter_cons, he, ih]
        · simp [List.filter_cons, he, ih, List.count_cons]
    omega
  · intro hsome
    have hmem : uid ∈ ((New jCfg endpoints).steps events).jobList.map Prod.fst := by
      unfold mapGet at hsome
      cases hf : ((New jCfg endpoints).steps events).jobList.find? (fun e => e.1 == uid) with
      | none => rw [hf] at hsome; simp at hsome
      | some e =>
        have h3 := List.find?_some hf
        have h4 := List.mem_of_find?_eq_some hf
        simp at h3
        exact h3 ▸ List.mem_map_of_mem Prod.fst h4
    rcases h2 uid hmem with hx | hx
    · simp [New] at hx
    · exact hx

/-- A sweep over a deleted tenant and a cancelled job keeps the cancelled job only. -/
theorem sweep_removes_exactly_witness :
    (sweep { New testConfigJob testConfigEndpoints with
        jobList := [("foo", { jobFoo with status := .tenantDeleted }),
                    ("bar", { jobFoo with project := projectBar, status := .jobCancelled })] }).jobList =
      [("bar", { jobFoo with project := projectBar, status := .jobCancelled })] :=
  (sweep_removes_exactly
    { New testConfigJob testConfigEndpoints with
      jobList := [("foo", { jobFoo with status := .tenantDeleted }),
                  ("bar", { jobFoo with project := projectBar, status := .jobCancelled })] }
    (by decide)).1.trans (by simp [jobFoo, newJob])

/-- Counterexample to **C6**: after an `InitializeTenant` event for the project `foo` and a
`CleanupTenant` event carrying the renamed, deleted project with the same UID, the table
entry of `foo` still captures the project of the first event, not the one carried by the
second; it is not the job `newJob` would build from the second event. -/
theorem startJob_existing_not_new_job :
    ¬ ((mapGet "foo" (startJob (startJob (New testConfigJob testConfigEndpoints) projectFoo
          .InitializeTenant) projectFooDeleted .CleanupTenant).jobList).map (fun j => j.project) =
        some projectFooDeleted) ∧
      (mapGet "foo" (startJob (startJob (New testConfigJob testConfigEndpoints) projectFoo
          .InitializeTenant) projectFooDeleted .CleanupTenant).jobList).map (fun j => j.project) =
        some projectFoo := by
  decide

/-- **C6, amended.** When a lifecycle event arrives for an identity that already has a job
in the table, `startJob` invokes the cancel function stored in that job, if there is one,
and runs the same job again with the new action: afterwards the table entry of the identity
is the job that was there, with status `jobInProgress` and with its captured project
unchanged; one background execution is started, for the new action on the captured
project; the entries of all other identities and the set of keys are as before. -/
theorem startJob_existing_reruns_job (jm : JobManager) (project : Project) (action : Action)
    (j : job) (hexists : mapGet project.UID jm.jobList = some j) :
    mapGet project.UID (startJob jm project action).jobList =
      some { j with status := .jobInProgress } ∧
    (startJob jm project action).cancelled = jm.cancelled ++ j.cancelFn.toList ∧
    (startJob jm project action).started =
      jm.started ++ [{ uid := project.UID, project := j.project, action := action }] ∧
    (∀ k, k ≠ project.UID →
      mapGet k (startJob jm project action).jobList = mapGet k jm.jobList) ∧
    (startJob jm project action).jobList.map Prod.fst = jm.jobList.map Prod.fst := by
  have hmem : project.UID ∈ jm.jobList.map Prod.fst := by
    unfold mapGet at hexists
    cases hf : jm.jobList.find? (fun e => e.1 == project.UID) with
    | none => rw [hf] at hexists; simp at hexists
    | some e =>
      have h1 := List.find?_some hf
      have h2 := List.mem_of_find?_eq_some hf
      simp at h1
      exact h1 ▸ List.mem_map_of_mem Prod.fst h2
  unfold startJob
  simp only [hexists, cancel, runStore]
  refine ⟨mapGet_mapSet_self _ _ _, trivial, trivial, fun k hk => mapGet_mapSet_other _ _ _ _ hk, ?_⟩
  rw [mapSet_keys, if_pos hmem]

/-- The second event for `foo` leaves the job of the first event in the table, in
progress. -/
theorem startJob_existing_reruns_job_witness :
    (mapGet "foo" (startJob (startJob (New testConfigJob testConfigEndpoints) projectFoo
        .InitializeTenant) projectFooDeleted .CleanupTenant).jobList) =
      some { runStore jobFoo with status := .jobInProgress } :=
  (startJob_existing_reruns_job
    (startJob (New testConfigJob testConfigEndpoints) projectFoo .InitializeTenant)
    projectFooDeleted .CleanupTenant (runStore jobFoo) (by rfl)).1

/-! ## Theorems: the watcher -/

theorem checkWatcher_of_mismatch (ctx : Ctx) (w : Watcher) (reply : StoreReply)
    (tenantID : String) (hctx : ctx.tenantID = some tenantID)
    (hlookup : parentLookupFailed reply = false) (hmis : parentMismatch reply tenantID) :
    ∃ e, (checkWatcher ctx (some w) reply).err = some e ∧ e.asIDsDoNotMatch = true ∧
      (checkWatcher ctx (some w) reply).calls = [.GetParent] := by
  unfold parentLookupFailed at hlookup
  unfold checkWatcher
  simp only [hctx, hlookup, Bool.false_eq_true, if_false]
  rcases hmis with h | ⟨p, hp, hne⟩
  · simp [h, GoError.asIDsDoNotMatch]
  · have hne2 : ¬ tenantID = p.UID := fun h => hne h.symm
    simp [hp, hne2, GoError.asIDsDoNotMatch]

/-- **C9.** `checkWatcher` answers in this order of precedence: without a tenant ID in the
context, an error that is not an identity mismatch, whatever the watcher; else for a nil
watcher, an error that is not an identity mismatch; else when the parent lookup fails with
anything other than not-found, an error that is not an identity mismatch; else an
`IDsDoNotMatchError` exactly when the parent is absent or its UID differs from the tenant
ID, and no error exactly when the parent is present with the tenant ID as its UID. -/
theorem checkWatcher_precedence (ctx : Ctx) (watcher : Option Watcher) (reply : StoreReply) :
    (ctx.tenantID = none →
      ∃ e, (checkWatcher ctx watcher reply).err = some e ∧ e.asIDsDoNotMatch = false) ∧
    (ctx.tenantID ≠ none → watcher = none →
      ∃ e, (checkWatcher ctx watcher reply).err = some e ∧ e.asIDsDoNotMatch = false) ∧
    (ctx.tenantID ≠ none → watcher ≠ none → parentLookupFailed reply = true →
      ∃ e, (checkWatcher ctx watcher reply).err = some e ∧ e.asIDsDoNotMatch = false) ∧
    (∀ tenantID, ctx.tenantID = some tenantID → watcher ≠ none →
      parentLookupFailed reply = false →
      (errorsAsIDsDoNotMatch (checkWatcher ctx watcher reply).err = true ↔
        parentMismatch reply tenantID) ∧
      ((checkWatcher ctx watcher reply).err = none ↔
        ∃ p, reply.GetParent.1 = some p ∧ p.UID = tenantID)) := by
  refine ⟨?_, ?_, ?_, ?_⟩
  · intro h
    simp [checkWatcher, h, GoError.asIDsDoNotMatch]
  · intro h hw
    obtain ⟨t, ht⟩ := Option.ne_none_iff_exists'.mp h
    simp [checkWatcher, ht, hw, GoError.asIDsDoNotMatch]
  · intro h hw hl
    obtain ⟨t, ht⟩ := Option.ne_none_iff_exists'.mp h
    obtain ⟨w, hw2⟩ := Option.ne_none_iff_exists'.mp hw
    unfold parentLookupFailed at hl
    simp [checkWatcher, ht, hw2, hl, GoError.asIDsDoNotMatch]
  · intro t ht hw hl
    obtain ⟨w, hw2⟩ := Option.ne_none_iff_exists'.mp hw
    unfold parentLookupFailed at hl
    unfold parentMismatch checkWatcher
    simp only [ht, hw2, hl, Bool.false_eq_true, if_false]
    cases hp : reply.GetParent.1 with
    | none => simp [errorsAsIDsDoNotMatch, GoError.asIDsDoNotMatch]
    | some p =>
      by_cases hu : t = p.UID
      · simp [hu, errorsAsIDsDoNotMatch]
      · have hu2 : ¬ p.UID = t := fun h => hu h.symm
        simp [hu, hu2, errorsAsIDsDoNotMatch, GoError.asIDsDoNotMatch]

/-- The case `Valid watcher, ids dont match` of `TestCheckWatcher`. -/
theorem checkWatcher_precedence_witness :
    errorsAsIDsDoNotMatch
      (checkWatcher { tenantID := some "foo" } (some idleWatcher) replyWatcherOfBar).err = true :=
  ((checkWatcher_precedence { tenantID := some "foo" } (some idleWatcher)
    replyWatcherOfBar).2.2.2 "foo" rfl (by simp) (by decide)).1.mpr
    (Or.inr ⟨projectBar, rfl, by decide⟩)

/-- **C10.** When the watcher of the project exists and the parent the store returns for it
is absent or has a UID other than the tenant ID of the context, `updateWatcher` and
`CreateUpdateWatcher` return nil, leave the watcher object as it was (status, message and
timestamp included) and issue only the two reads to the store: no `Update`, no
`AddActiveWatchers` and no `DeleteActiveWatchers`. -/
theorem reportProgress_mismatch_noop (ctx : Ctx) (project : Project) (w : Watcher)
    (status : ActiveWatcherStatus) (message tenantID : String) (reply : StoreReply)
    (hctx : ctx.tenantID = some tenantID)
    (hget : reply.GetActiveWatchers = (some w, none))
    (hlookup : parentLookupFailed reply = false) (hmis : parentMismatch reply tenantID) :
    (updateWatcher ctx (some w) status project.UID message reply).err = none ∧
    (updateWatcher ctx (some w) status project.UID message reply).watcher = some w ∧
    (updateWatcher ctx (some w) status project.UID message reply).calls = [.GetParent] ∧
    (CreateUpdateWatcher ctx (some project) status message reply).err = none ∧
    (CreateUpdateWatcher ctx (some project) status message reply).watcher = some w ∧
    (CreateUpdateWatcher ctx (some project) status message reply).calls =
      [.GetActiveWatchers project.UID AppName, .GetParent] := by
  obtain ⟨e, he, hm, hcalls⟩ := checkWatcher_of_mismatch ctx w reply tenantID hctx hlookup hmis
  have hu : updateWatcher ctx (some w) status project.UID message reply =
      { err := none, calls := [.GetParent], watcher := some w } := by
    simp [updateWatcher, he, hm, hcalls]
  have hc : CreateUpdateWatcher ctx (some project) status message reply =
      { err := none, calls := [.GetActiveWatchers project.UID AppName, .GetParent],
        watcher := some w } := by
    simp [CreateUpdateWatcher, hget, IsChildNotFound, IsNotFound, hu]
  rw [hu, hc]
  simp

/-- Reporting progress for `foo` on a watcher owned by `bar` changes nothing. -/
theorem reportProgress_mismatch_noop_witness :
    (CreateUpdateWatcher { tenantID := some "foo" } (some projectFoo)
        .StatusIndicationInProgress "Creating tenant" replyWatcherOfBar).err = none ∧
      (CreateUpdateWatcher { tenantID := some "foo" } (some projectFoo)
        .StatusIndicationInProgress "Creating tenant" replyWatcherOfBar).watcher =
        some idleWatcher :=
  have h := reportProgress_mismatch_noop { tenantID := some "foo" } projectFoo idleWatcher
    .StatusIndicationInProgress "Creating tenant" "foo" replyWatcherOfBar rfl rfl (by decide)
    (Or.inr ⟨projectBar, rfl, by decide⟩)
  ⟨h.2.2.2.1, h.2.2.2.2.1⟩

theorem lastStore_append (h : List Ev) (e : Ev) :
    lastStore (h ++ [e]) =
      match e with
      | .stored t status => some (t, status)
      | _ => lastStore h := by
  cases e <;> simp [lastStore, List.findSome?_cons, Ev.asStore]

theorem lastStore_mem (h : List Ev) (t : Thread) (st : jobStatus)
    (hl : lastStore h = some (t, st)) : Ev.stored t st ∈ h := by
  unfold lastStore at hl
  obtain ⟨a, ha, hs⟩ := List.exists_of_findSome?_eq_some hl
  cases a <;> simp [Ev.asStore] at hs
  obtain ⟨rfl, rfl⟩ := hs
  simpa using ha

theorem cancelBeforeStart_append (h : List Ev) (ev : Ev) (ho : cancelBeforeStart h)
    (hev : ev = .started .exec2 → ∃ inv, Ev.cancelCall inv ∈ h) :
    cancelBeforeStart (h ++ [ev]) := by
  unfold cancelBeforeStart at ho ⊢
  intro i hi
  rcases Nat.lt_or_ge i h.length with hlt | hge
  · rw [List.getElem?_append_left hlt] at hi
    obtain ⟨j, inv, hj, hjv⟩ := ho i hi
    exact ⟨j, inv, hj, by rw [List.getElem?_append_left (by omega)]; exact hjv⟩
  · rw [List.getElem?_append_right hge] at hi
    have hi0 : i - h.length = 0 := by
      rcases Nat.eq_zero_or_pos (i - h.length) with h0 | h0
      · exact h0
      · rw [List.getElem?_eq_none (by simp; omega)] at hi; simp at hi
    rw [hi0] at hi
    simp at hi
    obtain ⟨inv, hinv⟩ := hev hi
    obtain ⟨j, hj, hjv⟩ := List.getElem_of_mem hinv
    refine ⟨j, inv, by omega, ?_⟩
    rw [List.getElem?_append_left hj, List.getElem?_eq_getElem hj, hjv]

theorem Inv.init (project : Project) (jCfg : config.Job) (endpoints : config.Endpoints)
    (a1 a2 : Action) : Inv (Shared.init project jCfg endpoints a1 a2) where
  pc2_idle := by simp [Shared.init]
  status_last := by simp [Shared.init, lastStore, newJob]
  stores := by simp [Shared.init]
  exec2_stored := by simp [Shared.init]
  no_start2 := by simp [Shared.init]
  cancel_called := by simp [Shared.init]
  order := by unfold cancelBeforeStart; intro i hi; simp [Shared.init] at hi
  pc_created := by intro t; cases t <;> simp [Shared.init, Shared.pcOf]
  pc_deleted := by intro t; cases t <;> simp [Shared.init, Shared.pcOf]
  pc_load := by intro t; cases t <;> simp [Shared.init, Shared.pcOf]

/-- A status other than `jobCreated` and `jobInProgress` was stored by an execution. -/
theorem Inv.lastStore_exec {s : Shared} (hI : Inv s) (h1 : s.job.status ≠ .jobCreated)
    (h2 : s.job.status ≠ .jobInProgress) :
    ∃ t st, lastStore s.history = some (t, st) ∧ t ≠ .manager := by
  have hl := hI.status_last
  cases hls : lastStore s.history with
  | none => rw [hls] at hl; simp at hl; exact absurd hl h1
  | some x =>
    obtain ⟨t, st⟩ := x
    rw [hls] at hl
    simp at hl
    refine ⟨t, st, rfl, fun ht => ?_⟩
    rcases hI.stores t st (lastStore_mem _ _ _ hls) with ⟨_, hst⟩ | ⟨hne, _⟩
    · exact h2 (hl.trans hst)
    · exact hne ht

/-- Moving the program point of a started execution keeps the invariant. -/
theorem Inv.setPc {s : Shared} (hI : Inv s) (t : Thread) (pc : Pc)
    (hstarted : s.pcOf t ≠ none)
    (hc : pc = .storeCreated → s.actionOf t = .InitializeTenant)
    (hd : pc = .storeDeleted → s.actionOf t = .CleanupTenant)
    (hl : pc = .loadStatus → s.actionOf t = .CleanupTenant)
    (hdef : t = .exec2 → (pc = .deferred ∨ pc = .done) →
      (s.pc2 = some .deferred ∨ s.pc2 = some .done) ∨
      (s.job.status ≠ .jobCreated ∧ s.job.status ≠ .jobInProgress)) : Inv (s.setPc t pc) := by
  cases t with
  | manager => exact hI
  | exec1 =>
    exact {
      pc2_idle := hI.pc2_idle
      status_last := hI.status_last
      stores := fun t2 st h => by
        have := hI.stores t2 st h
        cases t2 <;> simpa [Shared.setPc, Shared.actionOf] using this
      exec2_stored := hI.exec2_stored
      no_start2 := hI.no_start2
      cancel_called := hI.cancel_called
      order := hI.order
      pc_created := fun t2 h => by
        cases t2 with
        | manager => simp [Shared.pcOf] at h
        | exec1 =>
          simp [Shared.setPc, Shared.pcOf] at h
          simpa [Shared.setPc, Shared.actionOf] using hc h
        | exec2 => exact hI.pc_created .exec2 h
      pc_deleted := fun t2 h => by
        cases t2 with
        | manager => simp [Shared.pcOf] at h
        | exec1 =>
          simp [Shared.setPc, Shared.pcOf] at h
          simpa [Shared.setPc, Shared.actionOf] using hd h
        | exec2 => exact hI.pc_deleted .exec2 h
      pc_load := fun t2 h => by
        cases t2 with
        | manager => simp [Shared.pcOf] at h
        | exec1 =>
          simp [Shared.setPc, Shared.pcOf] at h
          simpa [Shared.setPc, Shared.actionOf] using hl h
        | exec2 => exact hI.pc_load .exec2 h }
  | exec2 =>
    exact {
      pc2_idle := fun _ => hI.pc2_idle (by simpa [Shared.pcOf] using hstarted)
      status_last := hI.status_last
      stores := fun t2 st h => by
        have := hI.stores t2 st h
        cases t2 <;> simpa [Shared.setPc, Shared.actionOf] using this
      exec2_stored := fun h => by
        have h2 : pc = .deferred ∨ pc = .done := by simpa [Shared.setPc] using h
        rcases hdef rfl h2 with h3 | ⟨h3, h4⟩
        · exact hI.exec2_stored h3
        · exact hI.lastStore_exec h3 h4
      no_start2 := hI.no_start2
      cancel_called := hI.cancel_called
      order := hI.order
      pc_created := fun t2 h => by
        cases t2 with
        | manager => simp [Shared.pcOf] at h
        | exec1 => exact hI.pc_created .exec1 h
        | exec2 =>
          simp [Shared.setPc, Shared.pcOf] at h
          simpa [Shared.setPc, Shared.actionOf] using hc h
      pc_deleted := fun t2 h => by
        cases t2 with
        | manager => simp [Shared.pcOf] at h
        | exec1 => exact hI.pc_deleted .exec1 h
        | exec2 =>
          simp [Shared.setPc, Shared.pcOf] at h
          simpa [Shared.setPc, Shared.actionOf] using hd h
      pc_load := fun t2 h => by
        cases t2 with
        | manager => simp [Shared.pcOf] at h
        | exec1 => exact hI.pc_load .exec1 h
        | exec2 =>
          simp [Shared.setPc, Shared.pcOf] at h
          simpa [Shared.setPc, Shared.actionOf] using hl h }

/-- A store of a status the execution may store keeps the invariant. -/
theorem Inv.store {s : Shared} (hI : Inv s) (t : Thread) (st : jobStatus)
    (ht : t ≠ .manager) (hout : outcome (s.actionOf t) st) : Inv (s.store t st) where
  pc2_idle := hI.pc2_idle
  status_last := by simp [Shared.store, lastStore_append]
  stores := by
    intro t2 st2 hmem
    have hact : (s.store t st).actionOf t2 = s.actionOf t2 := by
      cases t2 <;> rfl
    rw [hact]
    rcases List.mem_append.mp hmem with hmem | hmem
    · exact hI.stores t2 st2 hmem
    · simp at hmem
      obtain ⟨rfl, rfl⟩ := hmem
      exact Or.inr ⟨ht, hout⟩
  exec2_stored := fun _ => ⟨t, st, by simp [Shared.store, lastStore_append], ht⟩
  no_start2 := by
    intro h hmem
    rcases List.mem_append.mp hmem with hmem | hmem
    · exact hI.no_start2 h hmem
    · simp at hmem
  cancel_called := by
    intro h
    obtain ⟨inv, hinv⟩ := hI.cancel_called h
    exact ⟨inv, List.mem_append_left _ hinv⟩
  order := cancelBeforeStart_append _ _ hI.order (by simp)
  pc_created := fun t2 h => by
    have := hI.pc_created t2 (by cases t2 <;> exact h)
    cases t2 <;> exact this
  pc_deleted := fun t2 h => by
    have := hI.pc_deleted t2 (by cases t2 <;> exact h)
    cases t2 <;> exact this
  pc_load := fun t2 h => by
    have := hI.pc_load t2 (by cases t2 <;> exact h)
    cases t2 <;> exact this

/-- Cancelling a context keeps the invariant. -/
theorem Inv.cancelCtx {s : Shared} (hI : Inv s) (t : Thread) : Inv (s.cancelCtx t) := by
  cases t with
  | manager => exact hI
  | exec1 =>
    exact { hI with
      stores := fun t2 st h => by
        have := hI.stores t2 st h
        cases t2 <;> exact this
      pc_created := fun t2 h => by
        have := hI.pc_created t2 (by cases t2 <;> exact h)
        cases t2 <;> exact this
      pc_deleted := fun t2 h => by
        have := hI.pc_deleted t2 (by cases t2 <;> exact h)
        cases t2 <;> exact this
      pc_load := fun t2 h => by
        have := hI.pc_load t2 (by cases t2 <;> exact h)
        cases t2 <;> exact this }
  | exec2 =>
    exact { hI with
      stores := fun t2 st h => by
        have := hI.stores t2 st h
        cases t2 <;> exact this
      pc_created := fun t2 h => by
        have := hI.pc_created t2 (by cases t2 <;> exact h)
        cases t2 <;> exact this
      pc_deleted := fun t2 h => by
        have := hI.pc_deleted t2 (by cases t2 <;> exact h)
        cases t2 <;> exact this
      pc_load := fun t2 h => by
        have := hI.pc_load t2 (by cases t2 <;> exact h)
        cases t2 <;> exact this }

/-- Storing a cancel function into `j.cancelFn` keeps the invariant. -/
theorem Inv.setCancelFn {s : Shared} (hI : Inv s) (f : Option Thread) :
    Inv { s with cancelFn := f } :=
  { hI with
    stores := fun t2 st h => by
      have := hI.stores t2 st h
      cases t2 <;> exact this
    pc_created := fun t2 h => by
      have := hI.pc_created t2 (by cases t2 <;> exact h)
      cases t2 <;> exact this
    pc_deleted := fun t2 h => by
      have := hI.pc_deleted t2 (by cases t2 <;> exact h)
      cases t2 <;> exact this
    pc_load := fun t2 h => by
      have := hI.pc_load t2 (by cases t2 <;> exact h)
      cases t2 <;> exact this }

/-- A statement of the manager that appends `ev` to the history keeps the invariant. -/
theorem Inv.managerStep {s s2 : Shared} (hI : Inv s) (ev : Ev) (hne : s.mgr ≠ .idle)
    (ha1 : s2.action1 = s.action1) (ha2 : s2.action2 = s.action2)
    (hh : s2.history = s.history ++ [ev])
    (hev : (ev = .stored .manager .jobInProgress ∧ s2.job.status = .jobInProgress) ∨
      (ev.asStore = none ∧ s2.job.status = s.job.status))
    (hpc2 : (s2.pc2 = none ∧ s2.mgr ≠ .idle ∧ ev ≠ .started .exec2) ∨
      (s2.pc2 = some .start ∧ s2.mgr = .idle ∧ s.mgr = .e2Go))
    (hcc : (s2.mgr = .e2Store ∨ s2.mgr = .e2Go ∨ s2.mgr = .idle) →
      (s.mgr = .e2Store ∨ s.mgr = .e2Go ∨ s.mgr = .idle) ∨ ∃ inv, ev = .cancelCall inv)
    (hpcs : ∀ t, s2.pcOf t = s.pcOf t ∨ s2.pcOf t = some .start) :
    Inv s2 where
  pc_created := by
    intro t h
    have hact : s2.actionOf t = s.actionOf t := by
      cases t <;> simp [Shared.actionOf, ha1, ha2]
    rw [hact]
    rcases hpcs t with h2 | h2
    · exact hI.pc_created t (h2 ▸ h)
    · rw [h2] at h; simp at h
  pc_deleted := by
    intro t h
    have hact : s2.actionOf t = s.actionOf t := by
      cases t <;> simp [Shared.actionOf, ha1, ha2]
    rw [hact]
    rcases hpcs t with h2 | h2
    · exact hI.pc_deleted t (h2 ▸ h)
    · rw [h2] at h; simp at h
  pc_load := by
    intro t h
    have hact : s2.actionOf t = s.actionOf t := by
      cases t <;> simp [Shared.actionOf, ha1, ha2]
    rw [hact]
    rcases hpcs t with h2 | h2
    · exact hI.pc_load t (h2 ▸ h)
    · rw [h2] at h; simp at h
  pc2_idle := by
    rcases hpc2 with ⟨h, _, _⟩ | ⟨_, h, _⟩
    · intro hc; exact absurd h hc
    · intro _; exact h
  status_last := by
    rw [hh, lastStore_append]
    rcases hev with ⟨rfl, hst⟩ | ⟨hns, hst⟩
    · simp [hst]
    · rw [hst, hI.status_last]
      cases ev <;> simp [Ev.asStore] at hns ⊢
  stores := by
    intro t st hmem
    have hact : s2.actionOf t = s.actionOf t := by
      cases t <;> simp [Shared.actionOf, ha1, ha2]
    rw [hact]
    rw [hh] at hmem
    rcases List.mem_append.mp hmem with hmem | hmem
    · exact hI.stores t st hmem
    · simp at hmem
      rcases hev with ⟨rfl, _⟩ | ⟨hns, _⟩
      · simp at hmem
        exact Or.inl ⟨hmem.1, hmem.2⟩
      · rw [← hmem] at hns; simp [Ev.asStore] at hns
  exec2_stored := by
    intro h
    rcases hpc2 with ⟨h2, _, _⟩ | ⟨h2, _, _⟩
    · rw [h2] at h; simp at h
    · rw [h2] at h; simp at h
  no_start2 := by
    intro hidle
    rcases hpc2 with ⟨_, _, hev2⟩ | ⟨_, h, _⟩
    · rw [hh]
      intro hmem
      rcases List.mem_append.mp hmem with hmem | hmem
      · exact hI.no_start2 hne hmem
      · simp at hmem; exact hev2 hmem.symm
    · exact absurd h hidle
  cancel_called := by
    intro h
    rw [hh]
    rcases hcc h with h | ⟨inv, rfl⟩
    · obtain ⟨inv, hinv⟩ := hI.cancel_called h
      exact ⟨inv, List.mem_append_left _ hinv⟩
    · exact ⟨inv, by simp⟩
  order := by
    rw [hh]
    apply cancelBeforeStart_append _ _ hI.order
    intro hev2
    rcases hpc2 with ⟨_, _, h⟩ | ⟨_, _, h⟩
    · exact absurd hev2 h
    · exact hI.cancel_called (Or.inr (Or.inl h))

theorem Inv.stepManager {s s2 : Shared} (hI : Inv s) (h : s.stepManager = some s2) :
    Inv s2 := by
  unfold Shared.stepManager at h
  have hpc2 : s.mgr ≠ .idle → s.pc2 = none := fun hne =>
    Classical.byContradiction (fun hc => hne (hI.pc2_idle hc))
  cases hm : s.mgr with
  | e1Store =>
    rw [hm] at h; simp only [Option.some.injEq] at h; subst h
    exact hI.managerStep (.stored .manager .jobInProgress) (by simp [hm]) rfl rfl rfl
      (Or.inl ⟨rfl, rfl⟩) (Or.inl ⟨hpc2 (by simp [hm]), by simp, by simp⟩) (by simp)
      (fun t => by cases t <;> simp [Shared.pcOf])
  | e1Go =>
    rw [hm] at h; simp only [Option.some.injEq] at h; subst h
    exact hI.managerStep (.started .exec1) (by simp [hm]) rfl rfl rfl
      (Or.inr ⟨rfl, rfl⟩) (Or.inl ⟨hpc2 (by simp [hm]), by simp, by simp⟩) (by simp)
      (fun t => by cases t <;> simp [Shared.pcOf])
  | e2Cancel =>
    rw [hm] at h
    cases hc : s.cancelFn with
    | none =>
      rw [hc] at h; simp only [Option.some.injEq] at h; subst h
      exact hI.managerStep (.cancelCall none) (by simp [hm]) rfl rfl rfl
        (Or.inr ⟨rfl, rfl⟩) (Or.inl ⟨hpc2 (by simp [hm]), by simp, by simp⟩)
        (fun _ => Or.inr ⟨_, rfl⟩) (fun t => by cases t <;> simp [Shared.pcOf])
    | some t =>
      rw [hc] at h
      cases t with
      | manager => simp at h
      | exec1 =>
        simp only [Option.some.injEq] at h; subst h
        exact hI.managerStep (.cancelCall (some .exec1)) (by simp [hm]) rfl rfl rfl
          (Or.inr ⟨rfl, rfl⟩) (Or.inl ⟨hpc2 (by simp [hm]), by simp, by simp⟩)
          (fun _ => Or.inr ⟨_, rfl⟩) (fun t => by cases t <;> simp [Shared.pcOf])
      | exec2 =>
        simp only [Option.some.injEq] at h; subst h
        exact hI.managerStep (.cancelCall (some .exec2)) (by simp [hm]) rfl rfl rfl
          (Or.inr ⟨rfl, rfl⟩) (Or.inl ⟨hpc2 (by simp [hm]), by simp, by simp⟩)
          (fun _ => Or.inr ⟨_, rfl⟩) (fun t => by cases t <;> simp [Shared.pcOf])
  | e2Store =>
    rw [hm] at h; simp only [Option.some.injEq] at h; subst h
    exact hI.managerStep (.stored .manager .jobInProgress) (by simp [hm]) rfl rfl rfl
      (Or.inl ⟨rfl, rfl⟩) (Or.inl ⟨hpc2 (by simp [hm]), by simp, by simp⟩)
      (fun _ => Or.inl (Or.inl hm)) (fun t => by cases t <;> simp [Shared.pcOf])
  | e2Go =>
    rw [hm] at h; simp only [Option.some.injEq] at h; subst h
    exact hI.managerStep (.started .exec2) (by simp [hm]) rfl rfl rfl
      (Or.inr ⟨rfl, rfl⟩) (Or.inr ⟨rfl, rfl, hm⟩) (fun _ => Or.inl (Or.inr (Or.inl hm)))
      (fun t => by cases t <;> simp [Shared.pcOf])
  | idle => rw [hm] at h; simp at h

theorem Inv.stepExec {s s2 : Shared} (hI : Inv s) (t : Thread) (h : s.stepExec t = some s2) :
    Inv s2 := by
  unfold Shared.stepExec at h
  cases hpc : s.pcOf t with
  | none => rw [hpc] at h; simp at h
  | some pc =>
    have hstarted : s.pcOf t ≠ none := by rw [hpc]; simp
    have htm : t ≠ .manager := by
      intro ht; subst ht; simp [Shared.pcOf] at hpc
    rw [hpc] at h
    cases pc with
    | start =>
      simp only [Option.some.injEq] at h; subst h
      exact (hI.setCancelFn (some t)).setPc t .attempt (by cases t <;> exact hstarted)
        (by simp) (by simp) (by simp) (by simp)
    | attempt => simp at h
    | sleep => simp at h
    | readCtxErr =>
      dsimp only at h
      split at h
      · simp only [Option.some.injEq] at h; subst h
        exact hI.setPc t .storeCancelled hstarted (by simp) (by simp) (by simp) (by simp)
      · split at h
        · next ha =>
          simp only [Option.some.injEq] at h; subst h
          exact hI.setPc t .storeCreated hstarted (fun _ => ha) (by simp) (by simp) (by simp)
        · next ha =>
          simp only [Option.some.injEq] at h; subst h
          exact hI.setPc t .loadStatus hstarted (by simp) (by simp) (fun _ => ha) (by simp)
    | storeCancelled =>
      simp only [Option.some.injEq] at h; subst h
      exact (hI.store t .jobCancelled htm (Or.inl rfl)).setPc t .deferred
        (by cases t <;> exact hstarted) (by simp) (by simp) (by simp)
        (fun _ _ => Or.inr (by simp [Shared.store]))
    | storeCreated =>
      simp only [Option.some.injEq] at h; subst h
      exact (hI.store t .tenantCreated htm
        (Or.inr (Or.inr (Or.inl ⟨rfl, hI.pc_created t hpc⟩)))).setPc t .deferred
        (by cases t <;> exact hstarted) (by simp) (by simp) (by simp)
        (fun _ _ => Or.inr (by simp [Shared.store]))
    | loadStatus =>
      dsimp only at h
      split at h
      · next hne =>
        simp only [Option.some.injEq] at h; subst h
        exact hI.setPc t .storeDeleted hstarted (by simp) (fun _ => hI.pc_load t hpc)
          (by simp) (by simp)
      · next heq =>
        simp only [Option.some.injEq] at h; subst h
        refine hI.setPc t .deferred hstarted (by simp) (by simp) (by simp) (fun _ _ => Or.inr ?_)
        simp at heq
        simp [heq]
    | storeDeleted =>
      simp only [Option.some.injEq] at h; subst h
      exact (hI.store t .tenantDeleted htm
        (Or.inr (Or.inr (Or.inr ⟨rfl, hI.pc_deleted t hpc⟩)))).setPc t .deferred
        (by cases t <;> exact hstarted) (by simp) (by simp) (by simp)
        (fun _ _ => Or.inr (by simp [Shared.store]))
    | deferred =>
      simp only [Option.some.injEq] at h; subst h
      refine (hI.cancelCtx t).setPc t .done (by cases t <;> exact hstarted) (by simp) (by simp)
        (by simp)
        (fun ht _ => Or.inl (Or.inl ?_))
      subst ht
      simpa [Shared.pcOf, Shared.cancelCtx] using hpc
    | done => simp at h

theorem Inv.stepAttempt {s s2 : Shared} (hI : Inv s) (t : Thread) (reply : AttemptReply)
    (h : s.stepAttempt t reply = some s2) : Inv s2 := by
  unfold Shared.stepAttempt at h
  cases hpc : s.pcOf t with
  | none => rw [hpc] at h; simp at h
  | some pc =>
    have hstarted : s.pcOf t ≠ none := by rw [hpc]; simp
    have htm : t ≠ .manager := by
      intro ht; subst ht; simp [Shared.pcOf] at hpc
    rw [hpc] at h
    cases pc <;> try (simp at h; done)
    dsimp only at h
    cases ha : s.actionOf t with
    | InitializeTenant =>
      rw [ha] at h
      dsimp only at h
      have hnm := initializeTenant_not_mismatch s.job (jobCtx s.job) reply
      cases he : (initializeTenant s.job (jobCtx s.job) reply).err with
      | none =>
        rw [he] at h
        simp only [Option.some.injEq] at h; subst h
        exact hI.setPc t .readCtxErr hstarted (by simp) (by simp) (by simp) (by simp)
      | some e =>
        rw [he] at h hnm
        simp only [errorsAsIDsDoNotMatch] at hnm
        simp only [hnm, Bool.false_eq_true, if_false, Option.some.injEq] at h
        subst h
        exact hI.setPc t .sleep hstarted (by simp) (by simp) (by simp) (by simp)
    | CleanupTenant =>
      rw [ha] at h
      dsimp only at h
      cases he : (cleanupTenant s.job (jobCtx s.job) reply).err with
      | none =>
        rw [he] at h
        simp only [Option.some.injEq] at h; subst h
        exact hI.setPc t .readCtxErr hstarted (by simp) (by simp) (by simp) (by simp)
      | some e =>
        rw [he] at h
        dsimp only at h
        split at h
        · simp only [Option.some.injEq] at h; subst h
          exact (hI.store t .tenantIDsNotMatch htm (Or.inr (Or.inl ⟨rfl, ha⟩))).setPc t
            .readCtxErr (by cases t <;> exact hstarted) (by simp) (by simp) (by simp) (by simp)
        · simp only [Option.some.injEq] at h; subst h
          exact hI.setPc t .sleep hstarted (by simp) (by simp) (by simp) (by simp)

theorem Inv.stepWake {s s2 : Shared} (hI : Inv s) (t : Thread) (w : Wake)
    (h : s.stepWake t w = some s2) : Inv s2 := by
  unfold Shared.stepWake at h
  cases hpc : s.pcOf t with
  | none => rw [hpc] at h; simp at h
  | some pc =>
    have hstarted : s.pcOf t ≠ none := by rw [hpc]; simp
    rw [hpc] at h
    cases pc <;> try (simp at h; done)
    dsimp only at h
    cases w with
    | timer =>
      simp only [Option.some.injEq] at h; subst h
      exact hI.setPc t .attempt hstarted (by simp) (by simp) (by simp) (by simp)
    | done e =>
      cases e with
      | deadlineExceeded => simp at h
      | canceled =>
        dsimp only at h
        split at h
        · split at h <;>
          · simp only [Option.some.injEq] at h; subst h
            first
              | exact hI.setPc t .readCtxErr hstarted (by simp) (by simp) (by simp) (by simp)
              | exact hI.setPc t .attempt hstarted (by simp) (by simp) (by simp) (by simp)
        · simp at h

theorem Inv.step {s s2 : Shared} (hI : Inv s) (d : Sched) (h : s.step d = some s2) :
    Inv s2 := by
  cases d with
  | manager => exact hI.stepManager h
  | exec t => exact hI.stepExec t h
  | attempt t reply => exact hI.stepAttempt t reply h
  | wake t w => exact hI.stepWake t w h

theorem Inv.exec (ds : List Sched) : ∀ {s s2 : Shared}, Inv s → s.exec ds = some s2 → Inv s2 := by
  induction ds with
  | nil => intro s s2 hI h; simp [Shared.exec] at h; exact h ▸ hI
  | cons d ds ih =>
    intro s s2 hI h
    unfold Shared.exec at h
    cases hs : s.step d with
    | none => rw [hs] at h; simp at h
    | some s1 =>
      rw [hs] at h
      exact ih (hI.step d hs) h

/-! ## Theorems: supersession -/

/-- Counterexample to **C7**. `E1` is an `InitializeTenant` event and `E2` a `CleanupTenant`
event for the project `foo`. In both schedules the status of the job is `jobInProgress`
when the manager turns to `E2`. In the first schedule `job.cancel()` finds `j.cancelFn`
still nil, so the cancel function of the execution of `E1` is not invoked before the
execution of `E2` starts, and the last status stored is `tenantCreated`, by the execution
of `E1`. In the second schedule the cancel function is invoked, and the last status stored
is `jobCancelled`, again by the execution of `E1`. -/
theorem supersession_counterexample :
    ((Shared.init projectFoo testConfigJob testConfigEndpoints .InitializeTenant
        .CleanupTenant).exec (scheduleLateStart.take 2)).map
        (fun s => (s.mgr, s.job.status)) = some (.e2Cancel, .jobInProgress) ∧
    ((Shared.init projectFoo testConfigJob testConfigEndpoints .InitializeTenant
        .CleanupTenant).exec scheduleLateStart).map
        (fun s => (s.finished, s.job.status, s.history)) =
      some (true, .tenantCreated,
        [.stored .manager .jobInProgress, .started .exec1, .cancelCall none,
         .stored .manager .jobInProgress, .started .exec2,
         .stored .exec2 .tenantDeleted, .stored .exec1 .tenantCreated]) ∧
    ((Shared.init projectFoo testConfigJob testConfigEndpoints .InitializeTenant
        .CleanupTenant).exec (scheduleLateWake.take 4)).map
        (fun s => (s.mgr, s.job.status)) = some (.e2Cancel, .jobInProgress) ∧
    ((Shared.init projectFoo testConfigJob testConfigEndpoints .InitializeTenant
        .CleanupTenant).exec scheduleLateWake).map
        (fun s => (s.finished, s.job.status, s.history)) =
      some (true, .jobCancelled,
        [.stored .manager .jobInProgress, .started .exec1, .cancelCall (some .exec1),
         .stored .manager .jobInProgress, .started .exec2,
         .stored .exec2 .tenantDeleted, .stored .exec1 .jobCancelled]) := by
  refine ⟨?_, ?_, ?_, ?_⟩ <;> decide

/-- **C7, amended.** `E2` arrives for the identity of the job that `E1` started. Under every
interleaving of the manager thread and the two background executions, the manager has
called `job.cancel()` before it starts the execution of `E2`; and once both executions have
returned, the status of the job is the one stored last, by one of the two executions:
`jobCancelled`, or the terminal status of the action of that execution, or, for a cleanup,
`tenantIDsNotMatch`. -/
theorem supersession_every_interleaving (project : Project) (jCfg : config.Job)
    (endpoints : config.Endpoints) (a1 a2 : Action) (sched : List Sched) (s : Shared)
    (hexec : (Shared.init project jCfg endpoints a1 a2).exec sched = some s) :
    cancelBeforeStart s.history ∧
    (s.finished = true →
      ∃ t st, lastStore s.history = some (t, st) ∧ t ≠ .manager ∧ s.job.status = st ∧
        outcome (s.actionOf t) st) := by
  have hI : Inv s := Inv.exec sched (Inv.init project jCfg endpoints a1 a2) hexec
  refine ⟨hI.order, fun hfin => ?_⟩
  have hpc2 : s.pc2 = some .done := by
    simp only [Shared.finished, Bool.and_eq_true, beq_iff_eq] at hfin
    exact hfin.2
  obtain ⟨t, st, hl, ht⟩ := hI.exec2_stored (Or.inr hpc2)
  refine ⟨t, st, hl, ht, ?_, ?_⟩
  · have := hI.status_last
    rw [hl] at this
    simpa using this
  · rcases hI.stores t st (lastStore_mem _ _ _ hl) with ⟨h, _⟩ | ⟨_, h⟩
    · exact absurd h ht
    · exact h

/-- The schedule in which the execution of `E1` wakes up late. -/
theorem supersession_every_interleaving_witness :
    ∃ s, (Shared.init projectFoo testConfigJob testConfigEndpoints .InitializeTenant
        .CleanupTenant).exec scheduleLateWake = some s ∧
      cancelBeforeStart s.history ∧
      ∃ t st, lastStore s.history = some (t, st) ∧ t ≠ .manager ∧ s.job.status = st ∧
        outcome (s.actionOf t) st :=
  have hsome : ((Shared.init projectFoo testConfigJob testConfigEndpoints .InitializeTenant
      .CleanupTenant).exec scheduleLateWake).map (fun s => s.finished) = some true := by
    decide
  match hs : (Shared.init projectFoo testConfigJob testConfigEndpoints .InitializeTenant
      .CleanupTenant).exec scheduleLateWake with
  | none => by rw [hs] at hsome; simp at hsome
  | some s =>
    have hfin : s.finished = true := by rw [hs] at hsome; simpa using hsome
    ⟨s, rfl,
      (supersession_every_interleaving projectFoo testConfigJob testConfigEndpoints
        .InitializeTenant .CleanupTenant scheduleLateWake s hs).1,
      (supersession_every_interleaving projectFoo testConfigJob testConfigEndpoints
        .InitializeTenant .CleanupTenant scheduleLateWake s hs).2 hfin⟩

/-! ## Theorems: creating, updating and deleting the watcher -/

theorem checkWatcher_of_owned (ctx : Ctx) (w : Watcher) (reply : StoreReply)
    (tenantID : String) (hctx : ctx.tenantID = some tenantID)
    (hown : watcherOwned reply w tenantID) :
    checkWatcher ctx (some w) reply = { err := none, calls := [.GetParent], watcher := some w } := by
  obtain ⟨_, hl, parent, hp, hu⟩ := hown
  unfold parentLookupFailed at hl
  unfold checkWatcher
  simp [hctx, hl, hp, hu]

/-- **C11, as the spec words it, fails.** The watcher of `foo` exists and the store names
`bar` as its parent, while the job runs for the tenant `foo`: `DeleteWatcher` does not
return nil. It returns an `IDsDoNotMatchError`. -/
theorem DeleteWatcher_mismatch_not_success :
    (DeleteWatcher { tenantID := some "foo" } (some projectFoo) replyWatcherOfBar).err ≠ none ∧
    errorsAsIDsDoNotMatch
      (DeleteWatcher { tenantID := some "foo" } (some projectFoo) replyWatcherOfBar).err = true := by
  decide

/-- **C11, amended.** When the watcher exists and the parent the store returns for it is
absent or has a UID other than the tenant ID of the context, `DeleteWatcher` returns an
`IDsDoNotMatchError` and issues only the two reads to the store: it does not delete the
watcher resource. -/
theorem DeleteWatcher_mismatch_returns_error (ctx : Ctx) (project : Project) (w : Watcher)
    (tenantID : String) (reply : StoreReply)
    (hctx : ctx.tenantID = some tenantID)
    (hget : reply.GetActiveWatchers = (some w, none))
    (hlookup : parentLookupFailed reply = false) (hmis : parentMismatch reply tenantID) :
    errorsAsIDsDoNotMatch (DeleteWatcher ctx (some project) reply).err = true ∧
    (DeleteWatcher ctx (some project) reply).calls =
      [.GetActiveWatchers project.UID AppName, .GetParent] ∧
    (DeleteWatcher ctx (some project) reply).watcher = some w := by
  obtain ⟨e, he, hm, hcalls⟩ := checkWatcher_of_mismatch ctx w reply tenantID hctx hlookup hmis
  simp [DeleteWatcher, hget, IsChildNotFound, IsNotFound, he, hm, hcalls, errorsAsIDsDoNotMatch]

/-- Deleting the watcher of `foo` when the store names `bar` as its parent. -/
theorem DeleteWatcher_mismatch_returns_error_witness :
    errorsAsIDsDoNotMatch
      (DeleteWatcher { tenantID := some "foo" } (some projectFoo) replyWatcherOfBar).err = true ∧
    (DeleteWatcher { tenantID := some "foo" } (some projectFoo) replyWatcherOfBar).calls =
      [.GetActiveWatchers "foo" AppName, .GetParent] :=
  have h := DeleteWatcher_mismatch_returns_error { tenantID := some "foo" } projectFoo idleWatcher
    "foo" replyWatcherOfBar rfl rfl (by decide) (Or.inr ⟨projectBar, rfl, by decide⟩)
  ⟨h.1, h.2.1⟩

theorem checkWatcher_parent_notFound (ctx : Ctx) (watcher : Option Watcher) (reply : StoreReply)
    (parent : Option Project) (e : ExtError) (he : e = .notFound ∨ e = .childNotFound) :
    checkWatcher ctx watcher { reply with GetParent := (parent, some e) } =
      checkWatcher ctx watcher { reply with GetParent := (parent, none) } := by
  rcases he with rfl | rfl <;>
    simp [checkWatcher, IsChildNotFound, IsNotFound]

/-- **C12, as the spec words it, fails.** Three operations that return an error on such a
response: `CreateUpdateWatcher` when the create call answers already-exists,
`CreateUpdateWatcher` when the update call answers not-found, and `DeleteWatcher` when the
get-parent call answers not-found. -/
theorem watcher_store_response_is_error :
    (CreateUpdateWatcher { tenantID := some "foo" } (some projectFoo)
      .StatusIndicationInProgress "Creating tenant" replyCreateExists).err ≠ none ∧
    (CreateUpdateWatcher { tenantID := some "foo" } (some projectFoo)
      .StatusIndicationInProgress "Creating tenant" replyUpdateNotFound).err ≠ none ∧
    (DeleteWatcher { tenantID := some "foo" } (some projectFoo) replyParentNotFound).err ≠ none := by
  decide

/-- **C12, amended.** A not-found (or child-not-found) response is a normal outcome of the
get, delete and get-parent calls. At get, `CreateUpdateWatcher` goes on to create the
watcher and returns what the creation returns, and `DeleteWatcher` returns nil. At delete,
`DeleteWatcher` returns nil. At get-parent, both operations behave as if the call had
returned the same parent without an error. An error of the create call or of the update
call, whatever its kind, is returned as an error. -/
theorem watcher_store_notFound_handling (ctx : Ctx) (project : Project)
    (status : ActiveWatcherStatus) (message : String) (reply : StoreReply) :
    (watcherAbsent reply = true →
      (CreateUpdateWatcher ctx (some project) status message reply).err =
        (createWatcher (some project) status message reply).err ∧
      (DeleteWatcher ctx (some project) reply).err = none) ∧
    (∀ w tenantID, ctx.tenantID = some tenantID → watcherOwned reply w tenantID →
      (IsNotFound reply.DeleteActiveWatchers = true ∨
        IsChildNotFound reply.DeleteActiveWatchers = true) →
      (DeleteWatcher ctx (some project) reply).err = none) ∧
    (∀ parent e, e = .notFound ∨ e = .childNotFound →
      CreateUpdateWatcher ctx (some project) status message
          { reply with GetParent := (parent, some e) } =
        CreateUpdateWatcher ctx (some project) status message
          { reply with GetParent := (parent, none) } ∧
      DeleteWatcher ctx (some project) { reply with GetParent := (parent, some e) } =
        DeleteWatcher ctx (some project) { reply with GetParent := (parent, none) }) ∧
    (∀ e, watcherAbsent reply = true → reply.AddActiveWatchers = some e →
      (CreateUpdateWatcher ctx (some project) status message reply).err ≠ none) ∧
    (∀ e w tenantID, ctx.tenantID = some tenantID → watcherOwned reply w tenantID →
      reply.Update = some e →
      (CreateUpdateWatcher ctx (some project) status message reply).err ≠ none) := by
  refine ⟨?_, ?_, ?_, ?_, ?_⟩
  · intro h
    unfold watcherAbsent at h
    have h2 : (IsChildNotFound reply.GetActiveWatchers.2 ||
        IsNotFound reply.GetActiveWatchers.2) = true := by
      rw [Bool.or_comm]; exact h
    have h3 : (reply.GetActiveWatchers.2.isSome && !IsChildNotFound reply.GetActiveWatchers.2 &&
        !IsNotFound reply.GetActiveWatchers.2) = false := by
      revert h
      cases reply.GetActiveWatchers.2 with
      | none => simp [IsNotFound, IsChildNotFound]
      | some e => cases e <;> simp [IsNotFound, IsChildNotFound]
    constructor
    · simp only [CreateUpdateWatcher, h3, h2, Bool.false_eq_true, if_false, if_true]
    · simp only [DeleteWatcher, h3, h, Bool.false_eq_true, if_false, if_true]
  · intro w tenantID hctx hown hdel
    have hc := checkWatcher_of_owned ctx w reply tenantID hctx hown
    have hd : (IsNotFound reply.DeleteActiveWatchers ||
        IsChildNotFound reply.DeleteActiveWatchers) = true := by
      simpa using hdel
    simp [DeleteWatcher, hown.1, IsChildNotFound, IsNotFound, hc] at hd ⊢
    simp [hd]
  · intro parent e he
    have hc := fun watcher => checkWatcher_parent_notFound ctx watcher reply parent e he
    constructor
    · simp only [CreateUpdateWatcher, updateWatcher, createWatcher, hc]
    · simp only [DeleteWatcher, hc]
  · intro e h hadd
    unfold watcherAbsent at h
    have h2 : (IsChildNotFound reply.GetActiveWatchers.2 ||
        IsNotFound reply.GetActiveWatchers.2) = true := by
      rw [Bool.or_comm]; exact h
    have h3 : (reply.GetActiveWatchers.2.isSome && !IsChildNotFound reply.GetActiveWatchers.2 &&
        !IsNotFound reply.GetActiveWatchers.2) = false := by
      revert h
      cases reply.GetActiveWatchers.2 with
      | none => simp [IsNotFound, IsChildNotFound]
      | some e => cases e <;> simp [IsNotFound, IsChildNotFound]
    simp [CreateUpdateWatcher, h3, h2, createWatcher, hadd]
  · intro e w tenantID hctx hown hupd
    have hc := checkWatcher_of_owned ctx w reply tenantID hctx hown
    simp [CreateUpdateWatcher, hown.1, IsChildNotFound, IsNotFound, updateWatcher, hc, hupd]

/-- The delete call answers not-found for the watcher of `foo`: `DeleteWatcher` returns
nil. -/
theorem watcher_store_notFound_handling_witness :
    (DeleteWatcher { tenantID := some "foo" } (some projectFoo) replyDeleteNotFound).err = none :=
  (watcher_store_notFound_handling { tenantID := some "foo" } projectFoo
    .StatusIndicationIdle "" replyDeleteNotFound).2.1 idleWatcher "foo" rfl
    ⟨rfl, by decide, projectFoo, rfl, rfl⟩ (Or.inl rfl)

theorem watcherAbsent_branch (reply : StoreReply) (h : watcherAbsent reply = true) :
    watcherLookupFailed reply = false ∧
    (IsChildNotFound reply.GetActiveWatchers.2 || IsNotFound reply.GetActiveWatchers.2) = true := by
  unfold watcherAbsent at h
  unfold watcherLookupFailed
  revert h
  cases reply.GetActiveWatchers.2 with
  | none => simp [IsNotFound, IsChildNotFound]
  | some e => cases e <;> simp [IsNotFound, IsChildNotFound]

/-- **C13.** `CreateUpdateWatcher` returns an error for a nil project and calls nothing.
For a project whose watcher the lookup reports as absent, it issues the lookup and one
create call that carries the given status and message and the time of the call, and
returns nil exactly when the create call succeeded. For a project whose watcher exists and
belongs to the tenant of the context, it sets status, message and timestamp of the watcher,
issues the lookup, the parent lookup and one update call with that spec, and returns nil
exactly when the update call succeeded. -/
theorem CreateUpdateWatcher_creates_or_updates (ctx : Ctx) (status : ActiveWatcherStatus)
    (message : String) (reply : StoreReply) :
    ((CreateUpdateWatcher ctx none status message reply).err ≠ none ∧
      (CreateUpdateWatcher ctx none status message reply).calls = []) ∧
    (∀ project : Project, watcherAbsent reply = true →
      (CreateUpdateWatcher ctx (some project) status message reply).calls =
        [.GetActiveWatchers project.UID AppName,
         .AddActiveWatchers project.UID AppName (specOf status message reply)] ∧
      ((CreateUpdateWatcher ctx (some project) status message reply).err = none ↔
        reply.AddActiveWatchers = none)) ∧
    (∀ (project : Project) (w : Watcher) (tenantID : String), ctx.tenantID = some tenantID →
      watcherOwned reply w tenantID →
      (CreateUpdateWatcher ctx (some project) status message reply).calls =
        [.GetActiveWatchers project.UID AppName, .GetParent,
         .Update (specOf status message reply)] ∧
      (CreateUpdateWatcher ctx (some project) status message reply).watcher =
        some { w with Spec := specOf status message reply } ∧
      ((CreateUpdateWatcher ctx (some project) status message reply).err = none ↔
        reply.Update = none)) := by
  refine ⟨?_, ?_, ?_⟩
  · simp [CreateUpdateWatcher]
  · intro project h
    obtain ⟨h3, h2⟩ := watcherAbsent_branch reply h
    unfold watcherLookupFailed at h3
    simp only [CreateUpdateWatcher, h3, h2, Bool.false_eq_true, if_false, if_true, createWatcher,
      specOf]
    cases reply.AddActiveWatchers <;> simp
  · intro project w tenantID hctx hown
    have hc := checkWatcher_of_owned ctx w reply tenantID hctx hown
    simp only [CreateUpdateWatcher, hown.1, IsChildNotFound, IsNotFound, updateWatcher, hc, specOf]
    cases reply.Update <;> simp

/-- The cases `Valid project` of `TestUpdateCreation`, for a project without a watcher and
for a project with one. -/
theorem CreateUpdateWatcher_creates_or_updates_witness :
    (CreateUpdateWatcher { tenantID := some "foo" } (some projectFoo)
      .StatusIndicationInProgress "Creating tenant" replyWatcherAbsent).calls =
      [.GetActiveWatchers "foo" AppName,
       .AddActiveWatchers "foo" AppName
         { StatusIndicator := .StatusIndicationInProgress, Message := "Creating tenant",
           TimeStamp := 1700000000 }] ∧
    (CreateUpdateWatcher { tenantID := some "foo" } (some projectFoo)
      .StatusIndicationInProgress "Creating tenant" replyWatcherOfFoo).watcher =
      some { Spec := { StatusIndicator := .StatusIndicationInProgress,
                       Message := "Creating tenant", TimeStamp := 1700000000 } } :=
  have h := CreateUpdateWatcher_creates_or_updates { tenantID := some "foo" }
    .StatusIndicationInProgress "Creating tenant"
  ⟨((h replyWatcherAbsent).2.1 projectFoo (by decide)).1,
   ((h replyWatcherOfFoo).2.2 projectFoo idleWatcher "foo" rfl
     ⟨rfl, by decide, projectFoo, rfl, rfl⟩).2.1⟩

/-- **C14.** `DeleteWatcher` returns an error for a nil project and calls nothing. For a
project whose watcher the lookup reports as absent it returns nil after the lookup alone,
without a delete call. For a watcher that exists and belongs to the tenant of the context
it issues the lookup, the parent lookup and one delete call, and returns nil exactly when
the delete call succeeded or answered not-found. A lookup, and a parent lookup, that fails
with anything other than not-found makes it return an error, and no delete call is
issued. -/
theorem DeleteWatcher_absent_is_success (ctx : Ctx) (reply : StoreReply) :
    ((DeleteWatcher ctx none reply).err ≠ none ∧ (DeleteWatcher ctx none reply).calls = []) ∧
    (∀ project : Project, watcherAbsent reply = true →
      (DeleteWatcher ctx (some project) reply).err = none ∧
      (DeleteWatcher ctx (some project) reply).calls =
        [.GetActiveWatchers project.UID AppName]) ∧
    (∀ (project : Project) (w : Watcher) (tenantID : String), ctx.tenantID = some tenantID →
      watcherOwned reply w tenantID →
      (DeleteWatcher ctx (some project) reply).calls =
        [.GetActiveWatchers project.UID AppName, .GetParent,
         .DeleteActiveWatchers project.UID AppName] ∧
      ((DeleteWatcher ctx (some project) reply).err = none ↔
        (reply.DeleteActiveWatchers = none ∨ IsNotFound reply.DeleteActiveWatchers = true ∨
          IsChildNotFound reply.DeleteActiveWatchers = true))) ∧
    (∀ project : Project, watcherLookupFailed reply = true →
      (DeleteWatcher ctx (some project) reply).err ≠ none ∧
      (DeleteWatcher ctx (some project) reply).calls =
        [.GetActiveWatchers project.UID AppName]) ∧
    (∀ (project : Project) (w : Watcher), reply.GetActiveWatchers = (some w, none) →
      ctx.tenantID ≠ none → parentLookupFailed reply = true →
      (DeleteWatcher ctx (some project) reply).err ≠ none ∧
      (DeleteWatcher ctx (some project) reply).calls =
        [.GetActiveWatchers project.UID AppName, .GetParent]) := by
  refine ⟨?_, ?_, ?_, ?_, ?_⟩
  · simp [DeleteWatcher]
  · intro project h
    obtain ⟨h3, _⟩ := watcherAbsent_branch reply h
    unfold watcherLookupFailed at h3
    unfold watcherAbsent at h
    simp only [DeleteWatcher, h3, h, Bool.false_eq_true, if_false, if_true, and_self]
  · intro project w tenantID hctx hown
    have hc := checkWatcher_of_owned ctx w reply tenantID hctx hown
    simp only [DeleteWatcher, hown.1, IsChildNotFound, IsNotFound, hc]
    cases hd : reply.DeleteActiveWatchers with
    | none => simp [wrapExt]
    | some e => cases e <;> simp [wrapExt]
  · intro project h
    unfold watcherLookupFailed at h
    simp only [DeleteWatcher, h, if_true]
    revert h
    cases reply.GetActiveWatchers.2 <;> simp [wrapExt]
  · intro project w hget hctx hl
    obtain ⟨t, ht⟩ := Option.ne_none_iff_exists'.mp hctx
    unfold parentLookupFailed at hl
    have hc : checkWatcher ctx (some w) reply =
        { err := some (.new ("failed to get watcher parent for tenant " ++ quoted t)),
          calls := [.GetParent], watcher := some w } := by
      simp only [checkWatcher, ht, hl, if_true]
    simp [DeleteWatcher, hget, IsChildNotFound, IsNotFound, hc]

/-- The case `Valid project` of `TestDeletion`, and the same deletion when the watcher has
gone by the time the delete call arrives. -/
theorem DeleteWatcher_absent_is_success_witness :
    (DeleteWatcher { tenantID := some "foo" } (some projectFoo) replyWatcherOfFoo).err = none ∧
    (DeleteWatcher { tenantID := some "foo" } (some projectFoo) replyDeleteNotFound).err = none ∧
    (DeleteWatcher { tenantID := some "foo" } (some projectFoo) replyWatcherAbsent).calls =
      [.GetActiveWatchers "foo" AppName] :=
  have h := DeleteWatcher_absent_is_success { tenantID := some "foo" }
  ⟨((h replyWatcherOfFoo).2.2.1 projectFoo idleWatcher "foo" rfl
      ⟨rfl, by decide, projectFoo, rfl, rfl⟩).2.mpr (Or.inl rfl),
   ((h replyDeleteNotFound).2.2.1 projectFoo idleWatcher "foo" rfl
      ⟨rfl, by decide, projectFoo, rfl, rfl⟩).2.mpr (Or.inr (Or.inl rfl)),
   ((h replyWatcherAbsent).2.1 projectFoo (by decide)).2⟩

/-! ## Theorems: the backends -/

/-- **C15.** With a tenant ID in the context, `InitializeTenant` of the alerting monitor and
of the sre-exporter return nil exactly when the RPC returned no error or an error of code
`AlreadyExists`, and `CleanupTenant` of both return nil exactly when the RPC returned no
error or an error of code `NotFound`. Every other error `e` of the RPC is returned to the
caller, wrapped. -/
theorem rpc_backend_idempotent_codes (ctx : Ctx) (tenantID : String) (rpc : Option ExtError)
    (hctx : ctx.tenantID = some tenantID) :
    (((alertingmonitor.InitializeTenant ctx rpc).err = none ↔
        rpc = none ∨ status.Code rpc = codes.AlreadyExists) ∧
      ((sre.InitializeTenant ctx rpc).err = none ↔
        rpc = none ∨ status.Code rpc = codes.AlreadyExists) ∧
      ((alertingmonitor.CleanupTenant ctx rpc).err = none ↔
        rpc = none ∨ status.Code rpc = codes.NotFound) ∧
      ((sre.CleanupTenant ctx rpc).err = none ↔
        rpc = none ∨ status.Code rpc = codes.NotFound)) ∧
    (∀ e, rpc = some e → status.Code rpc ≠ codes.AlreadyExists →
      (∃ msg, (alertingmonitor.InitializeTenant ctx rpc).err = some (.wrap msg (.ext e))) ∧
      (∃ msg, (sre.InitializeTenant ctx rpc).err = some (.wrap msg (.ext e)))) ∧
    (∀ e, rpc = some e → status.Code rpc ≠ codes.NotFound →
      (∃ msg, (alertingmonitor.CleanupTenant ctx rpc).err = some (.wrap msg (.ext e))) ∧
      (∃ msg, (sre.CleanupTenant ctx rpc).err = some (.wrap msg (.ext e)))) := by
  refine ⟨⟨?_, ?_, ?_, ?_⟩, ?_, ?_⟩
  · unfold alertingmonitor.InitializeTenant
    simp only [hctx]
    by_cases hc : status.Code rpc = codes.AlreadyExists
    · simp [hc]
    · cases rpc <;> simp [hc, wrapExt]
  · unfold sre.InitializeTenant
    simp only [hctx]
    by_cases hc : status.Code rpc = codes.AlreadyExists
    · simp [hc]
    · cases rpc <;> simp [hc, wrapExt]
  · unfold alertingmonitor.CleanupTenant
    simp only [hctx]
    by_cases hc : status.Code rpc = codes.NotFound
    · simp [hc]
    · cases rpc <;> simp [hc, wrapExt]
  · unfold sre.CleanupTenant
    simp only [hctx]
    by_cases hc : status.Code rpc = codes.NotFound
    · simp [hc]
    · cases rpc <;> simp [hc, wrapExt]
  · intro e he hc
    subst he
    simp [alertingmonitor.InitializeTenant, sre.InitializeTenant, hctx, hc, wrapExt]
  · intro e he hc
    subst he
    simp [alertingmonitor.CleanupTenant, sre.CleanupTenant, hctx, hc, wrapExt]

/-- The alerting monitor answers `AlreadyExists` to the initialization of `foo`, and the
sre-exporter answers `NotFound` to its cleanup. -/
theorem rpc_backend_idempotent_codes_witness :
    (alertingmonitor.InitializeTenant { tenantID := some "foo" } (some (.grpc 6))).err = none ∧
    (sre.CleanupTenant { tenantID := some "foo" } (some (.grpc 5))).err = none :=
  ⟨(rpc_backend_idempotent_codes { tenantID := some "foo" } "foo" (some (.grpc 6)) rfl).1.1.mpr
     (Or.inr rfl),
   (rpc_backend_idempotent_codes { tenantID := some "foo" } "foo" (some (.grpc 5)) rfl).1.2.2.2.mpr
     (Or.inr rfl)⟩

/-- **C16.** When the context carries no tenant ID, each of the six backend actions returns
an error and sends nothing to its backend: no RPC for `InitializeTenant` and `CleanupTenant`
of the alerting monitor and of the sre-exporter, no HTTP request (and no sleep) for
`loki.CleanupTenant` and `mimir.CleanupTenant`. -/
theorem backend_requires_tenantID (ctx : Ctx) (hctx : ctx.tenantID = none)
    (rpc : Option ExtError) (lokiCfg : config.Loki) (lokiReply : loki.CleanupReply)
    (mimirCfg : config.Mimir) (mimirReply : mimir.CleanupReply) (fuel : Nat) :
    ((alertingmonitor.InitializeTenant ctx rpc).err ≠ none ∧
      (alertingmonitor.InitializeTenant ctx rpc).requests = []) ∧
    ((alertingmonitor.CleanupTenant ctx rpc).err ≠ none ∧
      (alertingmonitor.CleanupTenant ctx rpc).requests = []) ∧
    ((sre.InitializeTenant ctx rpc).err ≠ none ∧ (sre.InitializeTenant ctx rpc).requests = []) ∧
    ((sre.CleanupTenant ctx rpc).err ≠ none ∧ (sre.CleanupTenant ctx rpc).requests = []) ∧
    ((∃ e, (loki.CleanupTenant ctx lokiCfg lokiReply fuel).returned = some (some e)) ∧
      (loki.CleanupTenant ctx lokiCfg lokiReply fuel).requests = [] ∧
      (loki.CleanupTenant ctx lokiCfg lokiReply fuel).sleeps = []) ∧
    ((∃ e, (mimir.CleanupTenant ctx mimirCfg mimirReply fuel).returned = some (some e)) ∧
      (mimir.CleanupTenant ctx mimirCfg mimirReply fuel).requests = [] ∧
      (mimir.CleanupTenant ctx mimirCfg mimirReply fuel).sleeps = []) := by
  simp [alertingmonitor.InitializeTenant, alertingmonitor.CleanupTenant, sre.InitializeTenant,
    sre.CleanupTenant, loki.CleanupTenant, mimir.CleanupTenant, hctx]

/-- The case `No tenant in context` of `TestCleanup` for the log store, against a store
that would accept every request. -/
theorem backend_requires_tenantID_witness :
    (loki.CleanupTenant { tenantID := none } testConfigEndpoints.Loki lokiProcessedLater
      5).requests = [] ∧
    (mimir.CleanupTenant { tenantID := none } testConfigEndpoints.Mimir mimirPending
      5).requests = [] :=
  have h := backend_requires_tenantID { tenantID := none } rfl none testConfigEndpoints.Loki
    lokiProcessedLater testConfigEndpoints.Mimir mimirPending 5
  ⟨h.2.2.2.2.1.2.1, h.2.2.2.2.2.2.1⟩

/-- **C17, as the spec words it, fails.** A `GET` request is built and delivered and
answered with status 200, and `GetReq` returns an error: the response body could not be
read. -/
theorem GetReq_delivered_ok_not_success :
    httpUnreadable.Parse = none ∧ httpUnreadable.NewRequest = none ∧
    httpUnreadable.Do = none ∧ httpUnreadable.StatusCode = 200 ∧
    (GetReq "http://localhost:3100/loki/api/v1/delete" "foo" httpUnreadable).err ≠ none := by
  decide

/-- **C17, amended.** `PostReq` returns nil exactly when the request could be built
(`url.Parse` and `http.NewRequestWithContext` succeeded) and delivered (`client.Do`
succeeded) and the status code of the response is 200 or 204. `GetReq` returns nil exactly
when, in addition, the body of the response could be read; it then returns that body, and
it returns no body whenever it returns an error. -/
theorem http_request_success (urlRaw tenantID : String) (reply : HttpReply) :
    ((PostReq urlRaw tenantID reply).err = none ↔
      reply.Parse = none ∧ reply.NewRequest = none ∧ reply.Do = none ∧
        (reply.StatusCode = 200 ∨ reply.StatusCode = 204)) ∧
    ((GetReq urlRaw tenantID reply).err = none ↔
      reply.Parse = none ∧ reply.NewRequest = none ∧ reply.Do = none ∧
        (reply.StatusCode = 200 ∨ reply.StatusCode = 204) ∧ reply.ReadAll = none) ∧
    ((GetReq urlRaw tenantID reply).err = none →
      (GetReq urlRaw tenantID reply).body = some reply.Body) ∧
    ((GetReq urlRaw tenantID reply).err ≠ none → (GetReq urlRaw tenantID reply).body = none) := by
  unfold PostReq GetReq
  cases reply.Parse <;> cases reply.NewRequest <;> cases reply.Do <;> cases reply.ReadAll <;>
    by_cases h1 : reply.StatusCode = 200 <;> by_cases h2 : reply.StatusCode = 204 <;>
    simp [h1, h2, http.StatusOK, http.StatusNoContent]

/-- The flush request of the log store, answered with status 200. -/
theorem http_request_success_witness :
    (PostReq "http://localhost:3100/flush" "foo" httpOK).err = none :=
  (http_request_success "http://localhost:3100/flush" "foo" httpOK).1.mpr
    ⟨rfl, rfl, rfl, Or.inl rfl⟩

/-! ## Theorems: verifying a deletion -/

theorem PostReq_of_delivered (urlRaw tenantID : String) (r : HttpReply) (h : r.delivered) :
    PostReq urlRaw tenantID r =
      { err := none, body := none,
        requests := [{ method := "POST", url := urlRaw, orgID := tenantID }] } := by
  obtain ⟨h1, h2, h3, h4⟩ := h
  unfold PostReq
  rcases h4 with h4 | h4 <;> simp [h1, h2, h3, h4, http.StatusOK, http.StatusNoContent]

theorem GetReq_of_readable (urlRaw tenantID : String) (r : HttpReply) (h : r.readable) :
    GetReq urlRaw tenantID r =
      { err := none, body := some r.Body,
        requests := [{ method := "GET", url := urlRaw, orgID := tenantID }] } := by
  obtain ⟨⟨h1, h2, h3, h4⟩, h5⟩ := h
  unfold GetReq
  rcases h4 with h4 | h4 <;> simp [h1, h2, h3, h4, h5, http.StatusOK, http.StatusNoContent]

theorem GetReq_ok_iff (urlRaw tenantID : String) (r : HttpReply) :
    (GetReq urlRaw tenantID r).err = none ↔ r.readable := by
  unfold GetReq HttpReply.readable HttpReply.delivered
  cases r.Parse <;> cases r.NewRequest <;> cases r.Do <;> cases r.ReadAll <;>
    by_cases h1 : r.StatusCode = 200 <;> by_cases h2 : r.StatusCode = 204 <;>
    simp [h1, h2, http.StatusOK, http.StatusNoContent]

theorem PostReq_ok_iff (urlRaw tenantID : String) (r : HttpReply) :
    (PostReq urlRaw tenantID r).err = none ↔ r.delivered := by
  unfold PostReq HttpReply.delivered
  cases r.Parse <;> cases r.NewRequest <;> cases r.Do <;>
    by_cases h1 : r.StatusCode = 200 <;> by_cases h2 : r.StatusCode = 204 <;>
    simp [h1, h2, http.StatusOK, http.StatusNoContent]

/-- One iteration that is answered with the empty list goes on to the next iteration. -/
theorem lokiLoop_step_empty (urlCfg : config.Loki) (tenantID : String)
    (reply : Nat → loki.PollReply) (i cnt : Nat) (sleepTime : Int) (h : (reply i).empty) :
    ∃ cnt2 sleepTime2 requests, ∀ fuel,
      loki.checkDeletionStatusLoop urlCfg tenantID reply (fuel + 1) i cnt sleepTime =
        PollResult.next [sleepTime] requests
          (loki.checkDeletionStatusLoop urlCfg tenantID reply fuel (i + 1) cnt2 sleepTime2) := by
  obtain ⟨⟨hw, hg, hu⟩, he, hd⟩ := h
  have hget := GetReq_of_readable (urlCfg.Backend ++ "/loki/api/v1/delete") tenantID _ hg
  have hdel : loki.deleteLogsRequest urlCfg tenantID (reply i).delete = _ :=
    PostReq_of_delivered _ tenantID _ hd
  by_cases hc : wrapInt64 (wrapInt64 (2 ^ cnt) * urlCfg.PollingRate) < urlCfg.MaxPollingRate
  · refine ⟨cnt + 1, wrapInt64 (wrapInt64 (2 ^ cnt) * urlCfg.PollingRate),
      (GetReq (urlCfg.Backend ++ "/loki/api/v1/delete") tenantID (reply i).get).requests ++
        (loki.deleteLogsRequest urlCfg tenantID (reply i).delete).requests, fun fuel => ?_⟩
    rw [loki.checkDeletionStatusLoop]
    simp only [hw, SleepWithContext, hget, hu, he, List.getLast?_nil, hdel, hc, if_true]
  · refine ⟨cnt, urlCfg.MaxPollingRate,
      (GetReq (urlCfg.Backend ++ "/loki/api/v1/delete") tenantID (reply i).get).requests ++
        (loki.deleteLogsRequest urlCfg tenantID (reply i).delete).requests, fun fuel => ?_⟩
    rw [loki.checkDeletionStatusLoop]
    simp only [hw, SleepWithContext, hget, hu, he, List.getLast?_nil, hdel, hc, if_false]

/-- One iteration that is answered with an unprocessed deletion goes on to the next
iteration when the mode is not `loose`. -/
theorem lokiLoop_step_pending (urlCfg : config.Loki) (tenantID : String)
    (reply : Nat → loki.PollReply) (i cnt : Nat) (sleepTime : Int)
    (hmode : urlCfg.DeleteVerifyMode ≠ LooseMode) (h : (reply i).pending) :
    ∃ requests, ∀ fuel,
      loki.checkDeletionStatusLoop urlCfg tenantID reply (fuel + 1) i cnt sleepTime =
        PollResult.next [sleepTime] requests
          (loki.checkDeletionStatusLoop urlCfg tenantID reply fuel (i + 1) cnt sleepTime) := by
  obtain ⟨⟨hw, hg, hu⟩, newest, hn, hs⟩ := h
  have hget := GetReq_of_readable (urlCfg.Backend ++ "/loki/api/v1/delete") tenantID _ hg
  refine ⟨(GetReq (urlCfg.Backend ++ "/loki/api/v1/delete") tenantID (reply i).get).requests,
    fun fuel => ?_⟩
  rw [loki.checkDeletionStatusLoop]
  simp only [hw, SleepWithContext, hget, hu, hn, hmode, hs, if_false]

/-- One iteration that is answered with a non-empty list returns nil when the mode is
`loose` or the last entry is processed. -/
theorem lokiLoop_step_done (urlCfg : config.Loki) (tenantID : String)
    (reply : Nat → loki.PollReply) (fuel i cnt : Nat) (sleepTime : Int)
    (h : ((reply i).nonEmpty ∧ urlCfg.DeleteVerifyMode = LooseMode) ∨ (reply i).processed) :
    (loki.checkDeletionStatusLoop urlCfg tenantID reply (fuel + 1) i cnt sleepTime).returned =
        some none ∧
      (loki.checkDeletionStatusLoop urlCfg tenantID reply (fuel + 1) i cnt sleepTime).polls = 1 := by
  rcases h with ⟨⟨⟨hw, hg, hu⟩, hne⟩, hmode⟩ | ⟨⟨hw, hg, hu⟩, newest, hn, hs⟩
  · have hget := GetReq_of_readable (urlCfg.Backend ++ "/loki/api/v1/delete") tenantID _ hg
    obtain ⟨newest, hn⟩ : ∃ newest, (reply i).Unmarshal.2.getLast? = some newest := by
      cases hl : (reply i).Unmarshal.2.getLast? with
      | none => exact absurd (List.getLast?_eq_none_iff.mp hl) hne
      | some e => exact ⟨e, rfl⟩
    rw [loki.checkDeletionStatusLoop]
    simp only [hw, SleepWithContext, hget, hu, hn, hmode, if_true, PollResult.ret, and_self]
  · have hget := GetReq_of_readable (urlCfg.Backend ++ "/loki/api/v1/delete") tenantID _ hg
    rw [loki.checkDeletionStatusLoop]
    simp only [hw, SleepWithContext, hget, hu, hn, hs, if_true, PollResult.ret, and_self, ite_self]

/-- A run of `n` iterations each of which goes on to the next one. -/
theorem lokiLoop_prefix (urlCfg : config.Loki) (tenantID : String)
    (reply : Nat → loki.PollReply) (n : Nat) :
    ∀ (i cnt : Nat) (sleepTime : Int),
      (∀ j, i ≤ j → j < i + n →
        (reply j).empty ∨ (urlCfg.DeleteVerifyMode ≠ LooseMode ∧ (reply j).pending)) →
      ∃ cnt2 sleepTime2, ∀ fuel,
        (loki.checkDeletionStatusLoop urlCfg tenantID reply (n + fuel) i cnt sleepTime).returned =
          (loki.checkDeletionStatusLoop urlCfg tenantID reply fuel (i + n) cnt2
            sleepTime2).returned ∧
        (loki.checkDeletionStatusLoop urlCfg tenantID reply (n + fuel) i cnt sleepTime).polls =
          n + (loki.checkDeletionStatusLoop urlCfg tenantID reply fuel (i + n) cnt2
            sleepTime2).polls := by
  induction n with
  | zero =>
    intro i cnt sleepTime _
    exact ⟨cnt, sleepTime, fun fuel => by simp⟩
  | succ n ih =>
    intro i cnt sleepTime h
    have hrest : ∀ j, i + 1 ≤ j → j < i + 1 + n →
        (reply j).empty ∨ (urlCfg.DeleteVerifyMode ≠ LooseMode ∧ (reply j).pending) :=
      fun j h1 h2 => h j (by omega) (by omega)
    rcases h i (le_refl i) (by omega) with he | ⟨hmode, hp⟩
    · obtain ⟨c1, s1, reqs, hstep⟩ := lokiLoop_step_empty urlCfg tenantID reply i cnt sleepTime he
      obtain ⟨c2, s2, hih⟩ := ih (i + 1) c1 s1 hrest
      refine ⟨c2, s2, fun fuel => ?_⟩
      have e1 : n + 1 + fuel = (n + fuel) + 1 := by omega
      have e2 : i + (n + 1) = i + 1 + n := by omega
      rw [e1, hstep (n + fuel), e2]
      refine ⟨(hih fuel).1, ?_⟩
      simp only [PollResult.next]
      rw [(hih fuel).2]
      omega
    · obtain ⟨reqs, hstep⟩ :=
        lokiLoop_step_pending urlCfg tenantID reply i cnt sleepTime hmode hp
      obtain ⟨c2, s2, hih⟩ := ih (i + 1) cnt sleepTime hrest
      refine ⟨c2, s2, fun fuel => ?_⟩
      have e1 : n + 1 + fuel = (n + fuel) + 1 := by omega
      have e2 : i + (n + 1) = i + 1 + n := by omega
      rw [e1, hstep (n + fuel), e2]
      refine ⟨(hih fuel).1, ?_⟩
      simp only [PollResult.next]
      rw [(hih fuel).2]
      omega

/-- The loop returns nil at iteration `m` when the iterations before it go on and iteration
`m` is answered with a non-empty list in `loose` mode, or with a processed deletion. -/
theorem lokiLoop_returns_at (urlCfg : config.Loki) (tenantID : String)
    (reply : Nat → loki.PollReply) (m fuel : Nat) (hfuel : m < fuel)
    (hgo : ∀ j, j < m →
      (reply j).empty ∨ (urlCfg.DeleteVerifyMode ≠ LooseMode ∧ (reply j).pending))
    (hm : ((reply m).nonEmpty ∧ urlCfg.DeleteVerifyMode = LooseMode) ∨ (reply m).processed) :
    (loki.checkDeletionStatus urlCfg tenantID reply fuel).returned = some none ∧
      (loki.checkDeletionStatus urlCfg tenantID reply fuel).polls = m + 1 := by
  obtain ⟨c, s, h⟩ := lokiLoop_prefix urlCfg tenantID reply m 0 0 urlCfg.PollingRate
    (fun j _ h2 => hgo j (by omega))
  obtain ⟨f, rfl⟩ : ∃ f, fuel = m + (f + 1) := ⟨fuel - m - 1, by omega⟩
  have hd := lokiLoop_step_done urlCfg tenantID reply f (0 + m) c s (by simpa using hm)
  unfold loki.checkDeletionStatus
  rw [(h (f + 1)).1, (h (f + 1)).2, hd.1, hd.2]
  exact ⟨rfl, rfl⟩

/-- The loop is still running after `fuel` iterations each of which goes on. -/
theorem lokiLoop_running (urlCfg : config.Loki) (tenantID : String)
    (reply : Nat → loki.PollReply) (fuel : Nat)
    (hgo : ∀ j, j < fuel →
      (reply j).empty ∨ (urlCfg.DeleteVerifyMode ≠ LooseMode ∧ (reply j).pending)) :
    (loki.checkDeletionStatus urlCfg tenantID reply fuel).returned = none ∧
      (loki.checkDeletionStatus urlCfg tenantID reply fuel).polls = fuel := by
  obtain ⟨c, s, h⟩ := lokiLoop_prefix urlCfg tenantID reply fuel 0 0 urlCfg.PollingRate
    (fun j _ h2 => hgo j (by omega))
  unfold loki.checkDeletionStatus
  have h0 := h 0
  simp only [Nat.add_zero] at h0
  rw [h0.1, h0.2]
  simp [loki.checkDeletionStatusLoop, PollResult.running]

/-- **C18.** In `loki.checkDeletionStatus`, let poll `k` be the first that is answered with
a non-empty list, the polls before it being answered with the empty list. With
`DeleteVerifyMode = loose` the function returns nil at poll `k`, whatever the statuses of
the entries. With `DeleteVerifyMode = strict` it returns nil at the first poll `m ≥ k` whose
last entry has the status `processed`, and not before; as long as no such poll comes, it
goes on polling. -/
theorem loki_checkDeletionStatus_modes (urlCfg : config.Loki) (tenantID : String)
    (reply : Nat → loki.PollReply) (k : Nat)
    (hempty : ∀ i, i < k → (reply i).empty) (hk : (reply k).nonEmpty) :
    (urlCfg.DeleteVerifyMode = LooseMode → ∀ fuel, k < fuel →
      (loki.checkDeletionStatus urlCfg tenantID reply fuel).returned = some none ∧
      (loki.checkDeletionStatus urlCfg tenantID reply fuel).polls = k + 1) ∧
    (urlCfg.DeleteVerifyMode = StrictMode →
      (∀ m, k ≤ m → (∀ j, k ≤ j → j < m → (reply j).pending ∨ (reply j).empty) →
        (reply m).processed → ∀ fuel, m < fuel →
        (loki.checkDeletionStatus urlCfg tenantID reply fuel).returned = some none ∧
        (loki.checkDeletionStatus urlCfg tenantID reply fuel).polls = m + 1) ∧
      (∀ fuel, (∀ j, k ≤ j → j < fuel → (reply j).pending ∨ (reply j).empty) →
        (loki.checkDeletionStatus urlCfg tenantID reply fuel).returned = none ∧
        (loki.checkDeletionStatus urlCfg tenantID reply fuel).polls = fuel)) := by
  refine ⟨fun hmode fuel hfuel => ?_, fun hmode => ?_⟩
  · exact lokiLoop_returns_at urlCfg tenantID reply k fuel hfuel
      (fun j hj => Or.inl (hempty j hj)) (Or.inl ⟨hk, hmode⟩)
  · have hne : urlCfg.DeleteVerifyMode ≠ LooseMode := by
      rw [hmode]; decide
    have hgo : ∀ n, (∀ j, k ≤ j → j < n → (reply j).pending ∨ (reply j).empty) →
        ∀ j, j < n →
          (reply j).empty ∨ (urlCfg.DeleteVerifyMode ≠ LooseMode ∧ (reply j).pending) := by
      intro n h j hj
      by_cases hjk : j < k
      · exact Or.inl (hempty j hjk)
      · rcases h j (by omega) hj with hp | he
        · exact Or.inr ⟨hne, hp⟩
        · exact Or.inl he
    refine ⟨fun m _ hpend hm fuel hfuel => ?_, fun fuel hpend => ?_⟩
    · exact lokiLoop_returns_at urlCfg tenantID reply m fuel hfuel (hgo m hpend) (Or.inr hm)
    · exact lokiLoop_running urlCfg tenantID reply fuel (hgo fuel hpend)

/-- A log store in `strict` mode that reports the deletion as received twice and as
processed at the third poll: `checkDeletionStatus` returns nil at the third poll. -/
theorem loki_checkDeletionStatus_modes_witness :
    (loki.checkDeletionStatus lokiStrict "foo" lokiProcessedLater.poll 3).returned = some none ∧
    (loki.checkDeletionStatus lokiStrict "foo" lokiProcessedLater.poll 3).polls = 3 :=
  have hans : ∀ s, (lokiPoll s).answered := fun _ => ⟨rfl, ⟨⟨rfl, rfl, rfl, Or.inl rfl⟩, rfl⟩, rfl⟩
  ((loki_checkDeletionStatus_modes lokiStrict "foo" lokiProcessedLater.poll 0
      (fun _ h => absurd h (Nat.not_lt_zero _))
      ⟨hans "received", by simp [lokiProcessedLater, lokiPoll]⟩).2 rfl).1 2 (Nat.zero_le 2)
    (fun j _ h2 => Or.inl (by
      have e : lokiProcessedLater.poll j = lokiPoll "received" := by
        simp [lokiProcessedLater, h2]
      rw [e]
      exact ⟨hans "received", deleteLogEntry "received", rfl, by decide⟩))
    ⟨hans "processed", deleteLogEntry "processed", rfl, rfl⟩ 3 (by decide)

/-- When the loop of `loki.checkDeletionStatus` returns nil it has slept `sleepTime` first
and has sent a deletion-status request. -/
theorem lokiLoop_success_polled (urlCfg : config.Loki) (tenantID : String)
    (reply : Nat → loki.PollReply) (fuel : Nat) :
    ∀ (i cnt : Nat) (sleepTime : Int),
      (loki.checkDeletionStatusLoop urlCfg tenantID reply fuel i cnt sleepTime).returned =
        some none →
      1 ≤ (loki.checkDeletionStatusLoop urlCfg tenantID reply fuel i cnt sleepTime).polls ∧
      (loki.checkDeletionStatusLoop urlCfg tenantID reply fuel i cnt sleepTime).sleeps.head? =
        some sleepTime ∧
      loki.statusRequest urlCfg tenantID ∈
        (loki.checkDeletionStatusLoop urlCfg tenantID reply fuel i cnt sleepTime).requests := by
  induction fuel with
  | zero =>
    intro i cnt sleepTime h
    simp [loki.checkDeletionStatusLoop, PollResult.running] at h
  | succ fuel ih =>
    intro i cnt sleepTime
    rw [loki.checkDeletionStatusLoop]
    dsimp only
    split
    · simp [PollResult.ret]
    · split
      · simp [PollResult.ret]
      · rename_i hget
        have hreq := GetReq_of_readable (urlCfg.Backend ++ "/loki/api/v1/delete") tenantID _
          ((GetReq_ok_iff _ _ _).mp hget)
        rw [hreq]
        split
        · simp [PollResult.ret]
        · split
          · split_ifs <;> simp [PollResult.ret, PollResult.next, loki.statusRequest]
          · split
            · simp [PollResult.ret]
            · split_ifs <;> simp [PollResult.next, loki.statusRequest]

/-- **C19, as the spec words it, fails.** The log store of `testdata/test_config.yaml` is in
`loose` mode and accepts the flush and the delete request. `loki.CleanupTenant` then sleeps
the polling rate and sends a deletion-status request, and returns nil only after it. -/
theorem loki_loose_cleanup_polls :
    testConfigEndpoints.Loki.DeleteVerifyMode = LooseMode ∧
    (loki.CleanupTenant { tenantID := some "foo" } testConfigEndpoints.Loki lokiReceived
      1).returned = some none ∧
    (loki.CleanupTenant { tenantID := some "foo" } testConfigEndpoints.Loki lokiReceived
      1).sleeps = [20000000000] ∧
    (loki.CleanupTenant { tenantID := some "foo" } testConfigEndpoints.Loki lokiReceived
      1).requests =
      [{ method := "POST", url := "http://localhost:3100/flush", orgID := "foo" },
       { method := "POST",
         url := "http://localhost:3100/loki/api/v1/delete?query=\x7b__tenant_id__=\"foo\"\x7d&start=0000000001",
         orgID := "foo" },
       { method := "GET", url := "http://localhost:3100/loki/api/v1/delete", orgID := "foo" }] := by
  decide

/-- **C19, amended.** With `DeleteVerifyMode = loose`, `mimir.CleanupTenant` treats the
acceptance of the delete request as sufficient: once the flush and the delete request
succeeded it returns nil without a deletion-status request and without a sleep.
`loki.CleanupTenant` polls in `loose` mode too: it returns nil only after it has slept the
polling rate and sent a deletion-status request, and it does so at the first poll that is
answered with a non-empty list. -/
theorem loose_cleanup_polling (ctx : Ctx) (tenantID : String)
    (hctx : ctx.tenantID = some tenantID)
    (mimirCfg : config.Mimir) (hmimir : mimirCfg.DeleteVerifyMode = LooseMode)
    (lokiCfg : config.Loki) (hloki : lokiCfg.DeleteVerifyMode = LooseMode)
    (mimirReply : mimir.CleanupReply) (lokiReply : loki.CleanupReply) (fuel : Nat) :
    (mimirReply.flush.readable → mimirReply.delete.delivered →
      (mimir.CleanupTenant ctx mimirCfg mimirReply fuel).returned = some none ∧
      (mimir.CleanupTenant ctx mimirCfg mimirReply fuel).requests =
        [mimir.flushRequest mimirCfg tenantID, mimir.deleteRequest mimirCfg tenantID] ∧
      (mimir.CleanupTenant ctx mimirCfg mimirReply fuel).polls = 0 ∧
      (mimir.CleanupTenant ctx mimirCfg mimirReply fuel).sleeps = []) ∧
    ((loki.CleanupTenant ctx lokiCfg lokiReply fuel).returned = some none →
      1 ≤ (loki.CleanupTenant ctx lokiCfg lokiReply fuel).polls ∧
      (loki.CleanupTenant ctx lokiCfg lokiReply fuel).sleeps.head? = some lokiCfg.PollingRate ∧
      loki.statusRequest lokiCfg tenantID ∈
        (loki.CleanupTenant ctx lokiCfg lokiReply fuel).requests) ∧
    (lokiReply.flush.delivered → lokiReply.delete.delivered →
      ∀ k, (∀ i, i < k → (lokiReply.poll i).empty) → (lokiReply.poll k).nonEmpty → k < fuel →
      (loki.CleanupTenant ctx lokiCfg lokiReply fuel).returned = some none ∧
      (loki.CleanupTenant ctx lokiCfg lokiReply fuel).polls = k + 1) := by
  refine ⟨fun hf hd => ?_, fun hret => ?_, fun hf hd k hempty hk hfuel => ?_⟩
  · have hne : mimirCfg.DeleteVerifyMode ≠ StrictMode := by
      rw [hmimir]; decide
    have h1 : mimir.flushIngesters mimirCfg tenantID mimirReply.flush = _ :=
      GetReq_of_readable _ tenantID _ hf
    have h2 : mimir.deleteMetricsRequest mimirCfg tenantID mimirReply.delete = _ :=
      PostReq_of_delivered _ tenantID _ hd
    simp [mimir.CleanupTenant, hctx, h1, h2, hne, mimir.flushRequest, mimir.deleteRequest]
  · unfold loki.CleanupTenant at hret ⊢
    simp only [hctx] at hret ⊢
    split at hret
    · simp at hret
    · split at hret
      · simp at hret
      · rename_i h1 _ h2
        simp only [h1, h2]
        have hchk : (loki.checkDeletionStatus lokiCfg tenantID lokiReply.poll fuel).returned =
            some none := by
          revert hret
          cases (loki.checkDeletionStatus lokiCfg tenantID lokiReply.poll fuel).returned with
          | none => simp
          | some r => cases r <;> simp
        have h := lokiLoop_success_polled lokiCfg tenantID lokiReply.poll fuel 0 0
          lokiCfg.PollingRate hchk
        exact ⟨h.1, h.2.1, List.mem_append_right _ h.2.2⟩
  · have h1 : loki.flushIngesters lokiCfg tenantID lokiReply.flush = _ :=
      PostReq_of_delivered _ tenantID _ hf
    have h2 : loki.deleteLogsRequest lokiCfg tenantID lokiReply.delete = _ :=
      PostReq_of_delivered _ tenantID _ hd
    have h := lokiLoop_returns_at lokiCfg tenantID lokiReply.poll k fuel hfuel
      (fun j hj => Or.inl (hempty j hj)) (Or.inl ⟨hk, hloki⟩)
    simp [loki.CleanupTenant, hctx, h1, h2, h.1, h.2]

/-- The stores of `testdata/test_config.yaml`, both in `loose` mode: the metrics store is
not asked for the deletion status, the log store is asked once. -/
theorem loose_cleanup_polling_witness :
    (mimir.CleanupTenant { tenantID := some "foo" } testConfigEndpoints.Mimir mimirPending
      1).polls = 0 ∧
    (loki.CleanupTenant { tenantID := some "foo" } testConfigEndpoints.Loki lokiReceived
      1).polls = 1 :=
  have h := loose_cleanup_polling { tenantID := some "foo" } "foo" rfl testConfigEndpoints.Mimir
    rfl testConfigEndpoints.Loki rfl mimirPending lokiReceived 1
  ⟨(h.1 ⟨⟨rfl, rfl, rfl, Or.inl rfl⟩, rfl⟩ ⟨rfl, rfl, rfl, Or.inl rfl⟩).2.2.1,
   (h.2.2 ⟨rfl, rfl, rfl, Or.inl rfl⟩ ⟨rfl, rfl, rfl, Or.inl rfl⟩ 0
     (fun _ hi => absurd hi (Nat.not_lt_zero _))
     ⟨⟨rfl, ⟨⟨rfl, rfl, rfl, Or.inl rfl⟩, rfl⟩, rfl⟩, by simp [lokiReceived, lokiPoll]⟩
     (by decide)).2⟩

/-! ## Theorems: the project stream -/

theorem trySend_of_cap_one (c : Chan) (hcap : c.cap = 1) (hlen : c.len ≤ 1) :
    c.trySend = { cap := 1, len := 1 } := by
  obtain ⟨cap, len⟩ := c
  simp only at hcap hlen
  subst hcap
  unfold Chan.trySend
  interval_cases len <;> simp

theorem BroadcastUpdate_chan (s : Server)
    (hcap : ∀ c, ClientKey.chan c ∈ s.Clients → c.cap = 1 ∧ c.len ≤ 1) (c : Chan)
    (hc : ClientKey.chan c ∈ s.BroadcastUpdate.Clients) : c = { cap := 1, len := 1 } := by
  simp only [Server.BroadcastUpdate, List.mem_map] at hc
  obtain ⟨key, hkey, he⟩ := hc
  cases key with
  | chan c0 =>
    simp only [ClientKey.chan.injEq] at he
    rw [← he]
    exact trySend_of_cap_one c0 (hcap c0 hkey).1 (hcap c0 hkey).2
  | other tag => simp at he

theorem BroadcastUpdate_idem (s : Server)
    (hcap : ∀ c, ClientKey.chan c ∈ s.Clients → c.cap = 1 ∧ c.len ≤ 1) :
    s.BroadcastUpdate.BroadcastUpdate = s.BroadcastUpdate := by
  simp only [Server.BroadcastUpdate, List.map_map, Server.mk.injEq, true_and]
  apply List.map_congr_left
  intro key hkey
  cases key with
  | chan c =>
    have h := trySend_of_cap_one c (hcap c hkey).1 (hcap c hkey).2
    show ClientKey.chan c.trySend.trySend = ClientKey.chan c.trySend
    rw [h]
    rfl
  | other tag => rfl

theorem BroadcastUpdate_iterate (N : Nat) : ∀ (s : Server),
    (∀ c, ClientKey.chan c ∈ s.Clients → c.cap = 1 ∧ c.len ≤ 1) →
    (Server.BroadcastUpdate^[N + 1]) s = s.BroadcastUpdate := by
  induction N with
  | zero => intro s _; rfl
  | succ n ih =>
    intro s hcap
    rw [Function.iterate_succ_apply]
    have hcap2 : ∀ c, ClientKey.chan c ∈ s.BroadcastUpdate.Clients → c.cap = 1 ∧ c.len ≤ 1 := by
      intro c hc
      rw [BroadcastUpdate_chan s hcap c hc]
      exact ⟨rfl, le_refl 1⟩
    rw [ih s.BroadcastUpdate hcap2]
    exact BroadcastUpdate_idem s hcap

/-- **C20.** Let every channel among the keys of `Clients` have capacity 1, as
`StreamProjectUpdates` creates them, and let no subscriber receive in between. Then for
every `N ≥ 1`, `N` consecutive calls of `BroadcastUpdate` leave the server as one call does:
every subscriber channel holds exactly one notification. A send on an empty channel makes
it hold one notification, a send on a full channel leaves it as it is, and
`BroadcastUpdate` after `BroadcastUpdate` changes nothing. -/
theorem BroadcastUpdate_coalesces (s : Server) (N : Nat) (hN : 1 ≤ N)
    (hcap : ∀ c, ClientKey.chan c ∈ s.Clients → c.cap = 1 ∧ c.len ≤ 1) :
    (Server.BroadcastUpdate^[N]) s = s.BroadcastUpdate ∧
    (∀ c, ClientKey.chan c ∈ ((Server.BroadcastUpdate^[N]) s).Clients → c.len = 1) ∧
    ((Server.BroadcastUpdate^[N]) s).Clients.length = s.Clients.length ∧
    s.BroadcastUpdate.BroadcastUpdate = s.BroadcastUpdate ∧
    (∀ c, ClientKey.chan c ∈ s.Clients →
      (c.len = 0 → c.trySend.len = 1) ∧ (c.len = 1 → c.trySend = c)) := by
  obtain ⟨n, rfl⟩ : ∃ n, N = n + 1 := ⟨N - 1, by omega⟩
  have hit := BroadcastUpdate_iterate n s hcap
  refine ⟨hit, ?_, ?_, BroadcastUpdate_idem s hcap, ?_⟩
  · intro c hc
    rw [hit] at hc
    rw [BroadcastUpdate_chan s hcap c hc]
  · rw [hit]
    simp [Server.BroadcastUpdate]
  · intro c hc
    have h := trySend_of_cap_one c (hcap c hc).1 (hcap c hc).2
    refine ⟨fun _ => by rw [h], fun h1 => ?_⟩
    rw [h]
    obtain ⟨cap, len⟩ := c
    have := (hcap _ hc).1
    simp only at h1 this
    rw [h1, this]

/-- Three broadcasts to two subscribers, of whom one has a notification pending: each ends
with exactly one. -/
theorem BroadcastUpdate_coalesces_witness :
    (Server.BroadcastUpdate^[3]) serverTwoSubscribers = serverTwoSubscribers.BroadcastUpdate ∧
    serverTwoSubscribers.BroadcastUpdate.Clients =
      [.chan { cap := 1, len := 1 }, .chan { cap := 1, len := 1 }] :=
  ⟨(BroadcastUpdate_coalesces serverTwoSubscribers 3 (by decide) (by
      intro c hc
      simp only [serverTwoSubscribers, updateChan, List.mem_cons, ClientKey.chan.injEq,
        List.mem_singleton, List.not_mem_nil, or_false] at hc
      rcases hc with rfl | rfl <;> simp)).1, by decide⟩

/-! ## Theorems: streaming the snapshot -/

/-- **C21, as the spec words it, fails.** A subscriber connects to a server without
subscribers and its context ends at the first `select`: the channel has been stored in
`Clients` before the first snapshot is sent, and is a member of `Clients` at the moment of
that send. -/
theorem StreamProjectUpdates_member_at_first_send :
    (serverFooBar.StreamProjectUpdates none (fun _ => .done .canceled) 1).acts =
      [.store,
       .send
         { Projects :=
             [{ Key := "foo", Data := { ProjectName := "foo", OrgName := "", Status := "Created" } },
              { Key := "bar", Data := { ProjectName := "bar", OrgName := "", Status := "Deleted" } }] }
         [.chan updateChan],
       .delete] := by
  decide

/-- **C21, amended.** `StreamProjectUpdates` first stores the new channel in `Clients` and
then sends the first snapshot: at the moment of that send the channel is a member of
`Clients` (its last key). The channel is stored once, and it is removed from `Clients`
when the function returns. -/
theorem StreamProjectUpdates_store_before_send (s : Server) (first : Option ExtError)
    (sel : Nat → StreamSelect) (fuel : Nat) :
    ∃ rest,
      (s.StreamProjectUpdates first sel fuel).acts =
        .store :: .send { Projects := s.Projects.map (fun e => entryOf e.1 e.2) }
          (s.Clients ++ [.chan updateChan]) :: rest ∧
      (s.Clients ++ [.chan updateChan])[s.Clients.length]? = some (.chan updateChan) ∧
      StreamAct.store ∉ rest ∧
      ((s.StreamProjectUpdates first sel fuel).returned ≠ none →
        rest.getLast? = some .delete ∧
        (s.StreamProjectUpdates first sel fuel).server = s) := by
  have hloop : ∀ (s1 : Server) (fuel i : Nat), StreamAct.store ∉ (s1.streamLoop sel fuel i).2 ∧
      StreamAct.delete ∉ (s1.streamLoop sel fuel i).2 := by
    intro s1 fuel
    induction fuel with
    | zero => intro i; simp [Server.streamLoop]
    | succ fuel ih =>
      intro i
      unfold Server.streamLoop
      cases sel i with
      | done err => simp
      | update projects send =>
        cases send with
        | none => simpa [Server.SendCurrentStateToClient] using ih (i + 1)
        | some e => simp [Server.SendCurrentStateToClient]
  have herase : (s.Clients ++ [ClientKey.chan updateChan]).eraseIdx s.Clients.length =
      s.Clients := by
    rw [List.eraseIdx_append_of_length_le (le_refl _)]
    simp
  have hs : ({ Projects := s.Projects, Clients := s.Clients } : Server) = s := rfl
  unfold Server.StreamProjectUpdates
  cases first with
  | some e =>
    refine ⟨[.delete], ?_, by simp, by simp, fun _ => ⟨rfl, ?_⟩⟩
    · simp [Server.SendCurrentStateToClient, entryOf]
    · simp [Server.SendCurrentStateToClient, herase, hs]
  | none =>
    have hl := hloop { s with Clients := s.Clients ++ [.chan updateChan] } fuel 0
    cases hr : (Server.streamLoop { s with Clients := s.Clients ++ [.chan updateChan] } sel
        fuel 0).1 with
    | none =>
      refine ⟨(Server.streamLoop { s with Clients := s.Clients ++ [.chan updateChan] } sel
        fuel 0).2, ?_, by simp, hl.1, ?_⟩
      · simp [Server.SendCurrentStateToClient, entryOf, hr]
      · simp [Server.SendCurrentStateToClient, hr]
    | some err =>
      refine ⟨(Server.streamLoop { s with Clients := s.Clients ++ [.chan updateChan] } sel
        fuel 0).2 ++ [.delete], ?_, by simp, ?_, fun _ => ⟨by simp, ?_⟩⟩
      · simp [Server.SendCurrentStateToClient, entryOf, hr]
      · simp [hl.1]
      · simp [Server.SendCurrentStateToClient, hr, herase, hs]

theorem projectsGet_of_mem (m : List (String × ProjectData)) (hkeys : (m.map Prod.fst).Nodup)
    (k : String) (pd : ProjectData) (h : (k, pd) ∈ m) : projectsGet k m = some pd := by
  induction m with
  | nil => simp at h
  | cons e m ih =>
    simp only [List.map_cons, List.nodup_cons] at hkeys
    unfold projectsGet
    rcases List.mem_cons.mp h with rfl | hm
    · simp
    · have hne : ¬ e.1 = k := by
        intro he
        apply hkeys.1
        rw [he]
        exact List.mem_map.mpr ⟨(k, pd), hm, rfl⟩
      have hb : (e.1 == k) = false := by simpa using hne
      simp only [List.find?_cons, hb]
      exact ih hkeys.2 hm

/-- **C22.** For every snapshot, `SendCurrentStateToClient` hands one message to
`stream.Send`. The message has one entry for every key of the snapshot and no other entry:
its keys are the keys of the snapshot, none twice, and the entry of a key carries the
name, the org and the status stored under that key. -/
theorem SendCurrentStateToClient_snapshot (s : Server) (send : Option ExtError)
    (hkeys : s.keys.Nodup) :
    ∃ msg, (s.SendCurrentStateToClient send).sent = [msg] ∧
      msg.Projects.map (fun e => e.Key) = s.keys ∧
      (msg.Projects.map (fun e => e.Key)).Nodup ∧
      msg.Projects.length = s.Projects.length ∧
      (∀ k pd, (k, pd) ∈ s.Projects → entryOf k pd ∈ msg.Projects) ∧
      (∀ e, e ∈ msg.Projects →
        ∃ pd, projectsGet e.Key s.Projects = some pd ∧ e = entryOf e.Key pd) := by
  unfold Server.keys at hkeys
  refine ⟨{ Projects := s.Projects.map (fun e => entryOf e.1 e.2) }, ?_, ?_, ?_, ?_, ?_, ?_⟩
  · simp [Server.SendCurrentStateToClient, entryOf]
  · simp [Server.keys, entryOf, Function.comp_def]
  · simpa [entryOf, Function.comp_def] using hkeys
  · simp
  · intro k pd h
    exact List.mem_map.mpr ⟨(k, pd), h, rfl⟩
  · intro e he
    obtain ⟨x, hx, rfl⟩ := List.mem_map.mp he
    exact ⟨x.2, projectsGet_of_mem s.Projects hkeys x.1 x.2 hx, rfl⟩

/-- The snapshot with `foo`, created, and `bar`, deleted, is sent as one message with these
two entries. -/
theorem SendCurrentStateToClient_snapshot_witness :
    ∃ msg, (serverFooBar.SendCurrentStateToClient none).sent = [msg] ∧
      msg.Projects.map (fun e => e.Key) = ["foo", "bar"] ∧
      entryOf "bar" { ProjectName := "bar", OrgID := "", Status := .ProjectDeleted } ∈
        msg.Projects :=
  match SendCurrentStateToClient_snapshot serverFooBar none (by decide) with
  | ⟨msg, h1, h2, _, _, h5, _⟩ => ⟨msg, h1, h2, h5 _ _ (by decide)⟩

/-! ## Theorems: the handlers and the snapshot -/

theorem projectsGet_projectsSet_self (k : String) (v : ProjectData)
    (m : List (String × ProjectData)) : projectsGet k (projectsSet k v m) = some v := by
  induction m with
  | nil => simp [projectsSet, projectsGet]
  | cons e m ih =>
    unfold projectsSet
    by_cases h : e.1 = k
    · simp [h, projectsGet]
    · have h2 : (e.1 == k) = false := by simpa using h
      simp only [h2, Bool.false_eq_true, if_false]
      unfold projectsGet at ih ⊢
      simp only [List.find?_cons, h2]
      exact ih

theorem projectsGet_projectsSet_other (k k2 : String) (v : ProjectData)
    (m : List (String × ProjectData)) (h : k2 ≠ k) :
    projectsGet k2 (projectsSet k v m) = projectsGet k2 m := by
  induction m with
  | nil =>
    have h2 : (k == k2) = false := by simpa using fun e : k = k2 => h e.symm
    simp [projectsSet, projectsGet, h2]
  | cons e m ih =>
    unfold projectsSet
    by_cases he : e.1 = k
    · have h1 : (e.1 == k) = true := by simpa using he
      have h2 : (k == k2) = false := by simpa using fun e : k = k2 => h e.symm
      have h3 : (e.1 == k2) = false := by rw [he]; exact h2
      simp [h1, projectsGet, List.find?_cons, h2, h3]
    · have h1 : (e.1 == k) = false := by simpa using he
      simp only [h1, Bool.false_eq_true, if_false]
      unfold projectsGet at ih ⊢
      simp only [List.find?_cons]
      cases (e.1 == k2) with
      | true => rfl
      | false => exact ih

theorem projectsSet_keys (k : String) (v : ProjectData) (m : List (String × ProjectData))
    (x : String) :
    x ∈ (projectsSet k v m).map Prod.fst ↔ x ∈ m.map Prod.fst ∨ x = k := by
  induction m with
  | nil => simp [projectsSet]
  | cons e m ih =>
    unfold projectsSet
    by_cases he : e.1 = k
    · have h1 : (e.1 == k) = true := by simpa using he
      simp only [h1, if_true, List.map_cons, List.mem_cons]
      rw [he]
      tauto
    · have h1 : (e.1 == k) = false := by simpa using he
      simp only [h1, Bool.false_eq_true, if_false, List.map_cons, List.mem_cons, ih]
      tauto

theorem projectsSet_keys_nodup (k : String) (v : ProjectData) (m : List (String × ProjectData))
    (h : (m.map Prod.fst).Nodup) : ((projectsSet k v m).map Prod.fst).Nodup := by
  induction m with
  | nil => simp [projectsSet]
  | cons e m ih =>
    simp only [List.map_cons, List.nodup_cons] at h
    unfold projectsSet
    by_cases he : e.1 = k
    · have h1 : (e.1 == k) = true := by simpa using he
      simp only [h1, if_true, List.map_cons, List.nodup_cons]
      rw [← he]
      exact h
    · have h1 : (e.1 == k) = false := by simpa using he
      simp only [h1, Bool.false_eq_true, if_false, List.map_cons, List.nodup_cons]
      refine ⟨fun hx => ?_, ih h.2⟩
      rcases (projectsSet_keys k v m e.1).mp hx with hx | hx
      · exact h.1 hx
      · exact he hx

theorem addHandler_eq (tc : controller.TenantController) (project : Project) :
    tc.addHandler project =
      { ComSig := tc.ComSig ++ [{ Project := project, Status := actionOf project }],
        grpcServer := Server.BroadcastUpdate
          { tc.grpcServer with
            Projects := projectsSet project.UID (dataOf project) tc.grpcServer.Projects } } := by
  unfold controller.TenantController.addHandler actionOf dataOf
  cases project.Deleted <;> simp

/-- **C23.** `addHandler(p)` and `updateHandler(old, p)` have the same effect, for every
project `p` and every `old`. Each sends `(p, CleanupTenant)` on `ComSig` and records the
status `Deleted` when the deleted flag of `p` is set, and sends `(p, InitializeTenant)` and
records `Created` otherwise. The entry recorded under the UID of `p` carries the display
name and the org label of `p`; the entries of all other keys stay as they are, no key is
lost, and `BroadcastUpdate` runs on the subscribers. -/
theorem addHandler_updateHandler_same (tc : controller.TenantController) (old p : Project) :
    tc.updateHandler old p = tc.addHandler p ∧
    (tc.addHandler p).ComSig =
      tc.ComSig ++ [{ Project := p,
                      Status := if p.Deleted then .CleanupTenant else .InitializeTenant }] ∧
    projectsGet p.UID (tc.addHandler p).grpcServer.Projects =
      some { ProjectName := p.DisplayName, OrgID := orgLabel p,
             Status := if p.Deleted then .ProjectDeleted else .ProjectCreated } ∧
    (∀ k, k ≠ p.UID → projectsGet k (tc.addHandler p).grpcServer.Projects =
      projectsGet k tc.grpcServer.Projects) ∧
    (∀ k, k ∈ (tc.addHandler p).grpcServer.keys ↔ k ∈ tc.grpcServer.keys ∨ k = p.UID) ∧
    (tc.addHandler p).grpcServer.Clients = tc.grpcServer.BroadcastUpdate.Clients := by
  refine ⟨rfl, ?_, ?_, ?_, ?_, ?_⟩
  · rw [addHandler_eq]; rfl
  · rw [addHandler_eq]
    exact projectsGet_projectsSet_self _ _ _
  · intro k hk
    rw [addHandler_eq]
    exact projectsGet_projectsSet_other _ _ _ _ hk
  · intro k
    rw [addHandler_eq]
    exact projectsSet_keys _ _ _ k
  · rw [addHandler_eq]
    rfl

/-- The project `foo` arrives marked deleted, through the update callback, at a controller
with two subscribers: a cleanup is sent and both subscribers are notified. -/
theorem addHandler_updateHandler_same_witness :
    (controllerTwoSubscribers.updateHandler projectFoo projectFooDeleted).ComSig =
      [{ Project := projectFooDeleted, Status := .CleanupTenant }] ∧
    (controllerTwoSubscribers.updateHandler projectFoo projectFooDeleted).grpcServer.Clients =
      [.chan { cap := 1, len := 1 }, .chan { cap := 1, len := 1 }] :=
  have h := addHandler_updateHandler_same controllerTwoSubscribers projectFoo projectFooDeleted
  ⟨h.1 ▸ h.2.1, h.1 ▸ h.2.2.2.2.2⟩

theorem System.step_server (s : System) (ev : SysEvent) :
    (s.step ev).tc.grpcServer =
      match ev with
      | .add p => (s.tc.addHandler p).grpcServer
      | .update _ p => (s.tc.addHandler p).grpcServer
      | _ => s.tc.grpcServer := by
  cases ev with
  | receive =>
    unfold System.step
    cases s.tc.ComSig <;> rfl
  | _ => rfl

theorem System.step_keeps_key (s : System) (ev : SysEvent) (k : String)
    (h : k ∈ s.tc.grpcServer.keys) : k ∈ (s.step ev).tc.grpcServer.keys := by
  rw [System.step_server]
  cases ev with
  | add p =>
    simp only [addHandler_eq]
    exact (projectsSet_keys _ _ _ k).mpr (Or.inl h)
  | update old p =>
    simp only [addHandler_eq]
    exact (projectsSet_keys _ _ _ k).mpr (Or.inl h)
  | _ => exact h

theorem System.steps_keep_key (events : List SysEvent) : ∀ (s : System) (k : String),
    k ∈ s.tc.grpcServer.keys → k ∈ (s.steps events).tc.grpcServer.keys := by
  induction events with
  | nil => intro s k h; exact h
  | cons ev events ih =>
    intro s k h
    exact ih (s.step ev) k (System.step_keeps_key s ev k h)

theorem System.steps_append (s : System) (xs ys : List SysEvent) :
    s.steps (xs ++ ys) = (s.steps xs).steps ys := by
  simp [System.steps, List.foldl_append]

/-- **C30.** No event of the system removes a key from the map `Server.Projects`. The
add and the update handler insert or replace the entry of the UID of their project; a
receive of the job manager, a sweep and the stores of the background functions leave the
server as it is. After any sequence of events the keys of the snapshot contain the keys it
had before and the UID of every project an add or update event carried. -/
theorem snapshot_keeps_every_identity (s : System) (events : List SysEvent) :
    (∀ k, k ∈ s.tc.grpcServer.keys → k ∈ (s.steps events).tc.grpcServer.keys) ∧
    (∀ p, SysEvent.add p ∈ events → p.UID ∈ (s.steps events).tc.grpcServer.keys) ∧
    (∀ old p, SysEvent.update old p ∈ events → p.UID ∈ (s.steps events).tc.grpcServer.keys) ∧
    (∀ ev, (∀ p, ev ≠ .add p) → (∀ old p, ev ≠ .update old p) →
      (s.step ev).tc.grpcServer = s.tc.grpcServer) ∧
    (∀ p k, k ∈ (s.step (.add p)).tc.grpcServer.keys ↔ k ∈ s.tc.grpcServer.keys ∨ k = p.UID) ∧
    (∀ old p k,
      k ∈ (s.step (.update old p)).tc.grpcServer.keys ↔ k ∈ s.tc.grpcServer.keys ∨ k = p.UID) := by
  have hmem : ∀ (ev : SysEvent) (uid : String),
      (∀ t : System, uid ∈ (t.step ev).tc.grpcServer.keys) → ev ∈ events →
      uid ∈ (s.steps events).tc.grpcServer.keys := by
    intro ev uid hev hin
    obtain ⟨xs, ys, rfl⟩ := List.append_of_mem hin
    rw [System.steps_append]
    exact System.steps_keep_key ys _ uid (hev _)
  have hadd : ∀ (t : System) (p : Project) (k : String),
      k ∈ (t.tc.addHandler p).grpcServer.keys ↔ k ∈ t.tc.grpcServer.keys ∨ k = p.UID := by
    intro t p k
    rw [addHandler_eq]
    exact projectsSet_keys _ _ _ k
  refine ⟨System.steps_keep_key events s, ?_, ?_, ?_, ?_, ?_⟩
  · intro p hp
    exact hmem (.add p) p.UID (fun t => (hadd t p p.UID).mpr (Or.inr rfl)) hp
  · intro old p hp
    exact hmem (.update old p) p.UID (fun t => (hadd t p p.UID).mpr (Or.inr rfl)) hp
  · intro ev h1 h2
    rw [System.step_server]
    cases ev with
    | add p => exact absurd rfl (h1 p)
    | update old p => exact absurd rfl (h2 old p)
    | _ => rfl
  · intro p k
    exact hadd s p k
  · intro old p k
    exact hadd s p k

/-! ## Theorems: the scenario add, add, update -/

theorem initializeTenant_succeeding (j : job) :
    (initializeTenant j (jobCtx j) (attemptSucceeding j.project)).err = none := by
  cases hs : j.jobCfg.SreEnabled <;>
    simp [initializeTenant, CreateUpdateWatcher, updateWatcher, checkWatcher, IsNotFound,
      IsChildNotFound, storeSucceeding, attemptSucceeding, jobCtx,
      alertingmonitor.InitializeTenant, sre.InitializeTenant, status.Code, codes.AlreadyExists,
      errgroupWait, hs]

theorem cleanupTenant_succeeding (j : job) :
    (cleanupTenant j (jobCtx j) (attemptSucceeding j.project)).err = none := by
  cases hs : j.jobCfg.SreEnabled <;>
    simp [cleanupTenant, CreateUpdateWatcher, updateWatcher, checkWatcher, DeleteWatcher,
      IsNotFound, IsChildNotFound, storeSucceeding, attemptSucceeding, jobCtx,
      alertingmonitor.CleanupTenant, sre.CleanupTenant, status.Code, codes.NotFound,
      errgroupWait, hs]

theorem run_succeeding (p : Project) (jCfg : config.Job) (endpoints : config.Endpoints)
    (action : Action) (ctxId : Nat) (ctxErr : Option CtxErr) (other : Option jobStatus)
    (fuel : Nat) (hfuel : 1 ≤ fuel) (hother : other ≠ some .tenantIDsNotMatch) :
    (run (newJob p jCfg endpoints) action (worldSucceeding p ctxId ctxErr other)
      fuel).job.status =
      if ctxErr = some .canceled then .jobCancelled
      else match action with
        | .InitializeTenant => .tenantCreated
        | .CleanupTenant => .tenantDeleted := by
  obtain ⟨f, rfl⟩ : ∃ f, fuel = f + 1 := ⟨fuel - 1, by omega⟩
  have hi := initializeTenant_succeeding
    { runStore (newJob p jCfg endpoints) with cancelFn := some ctxId }
  have hc := cleanupTenant_succeeding
    { runStore (newJob p jCfg endpoints) with cancelFn := some ctxId }
  simp only [runStore, newJob] at hi hc
  have hload : other.getD .jobInProgress ≠ .tenantIDsNotMatch := by
    cases other with
    | none => simp
    | some st => simpa using hother
  cases action <;> cases ctxErr with
  | none =>
    simp [run, runGoroutine, manageTenant, manageTenantLoop, worldSucceeding, runStore, newJob,
      hi, hc, errorsIsCanceled, hload]
  | some e =>
    cases e <;>
    simp [run, runGoroutine, manageTenant, manageTenantLoop, worldSucceeding, runStore, newJob,
      hi, hc, errorsIsCanceled, CtxErr.toError, GoError.isCanceled, hload]

theorem System.steps_snoc (s : System) (xs : List SysEvent) (e : SysEvent) :
    s.steps (xs ++ [e]) = (s.steps xs).step e := by
  simp [System.steps, List.foldl_append]

theorem ScenarioInv.congr {P1 P2 P1d : Project} {s : System} {c r : Nat} {F1 F2 G1 G2 : Prop}
    (hI : ScenarioInv P1 P2 P1d s c r F1 F2) (h1 : G1 ↔ F1) (h2 : G2 ↔ F2) :
    ScenarioInv P1 P2 P1d s c r G1 G2 := by
  have e1 : G1 = F1 := propext h1
  have e2 : G2 = F2 := propext h2
  rw [e1, e2]
  exact hI

theorem scenarioExecs_cleanup (P1 P2 : Project) (r : Nat) (hr : r ≤ 3)
    (h : ({ uid := P1.UID, project := P1, action := .CleanupTenant } : Execution) ∈
      (scenarioExecs P1 P2).take r) : r = 3 := by
  interval_cases r <;> simp [scenarioExecs] at h ⊢

theorem scenarioExecs_second (P1 P2 : Project) (hne : P1.UID ≠ P2.UID) (r : Nat) (hr : r ≤ 3)
    (h : ({ uid := P2.UID, project := P2, action := .InitializeTenant } : Execution) ∈
      (scenarioExecs P1 P2).take r) : 2 ≤ r := by
  interval_cases r <;> simp [scenarioExecs] at h ⊢
  exact hne h.1.symm

theorem ScenarioInv.callback {P1 P2 P1d : Project} {s : System} {c r : Nat} {F1 F2 : Prop}
    (hI : ScenarioInv P1 P2 P1d s c r F1 F2) (old : Project) (e : SysEvent)
    (he : (scenarioCallbacks P1 P2 old P1d)[c]? = some e)
    (hu : P1d.UID = P1.UID) (hne : P1.UID ≠ P2.UID)
    (h1 : P1.Deleted = false) (h2 : P2.Deleted = false) (hd : P1d.Deleted = true) :
    ScenarioInv P1 P2 P1d (s.step e) (c + 1) r F1 F2 := by
  obtain ⟨hc, hr, hcom, hproj, hstarted, hd1, hd2, hjobs⟩ := hI
  have hb : (P1.UID == P2.UID) = false := by simpa using hne
  have hc3 : c < 3 := by
    by_contra hge
    have : c = 3 := by omega
    subst this
    simp [scenarioCallbacks] at he
  have hstep : (s.step e).jm = s.jm ∧
      ∃ p, (s.step e).tc = s.tc.addHandler p ∧
        (scenarioSent P1 P2 P1d)[c]? = some { Project := p, Status := actionOf p } ∧
        projectsSet p.UID (dataOf p) (scenarioProjects P1 P2 P1d c) =
          scenarioProjects P1 P2 P1d (c + 1) := by
    interval_cases c
    · simp only [scenarioCallbacks, List.getElem?_cons_zero, Option.some.injEq] at he
      subst he
      exact ⟨rfl, P1, rfl, by simp [scenarioSent, actionOf, h1],
        by simp [scenarioProjects, projectsSet]⟩
    · simp only [scenarioCallbacks, List.getElem?_cons_succ, List.getElem?_cons_zero,
        Option.some.injEq] at he
      subst he
      exact ⟨rfl, P2, rfl, by simp [scenarioSent, actionOf, h2],
        by simp [scenarioProjects, projectsSet, hb]⟩
    · simp only [scenarioCallbacks, List.getElem?_cons_succ, List.getElem?_cons_zero,
        Option.some.injEq] at he
      subst he
      exact ⟨rfl, P1d, rfl, by simp [scenarioSent, actionOf, hd],
        by simp [scenarioProjects, projectsSet, hu]⟩
  obtain ⟨hjm, p, htc, hsent, hset⟩ := hstep
  refine ⟨by omega, by omega, ?_, ?_, by rw [hjm]; exact hstarted, hd1, hd2, by rw [hjm]; exact hjobs⟩
  · rw [htc, addHandler_eq]
    simp only
    rw [hcom]
    have hlen : (scenarioSent P1 P2 P1d).length = 3 := rfl
    rw [List.take_succ, hsent]
    simp only [Option.toList]
    rw [List.drop_append_of_le_length (by simp [hlen]; omega)]
  · rw [htc, addHandler_eq]
    simp only [Server.BroadcastUpdate]
    rw [hproj, hset]

theorem ScenarioInv.receive {P1 P2 P1d : Project} {s : System} {c r : Nat} {F1 F2 : Prop}
    (hI : ScenarioInv P1 P2 P1d s c r F1 F2)
    (hu : P1d.UID = P1.UID) (hne : P1.UID ≠ P2.UID) :
    ∃ r2, ScenarioInv P1 P2 P1d (s.step .receive) c r2 F1 F2 := by
  obtain ⟨hc, hr, hcom, hproj, hstarted, hd1, hd2, gone, j1, j2, hlist, hp1, hp2, hgone, hF1,
    hnF1, hr2, hF2⟩ := hI
  have hb : (P1.UID == P2.UID) = false := by simpa using hne
  have hb2 : (P2.UID == P1.UID) = false := by simpa using fun e : P2.UID = P1.UID => hne e.symm
  by_cases hrc : r = c
  · subst hrc
    refine ⟨r, ?_⟩
    have hnil : s.tc.ComSig = [] := by rw [hcom]; simp
    have hstep : s.step .receive = s := by
      simp only [System.step, hnil]
    rw [hstep]
    exact ⟨hc, hr, hcom, hproj, hstarted, hd1, hd2, gone, j1, j2, hlist, hp1, hp2, hgone, hF1,
      hnF1, hr2, hF2⟩
  · have hlt : r < c := by omega
    have hnF : ¬ F1 := fun h => by have := hd1 h; omega
    have hng : gone = false := by
      cases gone with
      | false => rfl
      | true => exact absurd (hgone rfl) hnF
    subst hng
    refine ⟨r + 1, ?_⟩
    have hr3 : r = 0 ∨ r = 1 ∨ r = 2 := by omega
    rcases hr3 with rfl | rfl | rfl
    · -- the job of `P1` is created
      have hcs : s.tc.ComSig =
          { Project := P1, Status := .InitializeTenant } ::
            ((scenarioSent P1 P2 P1d).take c).drop 1 := by
        rw [hcom]
        have : c = 1 ∨ c = 2 ∨ c = 3 := by omega
        rcases this with rfl | rfl | rfl <;> simp [scenarioSent]
      have hjl : s.jm.jobList = [] := by simpa using hlist
      refine ⟨hc, by omega, ?_, ?_, ?_, fun h => absurd h hnF,
        (fun h => by have := hd2 h; omega),
        false, runStore (newJob P1 s.jm.jobCfg s.jm.endpointsCfg), j2, ?_, rfl, hp2,
        (fun h => by cases h), fun h => absurd h hnF, fun _ => rfl, hr2,
        (fun h => by have := hd2 h; omega)⟩
      · simp [System.step, hcs]
      · simp [System.step, hcs, hproj]
      · simp [System.step, hcs, JobManager.step, startJob, mapGet, hjl, hstarted, scenarioExecs,
          runStore, newJob]
      · simp [System.step, hcs, JobManager.step, startJob, mapGet, mapSet, hjl]
    · -- the job of `P2` is created
      have hcs : s.tc.ComSig =
          { Project := P2, Status := .InitializeTenant } ::
            ((scenarioSent P1 P2 P1d).take c).drop 2 := by
        rw [hcom]
        have : c = 2 ∨ c = 3 := by omega
        rcases this with rfl | rfl <;> simp [scenarioSent]
      have hjl : s.jm.jobList = [(P1.UID, j1)] := by simpa using hlist
      refine ⟨hc, by omega, ?_, ?_, ?_, fun h => absurd h hnF, fun _ => le_refl 2,
        false, j1, runStore (newJob P2 s.jm.jobCfg s.jm.endpointsCfg), ?_, hp1, rfl,
        (fun h => by cases h), fun h => absurd h hnF, hnF1, rfl,
        (fun h => by have := hd2 h; omega)⟩
      · simp [System.step, hcs]
      · simp [System.step, hcs, hproj]
      · simp [System.step, hcs, JobManager.step, startJob, mapGet, hjl, hstarted, scenarioExecs,
          runStore, newJob, hb]
      · simp [System.step, hcs, JobManager.step, startJob, mapGet, mapSet, hjl, hb]
    · -- the job of `P1` is run again, for the cleanup
      have hc3 : c = 3 := by omega
      subst hc3
      have hcs : s.tc.ComSig = [{ Project := P1d, Status := .CleanupTenant }] := by
        rw [hcom]; simp [scenarioSent]
      have hjl : s.jm.jobList = [(P1.UID, j1), (P2.UID, j2)] := by simpa using hlist
      refine ⟨hc, by omega, ?_, ?_, ?_, fun _ => rfl, (fun _ => by omega),
        false, runStore j1, j2, ?_, hp1, hp2,
        (fun h => by cases h), fun h => absurd h hnF, fun _ => rfl, hr2, hF2⟩
      · simp [System.step, hcs, scenarioSent]
      · simp [System.step, hcs, hproj]
      · simp [System.step, hcs, JobManager.step, startJob, mapGet, hjl, hstarted, scenarioExecs,
          runStore, hu, hp1]
      · simp [System.step, hcs, JobManager.step, startJob, mapGet, mapSet, hjl, hu]

theorem reaped_false_iff (st : jobStatus) :
    reaped st = false ↔ st ≠ .tenantDeleted ∧ st ≠ .tenantIDsNotMatch := by
  cases st <;> simp [reaped]

theorem sweep_started (jm : JobManager) : (sweep jm).started = jm.started :=
  (sweep_fold_fields jm.jobList jm).1

theorem ScenarioInv.tick {P1 P2 P1d : Project} {s : System} {c r : Nat} {F1 F2 : Prop}
    (hI : ScenarioInv P1 P2 P1d s c r F1 F2) (hne : P1.UID ≠ P2.UID) :
    ScenarioInv P1 P2 P1d (s.step .tick) c r F1 F2 := by
  obtain ⟨hc, hr, hcom, hproj, hstarted, hd1, hd2, gone, j1, j2, hlist, hp1, hp2, hgone, hF1,
    hnF1, hr2, hF2⟩ := hI
  have hb : (P1.UID == P2.UID) = false := by simpa using hne
  have hb2 : (P2.UID == P1.UID) = false := by simpa using fun e : P2.UID = P1.UID => hne e.symm
  have hjl : (s.step .tick).jm.jobList =
      s.jm.jobList.filter (fun e =>
        !(s.jm.jobList.any (fun d => d.1 == e.1 && reaped d.2.status))) := by
    simp only [System.step, JobManager.step, sweep]
    exact sweep_fold_jobList _ _
  have hst : (s.step .tick).jm.started = s.jm.started := by
    simp only [System.step, JobManager.step]
    exact sweep_started _
  refine ⟨hc, hr, hcom, hproj, by rw [hst]; exact hstarted, hd1, hd2, ?_⟩
  by_cases hF : F1
  · have hr3 := hd1 hF
    subst hr3
    have hs1 := hF1 hF
    refine ⟨true, j1, j2, ?_, hp1, hp2, fun _ => hF, hF1, hnF1, hr2, hF2⟩
    have hj2 := (reaped_false_iff j2.status).mp hr2
    rw [hjl, hlist]
    cases gone <;> simp [hs1, reaped, hb, hb2, hne, hj2.1, hj2.2]
  · have hs1 := hnF1 hF
    have hng : gone = false := by
      cases gone with
      | false => rfl
      | true => exact absurd (hgone rfl) hF
    subst hng
    refine ⟨false, j1, j2, ?_, hp1, hp2, hgone, hF1, hnF1, hr2, hF2⟩
    rw [hjl, hlist]
    have hr4 : r = 0 ∨ r = 1 ∨ r = 2 ∨ r = 3 := by omega
    rcases hr4 with rfl | rfl | rfl | rfl <;> simp [hs1, hr2, hb, hb2]

theorem ScenarioInv.storeCancelFn {P1 P2 P1d : Project} {s : System} {c r : Nat}
    {F1 F2 : Prop} (hI : ScenarioInv P1 P2 P1d s c r F1 F2) (hne : P1.UID ≠ P2.UID)
    (uid : String) (ctxId : Nat) :
    ScenarioInv P1 P2 P1d (s.step (.storeCancelFn uid ctxId)) c r F1 F2 := by
  obtain ⟨hc, hr, hcom, hproj, hstarted, hd1, hd2, gone, j1, j2, hlist, hp1, hp2, hgone, hF1,
    hnF1, hr2, hF2⟩ := hI
  have hb : (P1.UID == P2.UID) = false := by simpa using hne
  have hb2 : (P2.UID == P1.UID) = false := by simpa using fun e : P2.UID = P1.UID => hne e.symm
  have hst : (s.step (.storeCancelFn uid ctxId)).jm.started = s.jm.started := by
    simp only [System.step, JobManager.step]
    split <;> rfl
  refine ⟨hc, hr, hcom, hproj, by rw [hst]; exact hstarted, hd1, hd2, ?_⟩
  by_cases hu1 : uid = P1.UID
  · subst hu1
    refine ⟨gone, { j1 with cancelFn := some ctxId }, j2, ?_, hp1, hp2, hgone, hF1, hnF1, hr2,
      hF2⟩
    simp only [System.step, JobManager.step, hlist]
    have hr4 : r = 0 ∨ r = 1 ∨ r = 2 ∨ r = 3 := by omega
    rcases hr4 with rfl | rfl | rfl | rfl <;> cases gone <;> simp [mapGet, mapSet, hb, hb2, hlist]
  · by_cases hu2 : uid = P2.UID
    · subst hu2
      refine ⟨gone, j1, { j2 with cancelFn := some ctxId }, ?_, hp1, hp2, hgone, hF1, hnF1,
        hr2, hF2⟩
      simp only [System.step, JobManager.step, hlist]
      have hr4 : r = 0 ∨ r = 1 ∨ r = 2 ∨ r = 3 := by omega
      rcases hr4 with rfl | rfl | rfl | rfl <;> cases gone <;> simp [mapGet, mapSet, hb, hb2, hlist]
    · refine ⟨gone, j1, j2, ?_, hp1, hp2, hgone, hF1, hnF1, hr2, hF2⟩
      have h1 : (P1.UID == uid) = false := by simpa using fun e : P1.UID = uid => hu1 e.symm
      have h2 : (P2.UID == uid) = false := by simpa using fun e : P2.UID = uid => hu2 e.symm
      simp only [System.step, JobManager.step, hlist]
      have hr4 : r = 0 ∨ r = 1 ∨ r = 2 ∨ r = 3 := by omega
      rcases hr4 with rfl | rfl | rfl | rfl <;> cases gone <;> simp [mapGet, h1, h2, hlist]

theorem ScenarioInv.storeFirst {P1 P2 P1d : Project} {s : System} {c r : Nat}
    {F1 F2 G1 : Prop} (hI : ScenarioInv P1 P2 P1d s c r F1 F2) (hne : P1.UID ≠ P2.UID)
    (st : jobStatus) (hnF : ¬ F1)
    (hnew : G1 → st = .tenantDeleted ∧
      ({ uid := P1.UID, project := P1, action := .CleanupTenant } : Execution) ∈ s.jm.started)
    (hold : ¬ G1 → st = .jobCancelled ∨ st = .tenantCreated) :
    ScenarioInv P1 P2 P1d (s.step (.storeStatus P1.UID st)) c r G1 F2 := by
  obtain ⟨hc, hr, hcom, hproj, hstarted, hd1, hd2, gone, j1, j2, hlist, hp1, hp2, hgone, hF1,
    hnF1, hr2, hF2⟩ := hI
  have hb : (P1.UID == P2.UID) = false := by simpa using hne
  have hb2 : (P2.UID == P1.UID) = false := by simpa using fun e : P2.UID = P1.UID => hne e.symm
  have hng : gone = false := by
    cases gone with
    | false => rfl
    | true => exact absurd (hgone rfl) hnF
  subst hng
  have hst : (s.step (.storeStatus P1.UID st)).jm.started = s.jm.started := by
    simp only [System.step, JobManager.step]
    split <;> rfl
  have hG3 : G1 → r = 3 := fun hG =>
    scenarioExecs_cleanup P1 P2 r (by omega) (hstarted ▸ (hnew hG).2)
  refine ⟨hc, hr, hcom, hproj, by rw [hst]; exact hstarted, hG3, hd2,
    false, { j1 with status := st }, j2, ?_, hp1, hp2, (fun h => by cases h),
    (fun hG => (hnew hG).1), ?_, hr2, hF2⟩
  · simp only [System.step, JobManager.step, hlist]
    have hr4 : r = 0 ∨ r = 1 ∨ r = 2 ∨ r = 3 := by omega
    rcases hr4 with rfl | rfl | rfl | rfl <;> simp [mapGet, mapSet, hb, hb2, hlist]
  · intro hG
    rcases hold hG with h | h <;> simp [h, reaped]

theorem ScenarioInv.storeSecond {P1 P2 P1d : Project} {s : System} {c r : Nat}
    {F1 F2 G2 : Prop} (hI : ScenarioInv P1 P2 P1d s c r F1 F2) (hne : P1.UID ≠ P2.UID)
    (hnew : G2 → F2 ∨
      ({ uid := P2.UID, project := P2, action := .InitializeTenant } : Execution) ∈
        s.jm.started) :
    ScenarioInv P1 P2 P1d (s.step (.storeStatus P2.UID .tenantCreated)) c r F1 G2 := by
  obtain ⟨hc, hr, hcom, hproj, hstarted, hd1, hd2, gone, j1, j2, hlist, hp1, hp2, hgone, hF1,
    hnF1, hr2, hF2⟩ := hI
  have hb : (P1.UID == P2.UID) = false := by simpa using hne
  have hb2 : (P2.UID == P1.UID) = false := by simpa using fun e : P2.UID = P1.UID => hne e.symm
  have hst : (s.step (.storeStatus P2.UID .tenantCreated)).jm.started = s.jm.started := by
    simp only [System.step, JobManager.step]
    split <;> rfl
  have hG2 : G2 → 2 ≤ r := fun hG => by
    rcases hnew hG with h | h
    · exact hd2 h
    · exact scenarioExecs_second P1 P2 hne r (by omega) (hstarted ▸ h)
  refine ⟨hc, hr, hcom, hproj, by rw [hst]; exact hstarted, hd1, hG2,
    gone, j1, { j2 with status := .tenantCreated }, ?_, hp1, hp2, hgone, hF1, hnF1,
    (by simp [reaped]), (fun _ => rfl)⟩
  simp only [System.step, JobManager.step, hlist]
  have hr4 : r = 0 ∨ r = 1 ∨ r = 2 ∨ r = 3 := by omega
  rcases hr4 with rfl | rfl | rfl | rfl <;> cases gone <;> simp [mapGet, mapSet, hb, hb2, hlist]

theorem getElem_of_split {α : Type} (l pre post : List α) (x e : α) (n : Nat)
    (h : l = pre ++ x :: post) (he : l[n]? = some e) :
    (n < pre.length ∧ e ∈ pre) ∨ (n = pre.length ∧ e = x) ∨ (pre.length < n ∧ e ∈ post) := by
  subst h
  rcases Nat.lt_trichotomy n pre.length with hlt | heq | hgt
  · left
    rw [List.getElem?_append_left hlt] at he
    exact ⟨hlt, List.getElem?_mem he⟩
  · right; left
    subst heq
    rw [List.getElem?_append_right (le_refl _)] at he
    simp at he
    exact ⟨rfl, he.symm⟩
  · right; right
    rw [List.getElem?_append_right hgt.le] at he
    obtain ⟨k, hk⟩ : ∃ k, n - pre.length = k + 1 := ⟨n - pre.length - 1, by omega⟩
    rw [hk] at he
    simp at he
    exact ⟨hgt, List.getElem?_mem he⟩

theorem take_of_split {α : Type} (l pre post : List α) (x : α) (h : l = pre ++ x :: post) :
    l.take pre.length = pre := by
  subst h; simp

theorem take_succ_of_get {α : Type} (l : List α) (n : Nat) (e : α) (he : l[n]? = some e) :
    l.take (n + 1) = l.take n ++ [e] := by
  rw [List.take_succ, he]; rfl

theorem filter_take_next {α : Type} (f : α → Bool) (l cbs : List α) (n c : Nat) (e : α)
    (he : l[n]? = some e) (hf : f e = true) (hall : l.filter f = cbs)
    (hpre : (l.take n).filter f = cbs.take c) (hc : c ≤ cbs.length) :
    cbs[c]? = some e := by
  have hsplit : l = l.take n ++ e :: l.drop (n + 1) := by
    have hn : n < l.length := by
      by_contra hge
      rw [List.getElem?_eq_none (by omega)] at he
      cases he
    have := List.getElem?_eq_some.mp he
    obtain ⟨_, hget⟩ := this
    rw [← hget]
    exact (List.take_append_drop n l).symm.trans (by rw [List.drop_eq_getElem_cons hn])
  have h2 : cbs = cbs.take c ++ e :: (l.drop (n + 1)).filter f := by
    rw [← hall]
    conv_lhs => rw [hsplit]
    rw [List.filter_append, List.filter_cons_of_pos hf, hpre, hall]
  have hlen : (cbs.take c).length = c := by simp [hc]
  conv_lhs => rw [h2]
  rw [List.getElem?_append_right (by omega)]
  simp [hlen]

theorem scenario_invariant (P1 P2 old P1d : Project) (jCfg : config.Job)
    (endpoints : config.Endpoints) (events pre1 post1 pre2 post2 : List SysEvent)
    (h1 : P1.Deleted = false) (h2 : P2.Deleted = false) (hd : P1d.Deleted = true)
    (hu : P1d.UID = P1.UID) (hne : P1.UID ≠ P2.UID)
    (hcb : events.filter SysEvent.isCallback = scenarioCallbacks P1 P2 old P1d)
    (hst : ∀ e ∈ events, scenarioStore P1 P2 e = true)
    (hsplit1 : events = pre1 ++ .storeStatus P1.UID .tenantDeleted :: post1)
    (hpre1 : SysEvent.storeStatus P1.UID .tenantDeleted ∉ pre1)
    (hpost1 : ∀ st, SysEvent.storeStatus P1.UID st ∉ post1)
    (hstart1 : ({ uid := P1.UID, project := P1, action := .CleanupTenant } : Execution) ∈
      ((System.init jCfg endpoints).steps pre1).jm.started)
    (hsplit2 : events = pre2 ++ .storeStatus P2.UID .tenantCreated :: post2)
    (hstart2 : ({ uid := P2.UID, project := P2, action := .InitializeTenant } : Execution) ∈
      ((System.init jCfg endpoints).steps pre2).jm.started)
    (n : Nat) (hn : n ≤ events.length) :
    ∃ c r, ScenarioInv P1 P2 P1d ((System.init jCfg endpoints).steps (events.take n)) c r
        (pre1.length < n) (pre2.length < n) ∧
      (events.take n).filter SysEvent.isCallback = (scenarioCallbacks P1 P2 old P1d).take c := by
  induction n with
  | zero =>
    refine ⟨0, 0, ⟨by omega, le_refl 0, rfl, rfl, rfl, (fun h => by omega), (fun h => by omega),
      false, newJob P1 jCfg endpoints, newJob P2 jCfg endpoints, rfl, rfl, rfl,
      (fun h => by cases h), (fun h => by omega), (fun _ => rfl), rfl, (fun h => by omega)⟩,
      by simp⟩
  | succ n ih =>
    have hlt : n < events.length := by omega
    obtain ⟨c, r, hI, hf⟩ := ih (by omega)
    obtain ⟨e, he⟩ : ∃ e, events[n]? = some e := ⟨events[n], List.getElem?_eq_getElem hlt⟩
    have hmem : e ∈ events := List.getElem?_mem he
    have hsc := hst e hmem
    have hpos1 := getElem_of_split events pre1 post1 _ e n hsplit1 he
    have hpos2 := getElem_of_split events pre2 post2 _ e n hsplit2 he
    have hneq1 : e ≠ .storeStatus P1.UID .tenantDeleted → n ≠ pre1.length := by
      intro hx heq
      rcases hpos1 with ⟨h, _⟩ | ⟨_, h⟩ | ⟨h, _⟩
      · omega
      · exact hx h
      · omega
    have hneq2 : e ≠ .storeStatus P2.UID .tenantCreated → n ≠ pre2.length := by
      intro hx heq
      rcases hpos2 with ⟨h, _⟩ | ⟨_, h⟩ | ⟨h, _⟩
      · omega
      · exact hx h
      · omega
    have hiff : ∀ m : Nat, n ≠ m → (m < n + 1 ↔ m < n) := fun m hm => by omega
    rw [take_succ_of_get events n e he, System.steps_snoc, List.filter_append]
    have hcallback : SysEvent.isCallback e = true →
        ∃ c r, ScenarioInv P1 P2 P1d (((System.init jCfg endpoints).steps (events.take n)).step e)
            c r (pre1.length < n + 1) (pre2.length < n + 1) ∧
          (events.take n).filter SysEvent.isCallback ++ [e].filter SysEvent.isCallback =
            (scenarioCallbacks P1 P2 old P1d).take c := by
      intro hcbe
      have hidx := filter_take_next SysEvent.isCallback events _ n c e he hcbe hcb hf hI.c_le
      have hI2 := hI.callback old e hidx hu hne h1 h2 hd
      have hx1 : e ≠ .storeStatus P1.UID .tenantDeleted := by
        intro hx; rw [hx] at hcbe; cases hcbe
      have hx2 : e ≠ .storeStatus P2.UID .tenantCreated := by
        intro hx; rw [hx] at hcbe; cases hcbe
      refine ⟨c + 1, r, hI2.congr (hiff _ (hneq1 hx1)) (hiff _ (hneq2 hx2)), ?_⟩
      rw [hf, List.take_succ, hidx]
      simp [hcbe]
    have hother : SysEvent.isCallback e = false → ∀ r2,
        ScenarioInv P1 P2 P1d (((System.init jCfg endpoints).steps (events.take n)).step e)
            c r2 (pre1.length < n + 1) (pre2.length < n + 1) →
        ∃ c r, ScenarioInv P1 P2 P1d (((System.init jCfg endpoints).steps (events.take n)).step e)
            c r (pre1.length < n + 1) (pre2.length < n + 1) ∧
          (events.take n).filter SysEvent.isCallback ++ [e].filter SysEvent.isCallback =
            (scenarioCallbacks P1 P2 old P1d).take c := by
      intro hcbe r2 hI2
      exact ⟨c, r2, hI2, by rw [hf]; simp [hcbe]⟩
    cases e with
    | add p => exact hcallback rfl
    | update o p => exact hcallback rfl
    | receive =>
      obtain ⟨r2, hI2⟩ := hI.receive hu hne
      exact hother rfl r2
        (hI2.congr (hiff _ (hneq1 (by simp))) (hiff _ (hneq2 (by simp))))
    | tick =>
      exact hother rfl r
        ((hI.tick hne).congr (hiff _ (hneq1 (by simp))) (hiff _ (hneq2 (by simp))))
    | storeCancelFn uid ctxId =>
      exact hother rfl r
        ((hI.storeCancelFn hne uid ctxId).congr (hiff _ (hneq1 (by simp)))
          (hiff _ (hneq2 (by simp))))
    | storeStatus uid st =>
      simp only [scenarioStore, Bool.or_eq_true, Bool.and_eq_true, beq_iff_eq] at hsc
      rcases hsc with ⟨huid, hval⟩ | ⟨huid, hval⟩
      · subst huid
        have hnF : ¬ pre1.length < n := by
          intro hgt
          rcases hpos1 with ⟨h, _⟩ | ⟨h, _⟩ | ⟨_, h⟩
          · omega
          · omega
          · exact hpost1 st h
        have hx2 : SysEvent.storeStatus P1.UID st ≠ .storeStatus P2.UID .tenantCreated := by
          intro hx
          simp only [SysEvent.storeStatus.injEq] at hx
          exact hne hx.1
        refine hother rfl r ((hI.storeFirst hne st hnF ?_ ?_).congr Iff.rfl
          (hiff _ (hneq2 hx2)))
        · intro hG
          have hn1 : n = pre1.length := by omega
          rcases hpos1 with ⟨h, _⟩ | ⟨_, h⟩ | ⟨h, _⟩
          · omega
          · simp only [SysEvent.storeStatus.injEq] at h
            refine ⟨h.2, ?_⟩
            rw [hn1, take_of_split events pre1 post1 _ hsplit1]
            exact hstart1
          · omega
        · intro hG
          have hn1 : n < pre1.length := by
            rcases hpos1 with ⟨h, _⟩ | ⟨h, _⟩ | ⟨h, _⟩ <;> omega
          rcases hpos1 with ⟨_, h⟩ | ⟨h, _⟩ | ⟨h, _⟩
          · have hnd : st ≠ .tenantDeleted := by
              intro hx; subst hx; exact hpre1 h
            rcases hval with (hv | hv) | hv
            · exact Or.inl hv
            · exact Or.inr hv
            · exact absurd hv hnd
          · omega
          · omega
      · subst huid
        subst hval
        have hx1 : SysEvent.storeStatus P2.UID .tenantCreated ≠
            .storeStatus P1.UID .tenantDeleted := by
          intro hx
          simp only [SysEvent.storeStatus.injEq] at hx
          exact hne hx.1.symm
        refine hother rfl r ((hI.storeSecond hne ?_).congr (hiff _ (hneq1 hx1)) Iff.rfl)
        intro hG
        by_cases hlt2 : pre2.length < n
        · exact Or.inl hlt2
        · right
          have hn2 : n = pre2.length := by omega
          rw [hn2, take_of_split events pre2 post2 _ hsplit2]
          exact hstart2

/-- **C24, as the spec words it, fails.** In the scenario with `P1 = foo` and `P2 = bar`,
after all background functions have ended and a sweep has run, the snapshot does not
contain `bar` alone: it has the two keys `foo` and `bar`, and `foo` is recorded with the
status `Deleted`. And when the cancelled initialization of `foo` stores its status after
the cleanup of `foo` has stored `tenantDeleted`, the job of `foo` is left in the status
`jobCancelled` and the sweep does not remove it. -/
theorem scenario_snapshot_keeps_deleted_project :
    ((System.init testConfigJob testConfigEndpoints).steps
      (scenarioFooBar ++ [.tick])).tc.grpcServer.keys = ["foo", "bar"] ∧
    projectsGet "foo" ((System.init testConfigJob testConfigEndpoints).steps
      (scenarioFooBar ++ [.tick])).tc.grpcServer.Projects =
      some { ProjectName := "foo-renamed", OrgID := "", Status := .ProjectDeleted } ∧
    (mapGet "foo" ((System.init testConfigJob testConfigEndpoints).steps
      (scenarioFooBarLateStore ++ [.tick])).jm.jobList).map (fun j => j.status) =
      some .jobCancelled := by
  refine ⟨?_, ?_, ?_⟩ <;> decide

/-- **C24, amended.** The callbacks `Add(P1, active)`, `Add(P2, active)` and
`Update(P1, deleted)` run in this order, interleaved in any way with the receives and the
sweeps of the job manager and with the stores of the background executions, where every
backend and watcher call succeeds: into the job of `P1` the initialization stores
`jobCancelled` or `tenantCreated` and the cleanup stores `tenantDeleted`, into the job of
`P2` the initialization stores `tenantCreated`. The cleanup of `P1` stores its status after
it has been started and is the last execution to store into the job of `P1`; the
initialization of `P2` stores its status after it has been started. The project the update
carries may differ from `P1` in anything but the UID. Then the job of `P1` is in the status
`tenantDeleted` when the cleanup has stored, and after all events and a sweep it has been
removed from the job table; the job table holds the job of `P2` and no other, in the status
`tenantCreated`; every value sent on `ComSig` has been received; and the project snapshot
holds `P1`, as the update carried it, with status `Deleted`, and `P2` with status
`Created`. -/
theorem scenario_add_add_update (P1 P2 old P1d : Project) (jCfg : config.Job)
    (endpoints : config.Endpoints) (events pre1 post1 pre2 post2 : List SysEvent)
    (h1 : P1.Deleted = false) (h2 : P2.Deleted = false) (hd : P1d.Deleted = true)
    (hu : P1d.UID = P1.UID) (hne : P1.UID ≠ P2.UID)
    (hcb : events.filter SysEvent.isCallback = scenarioCallbacks P1 P2 old P1d)
    (hst : ∀ e ∈ events, scenarioStore P1 P2 e = true)
    (hsplit1 : events = pre1 ++ .storeStatus P1.UID .tenantDeleted :: post1)
    (hpre1 : SysEvent.storeStatus P1.UID .tenantDeleted ∉ pre1)
    (hpost1 : ∀ st, SysEvent.storeStatus P1.UID st ∉ post1)
    (hstart1 : ({ uid := P1.UID, project := P1, action := .CleanupTenant } : Execution) ∈
      ((System.init jCfg endpoints).steps pre1).jm.started)
    (hsplit2 : events = pre2 ++ .storeStatus P2.UID .tenantCreated :: post2)
    (hstart2 : ({ uid := P2.UID, project := P2, action := .InitializeTenant } : Execution) ∈
      ((System.init jCfg endpoints).steps pre2).jm.started) :
    (mapGet P1.UID ((System.init jCfg endpoints).steps
      (pre1 ++ [.storeStatus P1.UID .tenantDeleted])).jm.jobList).map (fun j => j.status) =
      some .tenantDeleted ∧
    mapGet P1.UID ((System.init jCfg endpoints).steps (events ++ [.tick])).jm.jobList = none ∧
    (mapGet P2.UID ((System.init jCfg endpoints).steps (events ++ [.tick])).jm.jobList).map
      (fun j => j.status) = some .tenantCreated ∧
    ((System.init jCfg endpoints).steps (events ++ [.tick])).jm.jobList.map Prod.fst =
      [P2.UID] ∧
    ((System.init jCfg endpoints).steps (events ++ [.tick])).tc.ComSig = [] ∧
    ((System.init jCfg endpoints).steps (events ++ [.tick])).tc.grpcServer.Projects =
      [(P1.UID, { ProjectName := P1d.DisplayName, OrgID := orgLabel P1d,
                  Status := .ProjectDeleted }),
       (P2.UID, { ProjectName := P2.DisplayName, OrgID := orgLabel P2,
                  Status := .ProjectCreated })] := by
  have hb : (P1.UID == P2.UID) = false := by simpa using hne
  have hb2 : (P2.UID == P1.UID) = false := by simpa using fun e : P2.UID = P1.UID => hne e.symm
  have hinv := scenario_invariant P1 P2 old P1d jCfg endpoints events pre1 post1 pre2 post2
    h1 h2 hd hu hne hcb hst hsplit1 hpre1 hpost1 hstart1 hsplit2 hstart2
  have hlen1 : events.length = pre1.length + 1 + post1.length := by
    rw [hsplit1]; simp; omega
  have hlen2 : events.length = pre2.length + 1 + post2.length := by
    rw [hsplit2]; simp; omega
  constructor
  · -- the state in which the cleanup stores
    obtain ⟨c, r, hI, _⟩ := hinv pre1.length (by omega)
    rw [take_of_split events pre1 post1 _ hsplit1] at hI
    obtain ⟨hc, hr, hcom, hproj, hstarted, hd1, hd2, gone, j1, j2, hlist, hp1, hp2, hgone, hF1,
      hnF1, hr2, hF2⟩ := hI
    have hr3 : r = 3 := scenarioExecs_cleanup P1 P2 r (by omega) (hstarted ▸ hstart1)
    subst hr3
    have hng : gone = false := by
      cases gone with
      | false => rfl
      | true => exact absurd (hgone rfl) (by omega)
    subst hng
    rw [System.steps_snoc]
    simp only [System.step, JobManager.step, hlist]
    simp [mapGet, mapSet, hb, hb2]
  · -- the state after all events
    obtain ⟨c, r, hI, hf⟩ := hinv events.length (le_refl _)
    rw [List.take_length] at hI hf
    have hc3 : c = 3 := by
      have hc := hI.c_le
      have : ((scenarioCallbacks P1 P2 old P1d).take c).length = 3 := by
        rw [← hf, hcb]; rfl
      simp [scenarioCallbacks] at this
      omega
    subst hc3
    obtain ⟨hc, hr, hcom, hproj, hstarted, hd1, hd2, gone, j1, j2, hlist, hp1, hp2, hgone, hF1,
      hnF1, hr2, hF2⟩ := hI
    have hr3 : r = 3 := hd1 (by omega)
    subst hr3
    have hs1 := hF1 (by omega)
    have hs2 := hF2 (by omega)
    have hjl : (((System.init jCfg endpoints).steps events).step .tick).jm.jobList =
        [(P2.UID, j2)] := by
      have : (((System.init jCfg endpoints).steps events).step .tick).jm.jobList =
          ((System.init jCfg endpoints).steps events).jm.jobList.filter (fun e =>
            !(((System.init jCfg endpoints).steps events).jm.jobList.any
              (fun d => d.1 == e.1 && reaped d.2.status))) := by
        simp only [System.step, JobManager.step, sweep]
        exact sweep_fold_jobList _ _
      rw [this, hlist]
      cases gone <;> simp [hs1, hs2, reaped, hb, hb2, hne]
    have htc : (((System.init jCfg endpoints).steps events).step .tick).tc =
        ((System.init jCfg endpoints).steps events).tc := rfl
    rw [System.steps_snoc, hjl, htc, hcom, hproj]
    refine ⟨?_, ?_, rfl, ?_, ?_⟩
    · simp [mapGet, hb2]
    · simp [mapGet, hs2]
    · simp [scenarioSent]
    · simp [scenarioProjects, dataOf, hd, h2]

/-- The scenario with `P1 = foo` and `P2 = bar`, the update renaming `foo`: after the sweep
the job table holds the job of `bar` alone, and the snapshot holds both projects. -/
theorem scenario_add_add_update_witness :
    mapGet "foo" ((System.init testConfigJob testConfigEndpoints).steps
      (scenarioFooBar ++ [.tick])).jm.jobList = none ∧
    ((System.init testConfigJob testConfigEndpoints).steps
      (scenarioFooBar ++ [.tick])).tc.grpcServer.Projects =
      [("foo", { ProjectName := "foo-renamed", OrgID := "", Status := .ProjectDeleted }),
       ("bar", { ProjectName := "bar", OrgID := "", Status := .ProjectCreated })] :=
  have h := scenario_add_add_update projectFoo projectBar projectFoo projectFooDeleted
    testConfigJob testConfigEndpoints scenarioFooBar scenarioFooBar.dropLast []
    (scenarioFooBar.take 10) (scenarioFooBar.drop 11)
    rfl rfl rfl rfl (by decide) (by decide) (by decide) (by decide) (by decide)
    (by simp) (by decide) (by decide) (by decide)
  ⟨h.2.1, h.2.2.2.2.2⟩

/-! ## Theorems: the attempts -/

theorem errgroupWait_eq_none (results : List (Option GoError)) (first : Nat) :
    errgroupWait results first = none ↔ ∀ r, r ∈ results → r = none := by
  unfold errgroupWait
  cases h : (results.get? first).join with
  | some e =>
    have hmem : some e ∈ results := by
      cases hg : results.get? first with
      | none => rw [hg] at h; simp at h
      | some r =>
        rw [hg] at h
        simp only [Option.join] at h
        rw [← h]
        exact List.get?_mem hg
    simp only [reduceCtorEq, false_iff]
    intro hall
    exact absurd (hall _ hmem) (by simp)
  | none =>
    simp only [List.findSome?_eq_none_iff, id]

theorem errgroupWait_mem (results : List (Option GoError)) (first : Nat) (e : GoError)
    (h : errgroupWait results first = some e) : some e ∈ results := by
  unfold errgroupWait at h
  cases hj : (results.get? first).join with
  | some e2 =>
    rw [hj] at h
    simp only [Option.some.injEq] at h
    subst h
    cases hg : results.get? first with
    | none => rw [hg] at hj; simp at hj
    | some r =>
      rw [hg] at hj
      simp only [Option.join] at hj
      rw [← hj]
      exact List.get?_mem hg
  | none =>
    rw [hj] at h
    simp only at h
    obtain ⟨a, ha, hid⟩ := List.exists_of_findSome?_eq_some h
    simp only [id] at hid
    rw [← hid]
    exact ha

theorem attempt_unfold (action : Action) (j : job) (ctx : Ctx) (reply : AttemptReply) :
    attempt action j ctx reply =
      match (firstReport action j ctx reply).err with
      | some err =>
        { err := some err, calls := (firstReport action j ctx reply).calls, backends := [] }
      | none =>
        match errgroupWait ((backendSet action j.jobCfg.SreEnabled).map (backendError ctx reply))
            reply.first with
        | some err =>
          { err := some err, calls := (firstReport action j ctx reply).calls,
            backends := backendSet action j.jobCfg.SreEnabled }
        | none =>
          { err := (closingStep action j ctx reply).err,
            calls := (firstReport action j ctx reply).calls ++
              (closingStep action j ctx reply).calls,
            backends := backendSet action j.jobCfg.SreEnabled } := by
  cases action <;> cases hs : j.jobCfg.SreEnabled <;>
    simp only [attempt, initializeTenant, cleanupTenant, firstReport, closingStep, backendSet,
      backendError, hs, Bool.false_eq_true, if_false, if_true, List.append_nil, List.map_cons,
      List.map_nil, List.cons_append, List.nil_append, List.singleton_append]

/-- **C25.** Every attempt of `initializeTenant` and of `cleanupTenant` begins with the
report of `InProgress` to the watcher. If that report fails, the attempt returns its error
and starts no backend action. Otherwise it starts exactly the backend actions of its
action: for an initialization the alerting monitor, and the sre-exporter exactly when SRE
is enabled; for a cleanup the alerting monitor, the sre-exporter exactly when SRE is
enabled, the log store and the metrics store. When every one of them returned nil the
attempt goes on to report `Idle` (initialization) or to delete the watcher (cleanup) and
returns what that call returns; when one of them failed it returns the error of one that
failed and makes no further watcher call. -/
theorem attempt_report_fanout_closing (action : Action) (j : job) (ctx : Ctx)
    (reply : AttemptReply) :
    (firstReport action j ctx reply).calls <+: (attempt action j ctx reply).calls ∧
    (∀ e, (firstReport action j ctx reply).err = some e →
      (attempt action j ctx reply).err = some e ∧
      (attempt action j ctx reply).backends = [] ∧
      (attempt action j ctx reply).calls = (firstReport action j ctx reply).calls) ∧
    ((firstReport action j ctx reply).err = none →
      (attempt action j ctx reply).backends = backendSet action j.jobCfg.SreEnabled ∧
      ((∀ b, b ∈ backendSet action j.jobCfg.SreEnabled → backendError ctx reply b = none) →
        (attempt action j ctx reply).err = (closingStep action j ctx reply).err ∧
        (attempt action j ctx reply).calls =
          (firstReport action j ctx reply).calls ++ (closingStep action j ctx reply).calls) ∧
      ((∃ b, b ∈ backendSet action j.jobCfg.SreEnabled ∧ backendError ctx reply b ≠ none) →
        (∃ b e, b ∈ backendSet action j.jobCfg.SreEnabled ∧ backendError ctx reply b = some e ∧
          (attempt action j ctx reply).err = some e) ∧
        (attempt action j ctx reply).calls = (firstReport action j ctx reply).calls)) ∧
    (backendSet .InitializeTenant j.jobCfg.SreEnabled =
        if j.jobCfg.SreEnabled then [.amInitialize, .sreInitialize] else [.amInitialize]) ∧
    (backendSet .CleanupTenant j.jobCfg.SreEnabled =
        if j.jobCfg.SreEnabled then [.amCleanup, .sreCleanup, .lokiCleanup, .mimirCleanup]
        else [.amCleanup, .lokiCleanup, .mimirCleanup]) := by
  rw [attempt_unfold]
  refine ⟨?_, ?_, ?_, ?_, ?_⟩
  · cases (firstReport action j ctx reply).err with
    | some e => simp
    | none =>
      cases errgroupWait ((backendSet action j.jobCfg.SreEnabled).map (backendError ctx reply))
        reply.first <;> simp
  · intro e he
    simp [he]
  · intro h1
    simp only [h1]
    cases hw : errgroupWait ((backendSet action j.jobCfg.SreEnabled).map
        (backendError ctx reply)) reply.first with
    | none =>
      have hall := (errgroupWait_eq_none _ _).mp hw
      refine ⟨rfl, fun _ => ⟨rfl, rfl⟩, fun ⟨b, hb, hne⟩ => ?_⟩
      exact absurd (hall _ (List.mem_map.mpr ⟨b, hb, rfl⟩)) hne
    | some e =>
      have hmem := errgroupWait_mem _ _ _ hw
      obtain ⟨b, hb, hbe⟩ := List.mem_map.mp hmem
      refine ⟨rfl, fun hall => ?_, fun _ => ⟨⟨b, e, hb, hbe, rfl⟩, rfl⟩⟩
      rw [hall b hb] at hbe
      simp at hbe
  · cases j.jobCfg.SreEnabled <;> simp [backendSet]
  · cases j.jobCfg.SreEnabled <;> simp [backendSet]

/-- An attempt to initialize `foo` with SRE enabled while the alerting monitor is
unavailable: both backend actions are started, and the watcher gets the first report
only. -/
theorem attempt_report_fanout_closing_witness :
    (attempt .InitializeTenant jobFoo (jobCtx jobFoo) replyUnavailable).backends =
      [.amInitialize, .sreInitialize] ∧
    (attempt .InitializeTenant jobFoo (jobCtx jobFoo) replyUnavailable).calls =
      (firstReport .InitializeTenant jobFoo (jobCtx jobFoo) replyUnavailable).calls :=
  have h := (attempt_report_fanout_closing .InitializeTenant jobFoo (jobCtx jobFoo)
    replyUnavailable).2.2.1 (by decide)
  ⟨h.1, (h.2.2 ⟨.amInitialize, by decide, by decide⟩).2⟩

/-! ## Theorems: the waits of the log store -/

theorem wrapInt64_of_range (x : Int) (h0 : 0 ≤ x) (h1 : x < 2 ^ 63) : wrapInt64 x = x := by
  unfold wrapInt64
  rw [Int.emod_eq_of_lt (by omega) (by omega)]
  omega

theorem lokiLoop_first_sleep (urlCfg : config.Loki) (tenantID : String)
    (reply : Nat → loki.PollReply) (fuel i cnt : Nat) (sleepTime : Int) :
    (loki.checkDeletionStatusLoop urlCfg tenantID reply (fuel + 1) i cnt sleepTime).sleeps[0]? =
      some sleepTime := by
  rw [loki.checkDeletionStatusLoop]
  dsimp only
  split
  · simp [PollResult.ret]
  · split
    · simp [PollResult.ret]
    · split
      · simp [PollResult.ret]
      · split
        · split_ifs <;> simp [PollResult.ret, PollResult.next]
        · split
          · simp [PollResult.ret]
          · split_ifs <;> simp [PollResult.next]

/-- One iteration that is answered with the empty list, with the variables it leaves. -/
theorem lokiLoop_step_empty_state (urlCfg : config.Loki) (tenantID : String)
    (reply : Nat → loki.PollReply) (i cnt : Nat) (sleepTime : Int) (h : (reply i).empty) :
    ∃ requests, ∀ fuel,
      loki.checkDeletionStatusLoop urlCfg tenantID reply (fuel + 1) i cnt sleepTime =
        PollResult.next [sleepTime] requests
          (loki.checkDeletionStatusLoop urlCfg tenantID reply fuel (i + 1)
            (lokiRetryStep urlCfg (cnt, sleepTime)).1 (lokiRetryStep urlCfg (cnt, sleepTime)).2) := by
  obtain ⟨⟨hw, hg, hu⟩, he, hd⟩ := h
  have hget := GetReq_of_readable (urlCfg.Backend ++ "/loki/api/v1/delete") tenantID _ hg
  have hdel : loki.deleteLogsRequest urlCfg tenantID (reply i).delete = _ :=
    PostReq_of_delivered _ tenantID _ hd
  refine ⟨(GetReq (urlCfg.Backend ++ "/loki/api/v1/delete") tenantID (reply i).get).requests ++
    (loki.deleteLogsRequest urlCfg tenantID (reply i).delete).requests, fun fuel => ?_⟩
  by_cases hc : wrapInt64 (wrapInt64 (2 ^ cnt) * urlCfg.PollingRate) < urlCfg.MaxPollingRate
  · rw [loki.checkDeletionStatusLoop]
    simp only [hw, SleepWithContext, hget, hu, he, List.getLast?_nil, hdel, hc, if_true,
      lokiRetryStep]
  · rw [loki.checkDeletionStatusLoop]
    simp only [hw, SleepWithContext, hget, hu, he, List.getLast?_nil, hdel, hc, if_false,
      lokiRetryStep]

/-- Over a run of empty responses the wait before poll `n` is the second component of the
`n`-th iterate of `lokiRetryStep`. -/
theorem lokiLoop_sleeps (urlCfg : config.Loki) (tenantID : String)
    (reply : Nat → loki.PollReply) (n : Nat) :
    ∀ (fuel i cnt : Nat) (sleepTime : Int),
      (∀ j, i ≤ j → j < i + n → (reply j).empty) → n < fuel →
      (loki.checkDeletionStatusLoop urlCfg tenantID reply fuel i cnt sleepTime).sleeps[n]? =
        some (((lokiRetryStep urlCfg)^[n]) (cnt, sleepTime)).2 := by
  induction n with
  | zero =>
    intro fuel i cnt sleepTime _ hfuel
    obtain ⟨f, rfl⟩ : ∃ f, fuel = f + 1 := ⟨fuel - 1, by omega⟩
    exact lokiLoop_first_sleep urlCfg tenantID reply f i cnt sleepTime
  | succ n ih =>
    intro fuel i cnt sleepTime hempty hfuel
    obtain ⟨f, rfl⟩ : ∃ f, fuel = f + 1 := ⟨fuel - 1, by omega⟩
    obtain ⟨reqs, hstep⟩ := lokiLoop_step_empty_state urlCfg tenantID reply i cnt sleepTime
      (hempty i (le_refl i) (by omega))
    rw [hstep f, Function.iterate_succ_apply]
    simp only [PollResult.next, List.singleton_append, List.getElem?_cons_succ]
    exact ih f (i + 1) _ _ (fun j h1 h2 => hempty j (by omega) (by omega)) (by omega)

theorem lokiWait_le_max (urlCfg : config.Loki)
    (hmax : urlCfg.PollingRate < urlCfg.MaxPollingRate) (n : Nat) :
    lokiWait urlCfg n ≤ urlCfg.MaxPollingRate := by
  cases n with
  | zero => exact le_of_lt hmax
  | succ n => exact min_le_right _ _

theorem pow_rate_mono (urlCfg : config.Loki) (hrate : 0 < urlCfg.PollingRate) (a b : Nat)
    (h : a ≤ b) : (2 : Int) ^ a * urlCfg.PollingRate ≤ 2 ^ b * urlCfg.PollingRate := by
  apply mul_le_mul_of_nonneg_right _ (le_of_lt hrate)
  exact pow_le_pow_right₀ (by norm_num) h

/-- The variables of the loop after `n` empty responses: `sleepTime` is `lokiWait n`. -/
theorem lokiRetryStep_iterate (urlCfg : config.Loki) (hrate : 0 < urlCfg.PollingRate)
    (hmax : urlCfg.PollingRate < urlCfg.MaxPollingRate)
    (hbound : urlCfg.MaxPollingRate ≤ 2 ^ 62) (n : Nat) :
    (((lokiRetryStep urlCfg)^[n]) (0, urlCfg.PollingRate)).2 = lokiWait urlCfg n ∧
    (((((lokiRetryStep urlCfg)^[n]) (0, urlCfg.PollingRate)).1 = n ∧
        ∀ m, m < n → (2 : Int) ^ m * urlCfg.PollingRate < urlCfg.MaxPollingRate) ∨
      ((((lokiRetryStep urlCfg)^[n]) (0, urlCfg.PollingRate)).1 < n ∧
        urlCfg.MaxPollingRate ≤
          2 ^ (((lokiRetryStep urlCfg)^[n]) (0, urlCfg.PollingRate)).1 * urlCfg.PollingRate ∧
        (2 : Int) ^ (((lokiRetryStep urlCfg)^[n]) (0, urlCfg.PollingRate)).1 *
          urlCfg.PollingRate < 2 ^ 63)) := by
  induction n with
  | zero => simp [lokiWait]
  | succ n ih =>
    rw [Function.iterate_succ_apply']
    obtain ⟨hw, hcase⟩ := ih
    generalize ((lokiRetryStep urlCfg)^[n]) (0, urlCfg.PollingRate) = x at hw hcase ⊢
    have hpow1 : ∀ c : Nat, (1 : Int) ≤ 2 ^ c := fun c => one_le_pow₀ (by norm_num)
    have hnowrap : ∀ c : Nat, (2 : Int) ^ c * urlCfg.PollingRate < 2 ^ 63 →
        wrapInt64 (wrapInt64 (2 ^ c) * urlCfg.PollingRate) = 2 ^ c * urlCfg.PollingRate := by
      intro c hc
      have h2 : (2 : Int) ^ c ≤ 2 ^ c * urlCfg.PollingRate := by
        have := hpow1 c
        nlinarith
      rw [wrapInt64_of_range (2 ^ c) (by have := hpow1 c; omega) (by omega)]
      exact wrapInt64_of_range _ (by have := hpow1 c; nlinarith) hc
    rcases hcase with ⟨hc, hlt⟩ | ⟨hc, hge, hlt63⟩
    · have hlt63 : (2 : Int) ^ x.1 * urlCfg.PollingRate < 2 ^ 63 := by
        rw [hc]
        cases n with
        | zero => simp; omega
        | succ k =>
          have := hlt k (by omega)
          rw [pow_succ]
          nlinarith
      unfold lokiRetryStep
      rw [hnowrap x.1 hlt63, hc]
      by_cases hcalc : (2 : Int) ^ n * urlCfg.PollingRate < urlCfg.MaxPollingRate
      · simp only [hcalc, if_true, lokiWait]
        refine ⟨(min_eq_left (le_of_lt hcalc)).symm, Or.inl ⟨trivial, fun m hm => ?_⟩⟩
        rcases Nat.lt_succ_iff_lt_or_eq.mp hm with h | h
        · exact hlt m h
        · rw [h]; exact hcalc
      · simp only [hcalc, if_false, lokiWait]
        refine ⟨(min_eq_right (not_lt.mp hcalc)).symm, Or.inr ⟨by omega, not_lt.mp hcalc, ?_⟩⟩
        rw [← hc]; exact hlt63
    · have hcalc : ¬ (2 : Int) ^ x.1 * urlCfg.PollingRate < urlCfg.MaxPollingRate :=
        not_lt.mpr hge
      unfold lokiRetryStep
      rw [hnowrap x.1 hlt63]
      simp only [hcalc, if_false, lokiWait]
      refine ⟨?_, Or.inr ⟨by omega, hge, hlt63⟩⟩
      have := pow_rate_mono urlCfg hrate x.1 n (by omega)
      exact (min_eq_right (le_trans hge this)).symm

/-- **C26: the code misses its comment.** The comment in `checkDeletionStatus` says that
every retry has a longer waiting period, up to `MaxPollingRate`. The log store of
`testdata/test_config.yaml` (polling rate 20 s, maximal polling rate 60 s) answers every
poll with the empty list. The waits are 20 s, 20 s, 40 s, 60 s, 60 s: the first retry
waits no longer than the wait before it, because the retry counter starts at 0. -/
theorem loki_first_retry_not_longer :
    0 < testConfigEndpoints.Loki.PollingRate ∧
    testConfigEndpoints.Loki.PollingRate < testConfigEndpoints.Loki.MaxPollingRate ∧
    (loki.checkDeletionStatus testConfigEndpoints.Loki "foo" (fun _ => lokiPollEmpty) 5).sleeps =
      [20000000000, 20000000000, 40000000000, 60000000000, 60000000000] := by
  decide

/-- **C26: the waits the code computes.** In `loki.checkDeletionStatus`, with
`0 < PollingRate < MaxPollingRate ≤ 2^62` nanoseconds, over a run of consecutive empty
deletion-status responses the wait before the first poll and the wait before the first
retry are both `PollingRate`; the wait before retry `n + 1` is `2^n * PollingRate` capped at
`MaxPollingRate`. So from the first retry on every retry waits longer than the one before
it until the wait reaches `MaxPollingRate`, where it stays, and no wait exceeds
`MaxPollingRate`. -/
theorem loki_waits_double_to_max (urlCfg : config.Loki) (tenantID : String)
    (reply : Nat → loki.PollReply) (k fuel : Nat)
    (hrate : 0 < urlCfg.PollingRate) (hmax : urlCfg.PollingRate < urlCfg.MaxPollingRate)
    (hbound : urlCfg.MaxPollingRate ≤ 2 ^ 62)
    (hempty : ∀ i, i < k → (reply i).empty) :
    (∀ n, n ≤ k → n < fuel →
      (loki.checkDeletionStatus urlCfg tenantID reply fuel).sleeps[n]? =
        some (lokiWait urlCfg n)) ∧
    lokiWait urlCfg 0 = urlCfg.PollingRate ∧
    lokiWait urlCfg 1 = urlCfg.PollingRate ∧
    (∀ n, lokiWait urlCfg (n + 1) = min (2 ^ n * urlCfg.PollingRate) urlCfg.MaxPollingRate) ∧
    (∀ n, 1 ≤ n → lokiWait urlCfg n < urlCfg.MaxPollingRate →
      lokiWait urlCfg n < lokiWait urlCfg (n + 1)) ∧
    (∀ n, lokiWait urlCfg n = urlCfg.MaxPollingRate →
      lokiWait urlCfg (n + 1) = urlCfg.MaxPollingRate) ∧
    (∀ n, lokiWait urlCfg n ≤ urlCfg.MaxPollingRate) := by
  refine ⟨fun n hn hfuel => ?_, rfl, ?_, fun _ => rfl, ?_, ?_, lokiWait_le_max urlCfg hmax⟩
  · unfold loki.checkDeletionStatus
    rw [lokiLoop_sleeps urlCfg tenantID reply n fuel 0 0 urlCfg.PollingRate
      (fun j _ h2 => hempty j (by omega)) hfuel]
    rw [(lokiRetryStep_iterate urlCfg hrate hmax hbound n).1]
  · simp only [lokiWait, pow_zero, one_mul]
    exact min_eq_left (le_of_lt hmax)
  · intro n hn hlt
    obtain ⟨m, rfl⟩ : ∃ m, n = m + 1 := ⟨n - 1, by omega⟩
    simp only [lokiWait] at hlt ⊢
    have hm : (2 : Int) ^ m * urlCfg.PollingRate < urlCfg.MaxPollingRate := by
      rcases min_lt_iff.mp hlt with h | h
      · exact h
      · exact absurd h (lt_irrefl _)
    rw [min_eq_left (le_of_lt hm)]
    have hpos : (0 : Int) < 2 ^ m * urlCfg.PollingRate :=
      mul_pos (pow_pos (by norm_num) m) hrate
    apply lt_min
    · rw [pow_succ]
      nlinarith
    · exact hm
  · intro n hn
    cases n with
    | zero =>
      simp only [lokiWait] at hn
      omega
    | succ m =>
      simp only [lokiWait] at hn ⊢
      have hm : urlCfg.MaxPollingRate ≤ 2 ^ m * urlCfg.PollingRate := by
        rcases le_total ((2 : Int) ^ m * urlCfg.PollingRate) urlCfg.MaxPollingRate with h | h
        · rw [min_eq_left h] at hn
          exact le_of_eq hn.symm
        · exact h
      exact min_eq_right (le_trans hm (pow_rate_mono urlCfg hrate m (m + 1) (by omega)))

/-- The log store of `testdata/test_config.yaml` with empty responses: the third retry
waits the maximal polling rate. -/
theorem loki_waits_double_to_max_witness :
    (loki.checkDeletionStatus testConfigEndpoints.Loki "foo" (fun _ => lokiPollEmpty)
      5).sleeps[3]? = some 60000000000 :=
  ((loki_waits_double_to_max testConfigEndpoints.Loki "foo" (fun _ => lokiPollEmpty) 4 5
    (by decide) (by decide) (by decide)
    (fun _ _ => ⟨⟨rfl, ⟨⟨rfl, rfl, rfl, Or.inl rfl⟩, rfl⟩, rfl⟩, rfl,
      ⟨rfl, rfl, rfl, Or.inl rfl⟩⟩)).1 3 (by decide) (by decide)).trans (by decide)

/-! ## Theorems: the steps of a store cleanup -/

theorem PostReq_requests (urlRaw tenantID : String) (r : HttpReply) :
    (PostReq urlRaw tenantID r).requests = [] ∨
    (PostReq urlRaw tenantID r).requests =
      [{ method := "POST", url := urlRaw, orgID := tenantID }] := by
  unfold PostReq
  cases r.Parse <;> cases r.NewRequest <;> cases r.Do <;> simp
  split <;> simp

theorem GetReq_requests (urlRaw tenantID : String) (r : HttpReply) :
    (GetReq urlRaw tenantID r).requests = [] ∨
    (GetReq urlRaw tenantID r).requests =
      [{ method := "GET", url := urlRaw, orgID := tenantID }] := by
  unfold GetReq
  cases r.Parse <;> cases r.NewRequest <;> cases r.Do <;> simp
  split
  · simp
  · split <;> simp

theorem returned_map_wrap (msg : String) (x : Option (Option GoError)) :
    ((x.map (fun r => r.map (fun err => GoError.wrap msg err))) = some none ↔ x = some none) ∧
    ((x.map (fun r => r.map (fun err => GoError.wrap msg err))) = none ↔ x = none) ∧
    (∀ e, x = some (some e) →
      x.map (fun r => r.map (fun err => GoError.wrap msg err)) = some (some (.wrap msg e))) := by
  cases x with
  | none => simp
  | some r => cases r <;> simp

/-- **C27.** With a tenant ID in the context, `loki.CleanupTenant` and
`mimir.CleanupTenant` take their steps in the order flush, delete, check, the check of
Mimir only in `strict` mode. A failed flush makes the function return an error with at
most the flush request sent; a failed delete makes it return an error with nothing sent
after the delete request; otherwise the requests are the flush request, the delete
request and those of the check, and the function returns an error when the check does.
The function returns nil exactly when the flush, the delete and, where it is made, the
check succeeded. -/
theorem cleanup_steps_in_order (ctx : Ctx) (tenantID : String)
    (hctx : ctx.tenantID = some tenantID)
    (lokiCfg : config.Loki) (lokiReply : loki.CleanupReply)
    (mimirCfg : config.Mimir) (mimirReply : mimir.CleanupReply) (fuel : Nat) :
    ((¬ lokiReply.flush.delivered →
        (∃ e, (loki.CleanupTenant ctx lokiCfg lokiReply fuel).returned = some (some e)) ∧
        ((loki.CleanupTenant ctx lokiCfg lokiReply fuel).requests = [] ∨
          (loki.CleanupTenant ctx lokiCfg lokiReply fuel).requests =
            [loki.flushRequest lokiCfg tenantID]) ∧
        (loki.CleanupTenant ctx lokiCfg lokiReply fuel).polls = 0) ∧
      (lokiReply.flush.delivered → ¬ lokiReply.delete.delivered →
        (∃ e, (loki.CleanupTenant ctx lokiCfg lokiReply fuel).returned = some (some e)) ∧
        ((loki.CleanupTenant ctx lokiCfg lokiReply fuel).requests =
            [loki.flushRequest lokiCfg tenantID] ∨
          (loki.CleanupTenant ctx lokiCfg lokiReply fuel).requests =
            [loki.flushRequest lokiCfg tenantID, loki.deleteRequest lokiCfg tenantID]) ∧
        (loki.CleanupTenant ctx lokiCfg lokiReply fuel).polls = 0) ∧
      (lokiReply.flush.delivered → lokiReply.delete.delivered →
        (loki.CleanupTenant ctx lokiCfg lokiReply fuel).requests =
          [loki.flushRequest lokiCfg tenantID, loki.deleteRequest lokiCfg tenantID] ++
            (loki.checkDeletionStatus lokiCfg tenantID lokiReply.poll fuel).requests ∧
        (loki.CleanupTenant ctx lokiCfg lokiReply fuel).polls =
          (loki.checkDeletionStatus lokiCfg tenantID lokiReply.poll fuel).polls ∧
        (∀ e, (loki.checkDeletionStatus lokiCfg tenantID lokiReply.poll fuel).returned =
            some (some e) →
          ∃ e2, (loki.CleanupTenant ctx lokiCfg lokiReply fuel).returned = some (some e2))) ∧
      ((loki.CleanupTenant ctx lokiCfg lokiReply fuel).returned = some none ↔
        lokiReply.flush.delivered ∧ lokiReply.delete.delivered ∧
          (loki.checkDeletionStatus lokiCfg tenantID lokiReply.poll fuel).returned =
            some none)) ∧
    ((¬ mimirReply.flush.readable →
        (∃ e, (mimir.CleanupTenant ctx mimirCfg mimirReply fuel).returned = some (some e)) ∧
        ((mimir.CleanupTenant ctx mimirCfg mimirReply fuel).requests = [] ∨
          (mimir.CleanupTenant ctx mimirCfg mimirReply fuel).requests =
            [mimir.flushRequest mimirCfg tenantID]) ∧
        (mimir.CleanupTenant ctx mimirCfg mimirReply fuel).polls = 0) ∧
      (mimirReply.flush.readable → ¬ mimirReply.delete.delivered →
        (∃ e, (mimir.CleanupTenant ctx mimirCfg mimirReply fuel).returned = some (some e)) ∧
        ((mimir.CleanupTenant ctx mimirCfg mimirReply fuel).requests =
            [mimir.flushRequest mimirCfg tenantID] ∨
          (mimir.CleanupTenant ctx mimirCfg mimirReply fuel).requests =
            [mimir.flushRequest mimirCfg tenantID, mimir.deleteRequest mimirCfg tenantID]) ∧
        (mimir.CleanupTenant ctx mimirCfg mimirReply fuel).polls = 0) ∧
      (mimirReply.flush.readable → mimirReply.delete.delivered →
        mimirCfg.DeleteVerifyMode = StrictMode →
        (mimir.CleanupTenant ctx mimirCfg mimirReply fuel).requests =
          [mimir.flushRequest mimirCfg tenantID, mimir.deleteRequest mimirCfg tenantID] ++
            (mimir.checkDeletionStatus mimirCfg tenantID mimirReply.poll fuel).requests ∧
        (mimir.CleanupTenant ctx mimirCfg mimirReply fuel).polls =
          (mimir.checkDeletionStatus mimirCfg tenantID mimirReply.poll fuel).polls ∧
        (∀ e, (mimir.checkDeletionStatus mimirCfg tenantID mimirReply.poll fuel).returned =
            some (some e) →
          ∃ e2, (mimir.CleanupTenant ctx mimirCfg mimirReply fuel).returned = some (some e2))) ∧
      (mimirReply.flush.readable → mimirReply.delete.delivered →
        mimirCfg.DeleteVerifyMode ≠ StrictMode →
        (mimir.CleanupTenant ctx mimirCfg mimirReply fuel).requests =
          [mimir.flushRequest mimirCfg tenantID, mimir.deleteRequest mimirCfg tenantID] ∧
        (mimir.CleanupTenant ctx mimirCfg mimirReply fuel).polls = 0) ∧
      ((mimir.CleanupTenant ctx mimirCfg mimirReply fuel).returned = some none ↔
        mimirReply.flush.readable ∧ mimirReply.delete.delivered ∧
          (mimirCfg.DeleteVerifyMode = StrictMode →
            (mimir.checkDeletionStatus mimirCfg tenantID mimirReply.poll fuel).returned =
              some none))) := by
  have hLf := PostReq_ok_iff (lokiCfg.Write ++ "/flush") tenantID lokiReply.flush
  have hLfr := PostReq_requests (lokiCfg.Write ++ "/flush") tenantID lokiReply.flush
  have hLd := PostReq_ok_iff (loki.deleteRequest lokiCfg tenantID).url tenantID lokiReply.delete
  have hLdr := PostReq_requests (loki.deleteRequest lokiCfg tenantID).url tenantID
    lokiReply.delete
  have hMf := GetReq_ok_iff (mimirCfg.Ingester ++ "/ingester/flush?wait=true") tenantID
    mimirReply.flush
  have hMfr := GetReq_requests (mimirCfg.Ingester ++ "/ingester/flush?wait=true") tenantID
    mimirReply.flush
  have hMd := PostReq_ok_iff (mimirCfg.Compactor ++ "/compactor/delete_tenant") tenantID
    mimirReply.delete
  have hMdr := PostReq_requests (mimirCfg.Compactor ++ "/compactor/delete_tenant") tenantID
    mimirReply.delete
  simp only [loki.deleteRequest] at hLd hLdr
  constructor
  · unfold loki.CleanupTenant loki.flushIngesters loki.deleteLogsRequest
    simp only [hctx, loki.flushRequest, loki.deleteRequest]
    cases hf : (PostReq (lokiCfg.Write ++ "/flush") tenantID lokiReply.flush).err with
    | some e =>
      have hnf : ¬ lokiReply.flush.delivered := fun h => by
        rw [hLf.mpr h] at hf; simp at hf
      simp [hnf, hLfr]
    | none =>
      have hfd := hLf.mp hf
      have hfr := PostReq_of_delivered (lokiCfg.Write ++ "/flush") tenantID _ hfd
      cases hd : (PostReq (lokiCfg.Backend ++ "/loki/api/v1/delete?query=\x7b__tenant_id__=\"" ++
          tenantID ++ "\"\x7d&start=0000000001") tenantID lokiReply.delete).err with
      | some e =>
        have hnd : ¬ lokiReply.delete.delivered := fun h => by
          rw [hLd.mpr h] at hd; simp at hd
        rcases hLdr with h | h <;> simp [hfd, hnd, hfr, h]
      | none =>
        have hdd := hLd.mp hd
        have hdr := PostReq_of_delivered (lokiCfg.Backend ++
          "/loki/api/v1/delete?query=\x7b__tenant_id__=\"" ++ tenantID ++
          "\"\x7d&start=0000000001") tenantID _ hdd
        have hw := returned_map_wrap ("failed to check deletion status for tenantID " ++
          quoted tenantID) (loki.checkDeletionStatus lokiCfg tenantID lokiReply.poll fuel).returned
        simp only [hfd, hdd, hfr, hdr, not_true_eq_false, false_implies, true_implies, true_and,
          hw.1, and_true, List.cons_append, List.nil_append, List.singleton_append]
        exact fun e he => ⟨_, hw.2.2 e he⟩
  · unfold mimir.CleanupTenant mimir.flushIngesters mimir.deleteMetricsRequest
    simp only [hctx, mimir.flushRequest, mimir.deleteRequest]
    cases hf : (GetReq (mimirCfg.Ingester ++ "/ingester/flush?wait=true") tenantID
        mimirReply.flush).err with
    | some e =>
      have hnf : ¬ mimirReply.flush.readable := fun h => by
        rw [hMf.mpr h] at hf; simp at hf
      simp [hnf, hMfr]
    | none =>
      have hfd := hMf.mp hf
      have hfr := GetReq_of_readable (mimirCfg.Ingester ++ "/ingester/flush?wait=true")
        tenantID _ hfd
      cases hd : (PostReq (mimirCfg.Compactor ++ "/compactor/delete_tenant") tenantID
          mimirReply.delete).err with
      | some e =>
        have hnd : ¬ mimirReply.delete.delivered := fun h => by
          rw [hMd.mpr h] at hd; simp at hd
        rcases hMdr with h | h <;> simp [hfd, hnd, hfr, h]
      | none =>
        have hdd := hMd.mp hd
        have hdr := PostReq_of_delivered (mimirCfg.Compactor ++ "/compactor/delete_tenant")
          tenantID _ hdd
        have hw := returned_map_wrap ("failed to check deletion status for tenantID " ++
          quoted tenantID)
          (mimir.checkDeletionStatus mimirCfg tenantID mimirReply.poll fuel).returned
        by_cases hmode : mimirCfg.DeleteVerifyMode = StrictMode
        · simp only [hfd, hdd, hfr, hdr, hmode, not_true_eq_false, false_implies, true_implies,
            true_and, hw.1, and_true, if_true, List.cons_append, List.nil_append,
            List.singleton_append]
          exact ⟨fun e he => ⟨_, hw.2.2 e he⟩, fun h => absurd rfl h⟩
        · simp [hfd, hdd, hfr, hdr, hmode]

/-- A deletion in the log store whose ingesters accept the flush and whose backend is not
reachable: the function returns an error after the delete request, without a poll. -/
theorem cleanup_steps_in_order_witness :
    (∃ e, (loki.CleanupTenant { tenantID := some "foo" } testConfigEndpoints.Loki lokiDeleteFails
      3).returned = some (some e)) ∧
    (loki.CleanupTenant { tenantID := some "foo" } testConfigEndpoints.Loki lokiDeleteFails
      3).polls = 0 :=
  have h := (cleanup_steps_in_order { tenantID := some "foo" } "foo" rfl
    testConfigEndpoints.Loki lokiDeleteFails testConfigEndpoints.Mimir mimirPending 3).1.2.1
    ⟨rfl, rfl, rfl, Or.inl rfl⟩ (fun h => absurd h.2.2.1 (by decide))
  ⟨h.1, h.2.2⟩

/-! ## Theorems: verification modes that are neither strict nor loose -/

theorem lokiLoop_mode_congr (urlCfg : config.Loki) (mode : String) (hl : mode ≠ LooseMode)
    (tenantID : String) (reply : Nat → loki.PollReply) (fuel : Nat) :
    ∀ (i cnt : Nat) (sleepTime : Int),
      loki.checkDeletionStatusLoop { urlCfg with DeleteVerifyMode := mode } tenantID reply fuel
          i cnt sleepTime =
        loki.checkDeletionStatusLoop { urlCfg with DeleteVerifyMode := StrictMode } tenantID
          reply fuel i cnt sleepTime := by
  have hs : StrictMode ≠ LooseMode := by decide
  induction fuel with
  | zero => intro i cnt sleepTime; rfl
  | succ fuel ih =>
    intro i cnt sleepTime
    rw [loki.checkDeletionStatusLoop, loki.checkDeletionStatusLoop]
    simp only [hl, hs, if_false, ih, loki.deleteLogsRequest]

/-- When the loop of `loki.checkDeletionStatus` returns nil in a mode other than `loose`,
the poll at which it returns was answered with a processed deletion. -/
theorem lokiLoop_success_processed (urlCfg : config.Loki)
    (hl : urlCfg.DeleteVerifyMode ≠ LooseMode) (tenantID : String)
    (reply : Nat → loki.PollReply) (fuel : Nat) :
    ∀ (i cnt : Nat) (sleepTime : Int),
      (loki.checkDeletionStatusLoop urlCfg tenantID reply fuel i cnt sleepTime).returned =
        some none →
      ∃ m, (loki.checkDeletionStatusLoop urlCfg tenantID reply fuel i cnt sleepTime).polls =
          m + 1 ∧ (reply (i + m)).processed := by
  induction fuel with
  | zero =>
    intro i cnt sleepTime h
    simp [loki.checkDeletionStatusLoop, PollResult.running] at h
  | succ fuel ih =>
    intro i cnt sleepTime
    have hnext : ∀ (sl : List Int) (rq : List HttpRequest) (c : Nat) (s : Int),
        (PollResult.next sl rq (loki.checkDeletionStatusLoop urlCfg tenantID reply fuel (i + 1)
          c s)).returned = some none →
        ∃ m, (PollResult.next sl rq (loki.checkDeletionStatusLoop urlCfg tenantID reply fuel
          (i + 1) c s)).polls = m + 1 ∧ (reply (i + m)).processed := by
      intro sl rq c s h
      obtain ⟨m, hm, hp⟩ := ih (i + 1) c s h
      refine ⟨m + 1, ?_, ?_⟩
      · simp only [PollResult.next, hm]
      · have e : i + (m + 1) = i + 1 + m := by omega
        rw [e]; exact hp
    rw [loki.checkDeletionStatusLoop]
    dsimp only
    split
    · simp [PollResult.ret]
    · rename_i hwake
      have hw : (reply i).wake = .timer := by
        cases hwk : (reply i).wake with
        | timer => rfl
        | done e => rw [hwk] at hwake; simp [SleepWithContext] at hwake
      split
      · simp [PollResult.ret]
      · rename_i hget
        have hg := (GetReq_ok_iff _ _ _).mp hget
        split
        · simp [PollResult.ret]
        · rename_i hu
          split
          · rename_i newest hn
            simp only [hl, if_false]
            split_ifs with hs
            · intro _
              exact ⟨0, by simp [PollResult.ret], ⟨hw, hg, hu⟩, newest, hn, hs⟩
            · exact hnext _ _ _ _
          · split
            · simp [PollResult.ret]
            · split_ifs
              · exact hnext _ _ _ _
              · exact hnext _ _ _ _

/-- **C28.** For every `DeleteVerifyMode` that is neither `strict` nor `loose`, the empty
value included, `mimir.CleanupTenant` behaves as in `loose` mode: it makes no
deletion-status check. `loki.checkDeletionStatus` behaves as in `strict` mode: it returns
nil only at a poll that is answered with a list whose last entry has the status
`processed`. -/
theorem default_verify_mode_differs (mode : String) (hs : mode ≠ StrictMode)
    (hl : mode ≠ LooseMode) (ctx : Ctx) (tenantID : String)
    (mimirCfg : config.Mimir) (mimirReply : mimir.CleanupReply)
    (lokiCfg : config.Loki) (reply : Nat → loki.PollReply) (fuel : Nat) :
    mimir.CleanupTenant ctx { mimirCfg with DeleteVerifyMode := mode } mimirReply fuel =
      mimir.CleanupTenant ctx { mimirCfg with DeleteVerifyMode := LooseMode } mimirReply fuel ∧
    (mimir.CleanupTenant ctx { mimirCfg with DeleteVerifyMode := mode } mimirReply fuel).polls =
      0 ∧
    loki.checkDeletionStatus { lokiCfg with DeleteVerifyMode := mode } tenantID reply fuel =
      loki.checkDeletionStatus { lokiCfg with DeleteVerifyMode := StrictMode } tenantID reply
        fuel ∧
    ((loki.checkDeletionStatus { lokiCfg with DeleteVerifyMode := mode } tenantID reply
        fuel).returned = some none →
      ∃ m, (loki.checkDeletionStatus { lokiCfg with DeleteVerifyMode := mode } tenantID reply
          fuel).polls = m + 1 ∧ (reply m).processed) := by
  have hls : LooseMode ≠ StrictMode := by decide
  refine ⟨?_, ?_, ?_, ?_⟩
  · simp only [mimir.CleanupTenant, mimir.flushIngesters, mimir.deleteMetricsRequest, hs, hls,
      if_false]
  · unfold mimir.CleanupTenant
    simp only [hs, if_false]
    cases ctx.tenantID with
    | none => rfl
    | some t =>
      dsimp only
      split
      · rfl
      · split <;> rfl
  · exact lokiLoop_mode_congr lokiCfg mode hl tenantID reply fuel 0 0 lokiCfg.PollingRate
  · intro h
    obtain ⟨m, hm, hp⟩ := lokiLoop_success_processed { lokiCfg with DeleteVerifyMode := mode } hl
      tenantID reply fuel 0 0 lokiCfg.PollingRate h
    exact ⟨m, hm, by simpa using hp⟩

/-- The stores of `testdata/test_config.yaml` with the mode left empty: the metrics store
is not polled, and the log store is polled until the deletion is processed, at the third
poll. -/
theorem default_verify_mode_differs_witness :
    (mimir.CleanupTenant { tenantID := some "foo" }
      { testConfigEndpoints.Mimir with DeleteVerifyMode := "" } mimirPending 3).polls = 0 ∧
    (loki.checkDeletionStatus { testConfigEndpoints.Loki with DeleteVerifyMode := "" } "foo"
      lokiProcessedLater.poll 3).polls = 3 :=
  have h := default_verify_mode_differs "" (by decide) (by decide) { tenantID := some "foo" }
    "foo" testConfigEndpoints.Mimir mimirPending testConfigEndpoints.Loki
    lokiProcessedLater.poll 3
  ⟨h.2.1, h.2.2.1 ▸ (by decide)⟩

/-! ## Theorems: an initialization never ends in an identity mismatch -/

theorem run_initialize_loop_not_mismatch (j : job) (w : RunWorld) (fuel : Nat) :
    (run j .InitializeTenant w fuel).loop.ended ≠ some .idsDoNotMatch ∧
    (run j .InitializeTenant w fuel).loop.status = .jobInProgress := by
  have hst := manageTenantLoop_status (runStore j).jobCfg.Backoff
    (fun i => (initializeTenant { runStore j with cancelFn := some w.ctxId }
      (jobCtx { runStore j with cancelFn := some w.ctxId }) (w.attempt i)).err)
    w.wake .jobInProgress fuel 0 0 []
  have hnm : (manageTenantLoop (runStore j).jobCfg.Backoff
      (fun i => (initializeTenant { runStore j with cancelFn := some w.ctxId }
        (jobCtx { runStore j with cancelFn := some w.ctxId }) (w.attempt i)).err)
      w.wake fuel 0 0 [] .jobInProgress).ended ≠ some .idsDoNotMatch := by
    intro h
    obtain ⟨_, k, e, hk, he⟩ := hst.1 h
    have := initializeTenant_not_mismatch { runStore j with cancelFn := some w.ctxId }
      (jobCtx { runStore j with cancelFn := some w.ctxId }) (w.attempt k)
    simp only at hk
    rw [hk] at this
    simp [errorsAsIDsDoNotMatch, he] at this
  have hstatus := hst.2 hnm
  have hloop : (run j .InitializeTenant w fuel).loop =
      manageTenantLoop (runStore j).jobCfg.Backoff
        (fun i => (initializeTenant { runStore j with cancelFn := some w.ctxId }
          (jobCtx { runStore j with cancelFn := some w.ctxId }) (w.attempt i)).err)
        w.wake fuel 0 0 [] .jobInProgress := by
    simp only [run, runGoroutine, manageTenant, runStore]
    split <;> [rfl; (split <;> rfl)]
  rw [hloop]
  exact ⟨hnm, hstatus⟩

theorem InvInit.initial (project : Project) (jCfg : config.Job) (endpoints : config.Endpoints)
    (a1 : Action) : InvInit (Shared.init project jCfg endpoints a1 .InitializeTenant) :=
  ⟨rfl, by simp [Shared.init], by simp [Shared.init]⟩

theorem InvInit.afterManager {s s2 : Shared} (hK : InvInit s) (h : s.stepManager = some s2) :
    InvInit s2 := by
  obtain ⟨ha, hc, ho⟩ := hK
  unfold Shared.stepManager at h
  cases hm : s.mgr with
  | e1Store =>
    rw [hm] at h; simp only [Option.some.injEq] at h; subst h
    exact ⟨ha, by simpa using hc, by simp⟩
  | e1Go =>
    rw [hm] at h; simp only [Option.some.injEq] at h; subst h
    exact ⟨ha, by simpa using hc, by simp⟩
  | e2Cancel =>
    rw [hm] at h
    cases hf : s.cancelFn with
    | none =>
      rw [hf] at h; simp only [Option.some.injEq] at h; subst h
      exact ⟨ha, by simpa using hc, by simp⟩
    | some t =>
      rw [hf] at h
      cases t with
      | manager => simp at h
      | exec1 =>
        simp only [Option.some.injEq] at h; subst h
        exact ⟨ha, by simp, by simp⟩
      | exec2 =>
        simp only [Option.some.injEq] at h; subst h
        exact ⟨ha, by simpa using hc, by simp⟩
  | e2Store =>
    rw [hm] at h; simp only [Option.some.injEq] at h; subst h
    exact ⟨ha, by simpa using hc, by simp [runStore]⟩
  | e2Go =>
    rw [hm] at h; simp only [Option.some.injEq] at h; subst h
    refine ⟨ha, by simpa using hc, ?_⟩
    intro h1 _ h3
    exact ho (by simpa using h1) (Or.inl hm) h3
  | idle => rw [hm] at h; simp at h

theorem InvInit.afterExec {s s2 : Shared} (hK : InvInit s) (t : Thread)
    (h : s.stepExec t = some s2) : InvInit s2 := by
  obtain ⟨ha, hc, ho⟩ := hK
  unfold Shared.stepExec at h
  cases t with
  | manager => simp [Shared.pcOf] at h
  | exec1 =>
    cases hpc : s.pc1 with
    | none => simp [Shared.pcOf, hpc] at h
    | some pc =>
      simp only [Shared.pcOf, hpc] at h
      cases pc <;> simp only [reduceCtorEq] at h
      case start =>
        simp only [Option.some.injEq] at h; subst h
        refine ⟨ha, hc, ?_⟩
        intro h1 h2 h3
        have := ho h1 h2 h3
        simp [hpc] at this
      case readCtxErr =>
        by_cases hcan : s.cancelled1 = true
        · simp only [Shared.cancelledOf, hcan, if_true, Option.some.injEq] at h; subst h
          exact ⟨ha, hc, fun _ _ _ => Or.inr rfl⟩
        · simp only [Shared.cancelledOf, hcan, Bool.false_eq_true, if_false] at h
          have hno : Ev.cancelCall (some .exec1) ∉ s.history := fun hin => hcan (hc hin)
          cases hact : s.actionOf .exec1 <;> rw [hact] at h <;>
            simp only [Option.some.injEq] at h <;> subst h <;>
            exact ⟨ha, hc, fun h1 => absurd h1 hno⟩
      case storeCancelled =>
        simp only [Option.some.injEq] at h; subst h
        exact ⟨ha, by simpa [Shared.store, Shared.setPc] using hc,
          by simp [Shared.store, Shared.setPc]⟩
      case storeCreated =>
        simp only [Option.some.injEq] at h; subst h
        exact ⟨ha, by simpa [Shared.store, Shared.setPc] using hc,
          by simp [Shared.store, Shared.setPc]⟩
      case loadStatus =>
        have hold : ∀ pc2, InvInit (s.setPc .exec1 pc2) := by
          intro pc2
          refine ⟨ha, hc, ?_⟩
          intro h1 h2 h3
          have := ho h1 h2 h3
          simp [hpc] at this
        split at h <;> simp only [Option.some.injEq] at h <;> subst h <;> exact hold _
      case storeDeleted =>
        simp only [Option.some.injEq] at h; subst h
        exact ⟨ha, by simpa [Shared.store, Shared.setPc] using hc,
          by simp [Shared.store, Shared.setPc]⟩
      case deferred =>
        simp only [Option.some.injEq] at h; subst h
        refine ⟨ha, by simp [Shared.cancelCtx, Shared.setPc], ?_⟩
        intro h1 h2 h3
        have := ho h1 h2 h3
        simp [hpc] at this
  | exec2 =>
    have hset : ∀ pc2, InvInit (s.setPc .exec2 pc2) := fun pc2 => ⟨ha, hc, ho⟩
    cases hpc : s.pc2 with
    | none => simp [Shared.pcOf, hpc] at h
    | some pc =>
      simp only [Shared.pcOf, hpc] at h
      cases pc <;> simp only [reduceCtorEq] at h
      case start =>
        simp only [Option.some.injEq] at h; subst h
        exact ⟨ha, hc, ho⟩
      case readCtxErr =>
        split at h
        · simp only [Option.some.injEq] at h; subst h; exact hset _
        · split at h <;> simp only [Option.some.injEq] at h <;> subst h <;> exact hset _
      case storeCancelled =>
        simp only [Option.some.injEq] at h; subst h
        exact ⟨ha, by simpa [Shared.store, Shared.setPc] using hc,
          by simp [Shared.store, Shared.setPc]⟩
      case storeCreated =>
        simp only [Option.some.injEq] at h; subst h
        exact ⟨ha, by simpa [Shared.store, Shared.setPc] using hc,
          by simp [Shared.store, Shared.setPc]⟩
      case loadStatus =>
        split at h <;> simp only [Option.some.injEq] at h <;> subst h <;> exact hset _
      case storeDeleted =>
        simp only [Option.some.injEq] at h; subst h
        exact ⟨ha, by simpa [Shared.store, Shared.setPc] using hc,
          by simp [Shared.store, Shared.setPc]⟩
      case deferred =>
        simp only [Option.some.injEq] at h; subst h
        exact ⟨ha, hc, ho⟩

theorem InvInit.afterAttempt {s s2 : Shared} (hK : InvInit s) (t : Thread) (reply : AttemptReply)
    (h : s.stepAttempt t reply = some s2) : InvInit s2 := by
  obtain ⟨ha, hc, ho⟩ := hK
  unfold Shared.stepAttempt at h
  cases t with
  | manager => simp [Shared.pcOf] at h
  | exec1 =>
    cases hpc : s.pc1 with
    | none => simp [Shared.pcOf, hpc] at h
    | some pc =>
      simp only [Shared.pcOf, hpc] at h
      cases pc <;> simp only [reduceCtorEq] at h
      split at h
      · simp only [Option.some.injEq] at h; subst h
        exact ⟨ha, hc, fun _ _ _ => Or.inl rfl⟩
      · split at h
        · simp only [Option.some.injEq] at h; subst h
          exact ⟨ha, by simpa [Shared.store, Shared.setPc] using hc, fun _ _ _ => Or.inl rfl⟩
        · simp only [Option.some.injEq] at h; subst h
          refine ⟨ha, hc, ?_⟩
          intro h1 h2 h3
          have := ho h1 h2 h3
          simp [hpc] at this
  | exec2 =>
    cases hpc : s.pc2 with
    | none => simp [Shared.pcOf, hpc] at h
    | some pc =>
      simp only [Shared.pcOf, hpc] at h
      cases pc <;> simp only [reduceCtorEq] at h
      simp only [Shared.actionOf, ha] at h
      have hnm := initializeTenant_not_mismatch s.job (jobCtx s.job) reply
      cases he : (initializeTenant s.job (jobCtx s.job) reply).err with
      | none =>
        rw [he] at h
        simp only [Option.some.injEq] at h; subst h
        exact ⟨ha, hc, ho⟩
      | some e =>
        rw [he] at h hnm
        simp only [errorsAsIDsDoNotMatch] at hnm
        simp only [hnm, Bool.false_eq_true, if_false, Option.some.injEq] at h
        subst h
        exact ⟨ha, hc, ho⟩

theorem InvInit.afterWake {s s2 : Shared} (hK : InvInit s) (t : Thread) (w : Wake)
    (h : s.stepWake t w = some s2) : InvInit s2 := by
  obtain ⟨ha, hc, ho⟩ := hK
  unfold Shared.stepWake at h
  cases t with
  | manager => simp [Shared.pcOf] at h
  | exec1 =>
    have hset : s.pc1 = some .sleep → ∀ pc2, InvInit (s.setPc .exec1 pc2) := by
      intro hpc pc2
      refine ⟨ha, hc, ?_⟩
      intro h1 h2 h3
      have := ho h1 h2 h3
      simp [hpc] at this
    cases hpc : s.pc1 with
    | none => simp [Shared.pcOf, hpc] at h
    | some pc =>
      simp only [Shared.pcOf, hpc] at h
      cases pc <;> simp only [reduceCtorEq] at h
      cases w with
      | timer => simp only [Option.some.injEq] at h; subst h; exact hset hpc _
      | done e =>
        cases e with
        | deadlineExceeded => simp at h
        | canceled =>
          dsimp only at h
          split at h
          · split at h <;> simp only [Option.some.injEq] at h <;> subst h <;> exact hset hpc _
          · simp at h
  | exec2 =>
    have hset : ∀ pc2, InvInit (s.setPc .exec2 pc2) := fun pc2 => ⟨ha, hc, ho⟩
    cases hpc : s.pc2 with
    | none => simp [Shared.pcOf, hpc] at h
    | some pc =>
      simp only [Shared.pcOf, hpc] at h
      cases pc <;> simp only [reduceCtorEq] at h
      cases w with
      | timer => simp only [Option.some.injEq] at h; subst h; exact hset _
      | done e =>
        cases e with
        | deadlineExceeded => simp at h
        | canceled =>
          dsimp only at h
          split at h
          · split at h <;> simp only [Option.some.injEq] at h <;> subst h <;> exact hset _
          · simp at h

theorem InvInit.afterSchedule (ds : List Sched) :
    ∀ {s s2 : Shared}, InvInit s → s.exec ds = some s2 → InvInit s2 := by
  induction ds with
  | nil => intro s s2 hK h; simp [Shared.exec] at h; exact h ▸ hK
  | cons d ds ih =>
    intro s s2 hK h
    unfold Shared.exec at h
    cases hs : s.step d with
    | none => rw [hs] at h; simp at h
    | some s1 =>
      rw [hs] at h
      refine ih ?_ h
      cases d with
      | manager => exact hK.afterManager hs
      | exec t => exact hK.afterExec t hs
      | attempt t reply => exact hK.afterAttempt t reply hs
      | wake t w => exact hK.afterWake t w hs

/-- **C29, as the spec words it, fails.** `E1` is a cleanup and `E2` an initialization for
the project `foo`. In the schedule `scheduleLateStartMismatch` the manager handles both
events before the execution of `E1` has stored its cancel function. The initialization runs
to its end and stores `tenantCreated`; after it the cleanup finds the watcher owned by
another project and stores `tenantIDsNotMatch`, the status in which the job ends. -/
theorem initialize_job_ends_in_mismatch :
    ((Shared.init projectFoo testConfigJob testConfigEndpoints .CleanupTenant
        .InitializeTenant).exec scheduleLateStartMismatch).map
        (fun s => (s.finished, s.job.status, s.history)) =
      some (true, .tenantIDsNotMatch,
        [.stored .manager .jobInProgress, .started .exec1, .cancelCall none,
         .stored .manager .jobInProgress, .started .exec2,
         .stored .exec2 .tenantCreated, .stored .exec1 .tenantIDsNotMatch]) := by
  decide

/-- **C29, amended.** An attempt of `initializeTenant` never returns an error that matches
`IDsDoNotMatchError`: neither of its two watcher reports does, whatever the store answers,
and neither backend action does, whatever the RPC returns. So the retry loop of a job run
with the action `InitializeTenant` is never left through the identity-mismatch branch, and
the run never stores `tenantIDsNotMatch`: its last statement never leaves the job in that
status, even when the job had it before. When the initialization is the event `E2` that
supersedes an execution of `E1` on the same job, then under every interleaving the
execution of `E2` never stores `tenantIDsNotMatch`; once both executions have returned, the
job is not in `tenantIDsNotMatch` if `job.cancel()` invoked the cancel function of the
execution of `E1`; and if the job is in `tenantIDsNotMatch`, that status was stored last,
by the execution of `E1`, a cleanup whose cancel function was not invoked. -/
theorem initialize_never_mismatch (j : job) (ctx : Ctx) (reply : AttemptReply)
    (w : RunWorld) (fuel : Nat) (project : Project) (jCfg : config.Job)
    (endpoints : config.Endpoints) (a1 : Action) (sched : List Sched) (s : Shared)
    (hexec : (Shared.init project jCfg endpoints a1 .InitializeTenant).exec sched = some s) :
    errorsAsIDsDoNotMatch (initializeTenant j ctx reply).err = false ∧
    (∀ status message store,
      errorsAsIDsDoNotMatch
        (CreateUpdateWatcher ctx (some j.project) status message store).err = false) ∧
    (∀ rpc, errorsAsIDsDoNotMatch (alertingmonitor.InitializeTenant ctx rpc).err = false ∧
      errorsAsIDsDoNotMatch (sre.InitializeTenant ctx rpc).err = false) ∧
    (run j .InitializeTenant w fuel).loop.ended ≠ some .idsDoNotMatch ∧
    (run j .InitializeTenant w fuel).job.status ≠ .tenantIDsNotMatch ∧
    (∀ st, Ev.stored .exec2 st ∈ s.history → st ≠ .tenantIDsNotMatch) ∧
    (s.finished = true → Ev.cancelCall (some .exec1) ∈ s.history →
      s.job.status ≠ .tenantIDsNotMatch) ∧
    (s.finished = true → s.job.status = .tenantIDsNotMatch →
      lastStore s.history = some (.exec1, .tenantIDsNotMatch) ∧
      s.action1 = .CleanupTenant ∧ Ev.cancelCall (some .exec1) ∉ s.history) := by
  have hloop := run_initialize_loop_not_mismatch j w fuel
  have hI : Inv s := Inv.exec sched (Inv.init project jCfg endpoints a1 .InitializeTenant) hexec
  have hK : InvInit s :=
    InvInit.afterSchedule sched (InvInit.initial project jCfg endpoints a1) hexec
  have hcancelled : s.finished = true → Ev.cancelCall (some .exec1) ∈ s.history →
      s.job.status ≠ .tenantIDsNotMatch := by
    intro hfin hcall hst
    simp only [Shared.finished, Bool.and_eq_true, beq_iff_eq] at hfin
    rcases hK.overwritten hcall (Or.inr hfin.1.1) hst with h | h <;>
      · rw [hfin.1.2] at h; simp at h
  refine ⟨initializeTenant_not_mismatch j ctx reply,
    fun status message store => CreateUpdateWatcher_not_mismatch _ _ _ _ _,
    fun rpc => ⟨amInitializeTenant_not_mismatch ctx rpc, sreInitializeTenant_not_mismatch ctx rpc⟩,
    hloop.1, ?_, ?_, hcancelled, ?_⟩
  · have hs := hloop.2
    simp only [run, runGoroutine] at hs ⊢
    split
    · rename_i hnone
      simp only [hnone] at hs
      simp only [hs]
      decide
    · split <;> simp
  · intro st hmem hst
    subst hst
    rcases hI.stores _ _ hmem with ⟨h, _⟩ | ⟨_, h⟩
    · cases h
    · have ha := hK.action2
      simp only [outcome, Shared.actionOf, ha] at h
      simp at h
  · intro hfin hst
    have hpc2 : s.pc2 = some .done := by
      simp only [Shared.finished, Bool.and_eq_true, beq_iff_eq] at hfin
      exact hfin.2
    obtain ⟨t, st, hl, ht⟩ := hI.exec2_stored (Or.inr hpc2)
    have hstatus : s.job.status = st := by
      have := hI.status_last
      rw [hl] at this
      simpa using this
    rw [hst] at hstatus
    subst hstatus
    have hout : outcome (s.actionOf t) .tenantIDsNotMatch := by
      rcases hI.stores t _ (lastStore_mem _ _ _ hl) with ⟨h, _⟩ | ⟨_, h⟩
      · exact absurd h ht
      · exact h
    have hact : s.actionOf t = .CleanupTenant := by
      simp only [outcome] at hout
      simpa using hout
    cases t with
    | manager => exact absurd rfl ht
    | exec2 =>
      have ha := hK.action2
      simp only [Shared.actionOf, ha] at hact
      cases hact
    | exec1 =>
      exact ⟨hl, by simpa [Shared.actionOf] using hact, fun hcall => hcancelled hfin hcall hst⟩

/-- A subscriber that connects to a server with two subscribers is the third key of
`Clients` when its first snapshot is sent. -/
theorem StreamProjectUpdates_store_before_send_witness :
    ∃ rest, (serverTwoSubscribers.StreamProjectUpdates none (fun _ => .done .canceled) 1).acts =
      .store :: .send { Projects := [] }
        [.chan updateChan, .chan { cap := 1, len := 1 }, .chan updateChan] :: rest :=
  match StreamProjectUpdates_store_before_send serverTwoSubscribers none
    (fun _ => .done .canceled) 1 with
  | ⟨rest, h, _⟩ => ⟨rest, h⟩

/-- A cleanup of `foo` whose cancel function the manager invokes is superseded by an
initialization; its attempt then finds the watcher owned by another project and stores
`tenantIDsNotMatch`, but the job does not end in that status. -/
theorem initialize_never_mismatch_witness :
    ∃ s, (Shared.init projectFoo testConfigJob testConfigEndpoints .CleanupTenant
        .InitializeTenant).exec scheduleCancelledMismatch = some s ∧
      s.finished = true ∧ Ev.stored .exec1 .tenantIDsNotMatch ∈ s.history ∧
      s.job.status ≠ .tenantIDsNotMatch :=
  have hsome : ((Shared.init projectFoo testConfigJob testConfigEndpoints .CleanupTenant
      .InitializeTenant).exec scheduleCancelledMismatch).map
        (fun s => (s.finished, s.history)) =
      some (true,
        [.stored .manager .jobInProgress, .started .exec1, .cancelCall (some .exec1),
         .stored .manager .jobInProgress, .started .exec2,
         .stored .exec2 .tenantCreated, .stored .exec1 .tenantIDsNotMatch,
         .stored .exec1 .jobCancelled]) := by
    decide
  match hs : (Shared.init projectFoo testConfigJob testConfigEndpoints .CleanupTenant
      .InitializeTenant).exec scheduleCancelledMismatch with
  | none => by rw [hs] at hsome; simp at hsome
  | some s =>
    have hpair : s.finished = true ∧ s.history =
        [.stored .manager .jobInProgress, .started .exec1, .cancelCall (some .exec1),
         .stored .manager .jobInProgress, .started .exec2,
         .stored .exec2 .tenantCreated, .stored .exec1 .tenantIDsNotMatch,
         .stored .exec1 .jobCancelled] := by
      rw [hs] at hsome; simpa using hsome
    ⟨s, rfl, hpair.1, by rw [hpair.2]; decide,
      (initialize_never_mismatch jobFoo (jobCtx jobFoo) replyMismatch worldMismatch 3
        projectFoo testConfigJob testConfigEndpoints .CleanupTenant scheduleCancelledMismatch
        s hs).2.2.2.2.2.2.1 hpair.1 (by rw [hpair.2]; decide)⟩

/-- After the job of `foo` has been swept from the job table, `foo` is still a key of the
snapshot. -/
theorem snapshot_keeps_every_identity_witness :
    "foo" ∈ ((System.init testConfigJob testConfigEndpoints).steps
      eventsFooSwept).tc.grpcServer.keys ∧
    mapGet "foo" ((System.init testConfigJob testConfigEndpoints).steps
      eventsFooSwept).jm.jobList = none :=
  ⟨(snapshot_keeps_every_identity (System.init testConfigJob testConfigEndpoints)
      eventsFooSwept).2.1 projectFooDeleted (by decide), by decide⟩

end TenantController
